import Mathlib

/-!
# cgminer-android: hex codec, BitForce work frames, stratum line handling

A shallow embedding of parts of `util.c` and `driver-bitforce.c`.

Conventions of the embedding

* A C string is a `List Char`; reading at or past the end of the list yields
  the terminator NUL, and an embedded NUL terminates the string (`strlen`,
  `cstr`).
* Bytes (`unsigned char`) are naturals reduced modulo 256 where they are
  stored; 32-bit unsigned values are naturals reduced modulo `2^32`.
* Calls into the outside world (USB transfers, `send`, the clock, the
  restart flag) are answered from a script, a list consumed front to back;
  a run that exhausts its script has not returned and yields `none`.
-/

namespace Cgminer

/-! ## C strings and the C library functions used by the sources -/

/-- NUL, the C string terminator. -/
def NUL : Char := Char.ofNat 0

/-- The character a `char *` points at: the head of the list, NUL at its end. -/
def peek (s : List Char) : Char := s.headD NUL

/-- The C string stored in a character buffer: everything before the first NUL. -/
def cstr (s : List Char) : List Char := s.takeWhile (fun c => c != NUL)

/-- C `strlen`. -/
def strlen (s : List Char) : Nat := (cstr s).length

/-- C `isspace` in the "C" locale. -/
def isspace (c : Char) : Bool :=
  c == ' ' || c == '\t' || c == '\n' || c == Char.ofNat 11 || c == Char.ofNat 12 || c == '\r'

/-- Value of a hexadecimal digit, `none` for any other character. -/
def hexval (c : Char) : Option Nat :=
  if '0' ≤ c ∧ c ≤ '9' then some (c.toNat - 48)
  else if 'a' ≤ c ∧ c ≤ 'f' then some (c.toNat - 87)
  else if 'A' ≤ c ∧ c ≤ 'F' then some (c.toNat - 55)
  else none

/-- C `isxdigit`. -/
def isxdigit (c : Char) : Bool := (hexval c).isSome

/-- Reads the longest run of leading hex digits; `acc` is the value read so
far, `none` while no digit has been read. -/
def scan_xdigits : List Char → Option Nat → Option Nat
  | [], acc => acc
  | c :: cs, acc =>
    match hexval c with
    | none => acc
    | some d => scan_xdigits cs (some (16 * acc.getD 0 + d))

/-- Strips an optional sign; the flag tells whether it was a minus. -/
def scan_sign : List Char → Bool × List Char
  | '-' :: t => (true, t)
  | '+' :: t => (false, t)
  | s => (false, s)

/-- Strips an optional `0x` / `0X` prefix; the second component is the value
read so far.  The `0` of the prefix is a digit read, so a `0x` that no hex
digit follows converts to 0, as the C libraries the program is built against
do (glibc, the BSD-derived ones). -/
def scan_0x : List Char → List Char × Option Nat
  | '0' :: x :: t => if x == 'x' || x == 'X' then (t, some 0) else ('0' :: x :: t, none)
  | s => (s, none)

/-- C `sscanf(s, "%x", &v)` with `unsigned int v`: `some v` when the call
returns 1, `none` when it does not (matching failure or end of input).
White space is skipped, then an optional sign, an optional `0x` and the longest
run of hex digits are read; a minus sign negates modulo `2^32`. -/
def sscanf_x (s : List Char) : Option Nat :=
  let s1 := s.dropWhile isspace
  let sg := scan_sign s1
  let px := scan_0x sg.2
  match scan_xdigits px.1 px.2 with
  | none => none
  | some v => some (if sg.1 then (2 ^ 32 - v % 2 ^ 32) % 2 ^ 32 else v % 2 ^ 32)

/-- C `sprintf(_, "%02x", v)`: lowercase hexadecimal, zero padded to two
characters. -/
def fmt_02x (v : Nat) : List Char :=
  let d := Nat.toDigits 16 v
  List.replicate (2 - d.length) '0' ++ d

/-- Stores `data` into `buf` starting at offset `off` (`memcpy`, `sprintf`). -/
def write_at {α : Type} (buf : List α) (off : Nat) (data : List α) : List α :=
  buf.take off ++ data ++ buf.drop (off + data.length)

/-! ## util.c: bin2hex, hex2bin -/

/-- `bin2hex(p, len)`: the `calloc`ed buffer the function returns.  Its size
is `2*len+1` rounded up to a multiple of 4; the loop `sprintf`s each byte
(two digits and a NUL) at offset `2*i`. -/
def bin2hex (p : List Nat) (len : Nat) : List Char :=
  let slen := len * 2 + 1
  let slen := if slen % 4 ≠ 0 then slen + (4 - slen % 4) else slen
  (List.range len).foldl
    (fun s i => write_at s (i * 2) (fmt_02x (p.getD i 0 % 256) ++ [NUL]))
    (List.replicate slen NUL)

/-- The `while` loop and the final test of `hex2bin`; `p` collects the bytes
stored through the destination pointer so far. -/
def hex2bin_loop : Nat → List Char → List Nat → Bool × List Nat
  | 0, hexstr, p => (peek hexstr == NUL, p)
  | len + 1, hexstr, p =>
    if peek hexstr == NUL then (false, p)
    else if peek hexstr.tail == NUL then (false, p)
    else
      match sscanf_x [peek hexstr, peek hexstr.tail] with
      | none => (false, p)
      | some v => hex2bin_loop len (hexstr.drop 2) (p ++ [v % 256])

/-- `hex2bin(p, hexstr, len)`: the return value and the bytes written to `p`,
in order (they are written also when the call then fails). -/
def hex2bin (hexstr : List Char) (len : Nat) : Bool × List Nat :=
  hex2bin_loop len hexstr []


/-! ## C library: bounded string comparison -/

/-- C `strncasecmp(a, b, n) == 0`: the first `n` characters agree up to case,
or both strings end before that. -/
def strncasecmp_eq : List Char → List Char → Nat → Bool
  | _, _, 0 => true
  | a, b, n + 1 =>
    if (peek a).toLower != (peek b).toLower then false
    else if peek a == NUL then true
    else strncasecmp_eq a.tail b.tail n

/-- C `strncmp(a, b, n) == 0`. -/
def strncmp_eq : List Char → List Char → Nat → Bool
  | _, _, 0 => true
  | a, b, n + 1 =>
    if peek a != peek b then false
    else if peek a == NUL then true
    else strncmp_eq a.tail b.tail n

/-! ## 32-bit words -/

/-- Memory image of the `uint32_t` value `htobe32(x)`: the four bytes of `x`,
most significant first (the same bytes on hosts of either byte order). -/
def store_be32 (x : Nat) : List Nat :=
  [x / 2 ^ 24 % 256, x / 2 ^ 16 % 256, x / 2 ^ 8 % 256, x % 256]

/-- Memory image of a `uint32_t` on a little-endian host. -/
def store_le32 (x : Nat) : List Nat :=
  [x % 256, x / 2 ^ 8 % 256, x / 2 ^ 16 % 256, x / 2 ^ 24 % 256]

/-- Little-endian load of a `uint32_t` from four bytes of memory. -/
def load_le32 (b : List Nat) : Nat :=
  b.getD 0 0 % 256 + b.getD 1 0 % 256 * 2 ^ 8 + b.getD 2 0 % 256 * 2 ^ 16
    + b.getD 3 0 % 256 * 2 ^ 24

/-- `swab32`: reverses the four bytes of a 32-bit word. -/
def swab32 (x : Nat) : Nat :=
  x % 256 * 2 ^ 24 + x / 2 ^ 8 % 256 * 2 ^ 16 + x / 2 ^ 16 % 256 * 2 ^ 8 + x / 2 ^ 24 % 256

/-- Subtraction of `uint32_t` values. -/
def sub32 (a b : Nat) : Nat := (a % 2 ^ 32 + 2 ^ 32 - b % 2 ^ 32) % 2 ^ 32

/-! ## driver-bitforce.c: state, effects and scripts -/

/-- The `kname` of a device: `KNAME_WORK` ("full work") or `KNAME_RANGE`
("nonce range"). -/
inductive Kname where
  | work
  | range
  deriving DecidableEq, Repr

/-- `enum dev_reason` values the driver reports through `dev_error`. -/
inductive Reason where
  | over_heat
  | thermal_cutoff
  | comms_error
  | throttle
  deriving DecidableEq, Repr

/-- The seven FTDI control transfers of `bitforce_initialise`, by command tag. -/
inductive Ftdi where
  | reset
  | setdata
  | setbaud
  | setflow
  | setmodem
  | purgetx
  | purgerx
  deriving DecidableEq, Repr

/-- What a driver function does to the outside world, in program order. -/
inductive Effect where
  | mutex_lock
  | mutex_unlock
  | usb_write (data : List Nat)
  | usb_read
  | usb_transfer (req : Ftdi)
  | nmsleep (ms : Nat)
  | submit_nonce (nonce : Nat)
  | dev_error (reason : Reason)
  | work_started
  | restart_wait (ms : Nat)
  | mutex_trylock (acquired : Bool)
  | sleep (seconds : Nat)
  deriving DecidableEq, Repr

/-- The enable state `deven` of a device: `DEV_ENABLED`, `DEV_RECOVER`,
`DEV_DISABLED`. -/
inductive Deven where
  | enabled
  | recover
  | disabled
  deriving DecidableEq, Repr

/-- The fields of `struct cgpu_info` the BitForce driver works on.
`sleep_ms`, `wait_ms` are `unsigned int`, `nonces` is `uint32_t`; they are
kept reduced modulo `2^32` by every update.  (`avg_wait_f`, `avg_wait_d` are
floating-point display statistics and are left out.)  The temperature `temp`
is a `float`; it is held as the rational the parser returned. -/
structure Bitforce where
  nonce_range : Bool := false
  sleep_ms : Nat := 0
  wait_ms : Nat := 0
  nonces : Nat := 0
  hw_errors : Nat := 0
  kname : Kname := Kname.work
  polling : Bool := false
  flash_led : Bool := false
  temp : Rat := 0
  cutofftemp : Int := 0
  deven : Deven := Deven.enabled
  deriving DecidableEq, Repr

/-- The fields of `struct work` the driver reads and writes: `midstate[32]`,
`data[128]` and `blk.nonce` (`uint32_t`). -/
structure Work where
  midstate : List Nat
  data : List Nat
  nonce : Nat
  deriving DecidableEq, Repr

/-- Outcome of one `usb_write` or `usb_ftdi_read_nl`: the return value, the
transferred `amount`, and (for a read) the reply buffer as the call left it. -/
structure UsbReply where
  err : Int
  amount : Int
  buf : List Char := []
  deriving DecidableEq, Repr

/-- Result of a run of `bitforce_send_work`; `ret = none` when the script
ended before the function returned. -/
structure SendResult where
  ret : Option Bool
  dev : Bitforce
  work : Work
  trace : List Effect
  deriving DecidableEq, Repr

/-- Puts the effects `pre` in front of a result's trace. -/
def SendResult.after (pre : List Effect) (r : SendResult) : SendResult :=
  { r with trace := pre ++ r.trace }

/-- ASCII bytes of a command string. -/
def ascii (s : String) : List Nat := s.toList.map Char.toNat

/-- `bitforce_initialise(bitforce, lock)`: takes the device mutex when `lock`
is set, issues the seven FTDI transfers, releases the mutex when `lock` is
set. -/
def bitforce_initialise (lock : Bool) : List Effect :=
  (if lock then [Effect.mutex_lock] else [])
    ++ [Effect.usb_transfer Ftdi.reset, Effect.usb_transfer Ftdi.setdata,
        Effect.usb_transfer Ftdi.setbaud, Effect.usb_transfer Ftdi.setflow,
        Effect.usb_transfer Ftdi.setmodem, Effect.usb_transfer Ftdi.purgetx,
        Effect.usb_transfer Ftdi.purgerx]
    ++ (if lock then [Effect.mutex_unlock] else [])

/-! ## driver-bitforce.c: bitforce_send_work -/

/-- The eight bytes that `sprintf(_, ">>>>>>>>")` stores, with its NUL. -/
def gt8z : List Nat := List.replicate 8 0x3E ++ [0]

/-- Lines 437-456 of `bitforce_send_work`: fills the frame buffer `ob`
(`unsigned char ob[70]`, indeterminate on entry) and gives the frame length,
the updated device and the updated work. -/
def build_frame (ob : List Nat) (dev : Bitforce) (work : Work) :
    List Nat × Nat × Bitforce × Work :=
  let ob := write_at ob 0 gt8z
  let ob := write_at ob 8 (work.midstate.take 32)
  let ob := write_at ob (8 + 32) ((work.data.drop 64).take 12)
  if !dev.nonce_range then
    let ob := write_at ob (8 + 32 + 12) gt8z
    (ob, 60, { dev with nonces := 0xffffffff }, { work with nonce := 0xffffffff })
  else
    let ob := write_at ob (8 + 32 + 12) (store_be32 work.nonce)
    let dev := { dev with nonces := 0x33333332 }
    let ob := write_at ob (8 + 32 + 12 + 4) (store_be32 ((work.nonce + dev.nonces) % 2 ^ 32))
    let work := { work with nonce := (work.nonce + (dev.nonces + 1)) % 2 ^ 32 }
    let ob := write_at ob (8 + 32 + 12 + 8) gt8z
    (ob, 68, dev, work)

/-- Lines 437-494 of `bitforce_send_work`, entered with the device mutex held
after the command was answered `OK`: builds the frame, writes it and reads the
second status line. -/
def send_frame (ob : List Nat) (dev : Bitforce) (work : Work) : List UsbReply → SendResult
  | [] =>
    let f := build_frame ob dev work
    ⟨none, f.2.2.1, f.2.2.2, [Effect.usb_write (f.1.take f.2.1)]⟩
  | w :: rest =>
    let f := build_frame ob dev work
    let len : Nat := f.2.1
    let wr := [Effect.usb_write (f.1.take len)]
    if w.err < 0 ∨ w.amount ≠ len then
      ⟨some false, f.2.2.1, f.2.2.2, wr ++ [Effect.mutex_unlock]⟩
    else
      match rest with
      | [] => ⟨none, f.2.2.1, f.2.2.2, wr ++ [Effect.usb_read]⟩
      | r :: _ =>
        if r.err < 0 then
          ⟨some false, f.2.2.1, f.2.2.2, wr ++ [Effect.usb_read, Effect.mutex_unlock]⟩
        else if r.amount = 0 ∨ peek r.buf = NUL then
          ⟨some false, f.2.2.1, f.2.2.2, wr ++ [Effect.usb_read, Effect.mutex_unlock]⟩
        else if !strncasecmp_eq r.buf "OK".toList 2 then
          ⟨some false, f.2.2.1, f.2.2.2, wr ++ [Effect.usb_read, Effect.mutex_unlock]⟩
        else
          ⟨some true, f.2.2.1, f.2.2.2,
            wr ++ [Effect.usb_read, Effect.mutex_unlock, Effect.work_started]⟩

/-- `bitforce_send_work(thr, work)`.  Each pass through `re_send` takes the
answers to its `usb_write` and `usb_ftdi_read_nl` from the script; when the
script ends, the call that got no answer is the last entry of the trace. -/
def bitforce_send_work (ob : List Nat) : Bitforce → Work → List UsbReply → SendResult
  | dev, work, [] =>
    let cmd := if dev.nonce_range then ascii "ZPX" else ascii "ZDX"
    ⟨none, dev, work, [Effect.mutex_lock, Effect.usb_write cmd]⟩
  | dev, work, [w] =>
    let cmd := if dev.nonce_range then ascii "ZPX" else ascii "ZDX"
    if w.err < 0 ∨ w.amount ≠ 3 then
      ⟨some false, dev, work, [Effect.mutex_lock, Effect.usb_write cmd, Effect.mutex_unlock]⟩
    else ⟨none, dev, work, [Effect.mutex_lock, Effect.usb_write cmd, Effect.usb_read]⟩
  | dev, work, w :: r :: rest =>
    let cmd := if dev.nonce_range then ascii "ZPX" else ascii "ZDX"
    if w.err < 0 ∨ w.amount ≠ 3 then
      ⟨some false, dev, work, [Effect.mutex_lock, Effect.usb_write cmd, Effect.mutex_unlock]⟩
    else if r.err < 0 then
      ⟨some false, dev, work,
        [Effect.mutex_lock, Effect.usb_write cmd, Effect.usb_read, Effect.mutex_unlock]⟩
    else if r.amount = 0 ∨ peek r.buf = NUL ∨ strncasecmp_eq r.buf "B".toList 1 then
      (bitforce_send_work ob dev work rest).after
        [Effect.mutex_lock, Effect.usb_write cmd, Effect.usb_read, Effect.mutex_unlock,
          Effect.nmsleep 50]
    else if !strncasecmp_eq r.buf "OK".toList 2 then
      if dev.nonce_range then
        (bitforce_send_work ob
            { dev with nonce_range := false, sleep_ms := dev.sleep_ms * 5 % 2 ^ 32,
                       kname := Kname.work } work rest).after
          [Effect.mutex_lock, Effect.usb_write cmd, Effect.usb_read, Effect.mutex_unlock]
      else
        ⟨some false, dev, work,
          [Effect.mutex_lock, Effect.usb_write cmd, Effect.usb_read, Effect.mutex_unlock]⟩
    else
      (send_frame ob dev work rest).after
        [Effect.mutex_lock, Effect.usb_write cmd, Effect.usb_read]

/-- The data of the `usb_write` calls of a trace, in order. -/
def usb_writes : List Effect → List (List Nat)
  | [] => []
  | Effect.usb_write d :: t => d :: usb_writes t
  | _ :: t => usb_writes t

/-- A pass through `re_send` in which the command is written in full and the
device answers nothing or busy (a reply starting with `B`). -/
@[reducible] def busy_round (w r : UsbReply) : Prop :=
  0 ≤ w.err ∧ w.amount = 3 ∧ 0 ≤ r.err
    ∧ (r.amount = 0 ∨ peek r.buf = NUL ∨ strncasecmp_eq r.buf "B".toList 1 = true)

/-- A pass through `re_send` in which the command is written in full and the
device accepts it: a non-empty reply starting with `OK`. -/
@[reducible] def accept_round (w r : UsbReply) : Prop :=
  0 ≤ w.err ∧ w.amount = 3 ∧ 0 ≤ r.err ∧ r.amount ≠ 0 ∧ peek r.buf ≠ NUL
    ∧ strncasecmp_eq r.buf "OK".toList 2 = true

/-- The script of a sequence of passes: the write answer, then the read
answer, of each. -/
def rounds (l : List (UsbReply × UsbReply)) : List UsbReply :=
  l.flatMap (fun x => [x.1, x.2])

/-! ## driver-bitforce.c: bitforce_get_result -/

/-- One pass of the poll loop of `bitforce_get_result` as the outside world
answers it: the restart flag read at the top of the loop, `amount` and the
reply buffer after `usb_ftdi_read_nl` (the return values of both USB calls are
not looked at), and `elapsed.tv_sec`, the whole seconds since the work
started. -/
structure Poll where
  work_restart : Bool := false
  amount : Int
  buf : List Char
  elapsed_sec : Int
  deriving DecidableEq, Repr

/-- Result of a run of `bitforce_get_result`; `ret = none` when the script
ended while the function was still polling. -/
structure GetResult where
  ret : Option Int
  dev : Bitforce
  work : Work
  trace : List Effect
  deriving DecidableEq, Repr

/-- Puts the effects `pre` in front of a result's trace. -/
def GetResult.after (pre : List Effect) (r : GetResult) : GetResult :=
  { r with trace := pre ++ r.trace }

/-- The nonces handed to `submit_nonce`, in order. -/
def submitted : List Effect → List Nat
  | [] => []
  | Effect.submit_nonce n :: t => n :: submitted t
  | _ :: t => submitted t

/-- Lines 550-559: the sleep-time adjustment made for a reply starting with
`N`. -/
def tune_sleep (dev : Bitforce) : Bitforce :=
  if dev.wait_ms > (dev.sleep_ms + 50 * 2) % 2 ^ 32 then
    { dev with sleep_ms := (dev.sleep_ms + sub32 dev.wait_ms dev.sleep_ms / 2) % 2 ^ 32 }
  else if dev.wait_ms = dev.sleep_ms then
    if dev.sleep_ms > 50 then { dev with sleep_ms := dev.sleep_ms - 50 }
    else if dev.sleep_ms > 10 then { dev with sleep_ms := dev.sleep_ms - 10 }
    else dev
  else dev

/-- Lines 588-607: the loop over the nonces of a `NONCE-FOUND` reply.
`pnoncebuf` is the reply from the current token on; `nonce` is the value the
local variable holds on entry (`hex2bin` overwrites its first bytes, as many
as it decodes).  The host is little-endian, so `swab32` is applied. -/
def nonce_loop : Bitforce → Work → Nat → List Char → Bitforce × Work × List Effect
  | dev, work, nonce, pnoncebuf =>
    let mem := write_at (store_le32 nonce) 0 ((hex2bin pnoncebuf 4).2)
    let nonce := swab32 (load_le32 mem)
    let broken : Bool :=
      dev.nonce_range && (decide (nonce ≥ work.nonce) ||
        (decide (work.nonce > 0) && decide (nonce < sub32 (sub32 work.nonce dev.nonces) 1)))
    let dev1 : Bitforce :=
      if broken then
        { dev with nonce_range := false, sleep_ms := dev.sleep_ms * 5 % 2 ^ 32,
                   kname := Kname.work }
      else dev
    let work1 : Work := if broken then { work with nonce := 0xffffffff } else work
    match pnoncebuf with
    | _ :: _ :: _ :: _ :: _ :: _ :: _ :: _ :: c :: rest =>
      if c != ',' then (dev1, work1, [Effect.submit_nonce nonce])
      else
        let r := nonce_loop dev1 work1 nonce rest
        (r.1, r.2.1, Effect.submit_nonce nonce :: r.2.2)
    | _ => (dev1, work1, [Effect.submit_nonce nonce])

/-- Lines 536-609 of `bitforce_get_result`: what happens once the poll loop
was left through its `break`, with the last answer `p`.  `nonce0` is the
indeterminate initial value of the local `nonce`. -/
def classify (nonce0 : Nat) (dev : Bitforce) (work : Work) (p : Poll) : GetResult :=
  if p.elapsed_sec > 7 ∧ p.amount = 0 then
    ⟨some 0, dev, work, [Effect.dev_error Reason.over_heat]⟩
  else
    let pre : List Effect :=
      if p.elapsed_sec > 7 then [Effect.dev_error Reason.over_heat] else []
    let dev : Bitforce :=
      if p.elapsed_sec > 7 then dev
      else if strncasecmp_eq p.buf "N".toList 1 then tune_sleep dev
      else dev
    if strncasecmp_eq (p.buf.drop 2) "-".toList 1 then
      ⟨some dev.nonces, dev, work, pre⟩
    else if strncasecmp_eq p.buf "I".toList 1 then
      ⟨some 0, dev, work, pre⟩
    else if !strncasecmp_eq p.buf "NONCE-FOUND".toList 11 then
      ⟨some 0, { dev with hw_errors := dev.hw_errors + 1 }, work,
        pre ++ bitforce_initialise true⟩
    else
      let r := nonce_loop dev work nonce0 (p.buf.drop 12)
      ⟨some r.1.nonces, r.1, r.2.1, pre ++ r.2.2⟩

/-- `bitforce_get_result(thr, work)`: the poll loop (lines 508-534), each
pass answered by one entry of the script, followed by `classify`. -/
def bitforce_get_result (nonce0 : Nat) : Bitforce → Work → List Poll → GetResult
  | dev, work, [] => ⟨none, dev, work, []⟩
  | dev, work, p :: rest =>
    if p.work_restart then ⟨some 0, dev, work, []⟩
    else
      let io := [Effect.mutex_lock, Effect.usb_write (ascii "ZFX"), Effect.usb_read,
        Effect.mutex_unlock]
      if p.elapsed_sec ≥ 30 then ⟨some 0, dev, work, io⟩
      else if p.amount > 0 ∧ peek p.buf ≠ NUL ∧ strncasecmp_eq p.buf "B".toList 1 = false then
        (classify nonce0 dev work p).after io
      else
        let delay_time_ms : Nat := if peek p.buf ≠ NUL then 10 else 2 * 50
        (bitforce_get_result nonce0 { dev with wait_ms := (dev.wait_ms + delay_time_ms) % 2 ^ 32 }
            work rest).after (io ++ [Effect.nmsleep delay_time_ms])

/-- A pass of the poll loop that neither returns nor breaks: no restart is
pending, the long timeout has not been reached, and the reply is empty or
starts with `B`. -/
@[reducible] def keeps_polling (q : Poll) : Prop :=
  q.work_restart = false ∧ q.elapsed_sec < 30
    ∧ ¬ (q.amount > 0 ∧ peek q.buf ≠ NUL ∧ strncasecmp_eq q.buf "B".toList 1 = false)

/-! ## JSON values and the jansson accessors used by util.c -/

/-- A JSON value as the jansson library holds it. -/
inductive Json where
  | null
  | bool (b : Bool)
  | integer (n : Int)
  | real (q : Rat)
  | string (s : String)
  | array (elems : List Json)
  | object (members : List (String × Json))

/-- `json_is_array(v)`; a NULL pointer is not an array. -/
def json_is_array : Option Json → Bool
  | some (Json.array _) => true
  | _ => false

/-- `json_is_null(v)`: a JSON null (a NULL pointer is not one). -/
def json_is_null : Option Json → Bool
  | some Json.null => true
  | _ => false

/-- `json_is_true(v)`. -/
def json_is_true : Option Json → Bool
  | some (Json.bool true) => true
  | _ => false

/-- `json_array_size(v)`; 0 when `v` is not an array. -/
def json_array_size : Option Json → Nat
  | some (Json.array l) => l.length
  | _ => 0

/-- `json_array_get(v, i)`; NULL when `v` is not an array or `i` is out of
range. -/
def json_array_get : Option Json → Nat → Option Json
  | some (Json.array l), i => l.get? i
  | _, _ => none

/-- `json_string_value(v)`; NULL when `v` is not a string. -/
def json_string_value : Option Json → Option String
  | some (Json.string s) => some s
  | _ => none

/-! ## util.c: parse_notify -/

/-- `__json_array_string(val, entry)`. -/
def __json_array_string (val : Option Json) (entry : Nat) : Option String :=
  if json_is_null val then none
  else if !json_is_array val then none
  else if entry > json_array_size val then none
  else
    let arr_entry := json_array_get val entry
    json_string_value arr_entry

/-- `json_array_string(val, entry)`: a fresh copy of `__json_array_string`. -/
def json_array_string (val : Option Json) (entry : Nat) : Option String :=
  match __json_array_string val entry with
  | some buf => some buf
  | none => none

/-- Conversion of a `size_t` to `int`. -/
def int_of_size (n : Nat) : Int :=
  if n % 2 ^ 32 < 2 ^ 31 then (n % 2 ^ 32 : Nat) else (n % 2 ^ 32 : Nat) - 2 ^ 32

/-- `struct stratum_work`: the job parameters of the last notify.  A string
field is `none` while its pointer is NULL; `merkle` is the array the pointer
`merkle` addresses and `merkles` the number of its entries in use; `diff` is
a `double`, held as a rational. -/
structure StratumWork where
  job_id : Option String := none
  prev_hash : Option String := none
  coinbase1 : Option String := none
  coinbase2 : Option String := none
  merkle : List (Option String) := []
  bbversion : Option String := none
  nbit : Option String := none
  ntime : Option String := none
  clean : Bool := false
  merkles : Int := 0
  diff : Rat := 0
  deriving DecidableEq, Repr

/-- The fields of `struct pool` that `parse_notify`, `parse_method`,
`stratum_send`, `extract_sockaddr`, `initiate_stratum`, `auth_stratum` and
`suspend_stratum` work on.  The counters are declared
outside these sources; their increments are taken on the naturals and the
integers.  `times_sent` and `bytes_sent` are the two sent counters of
`cgminer_pool_stats`; `n2size` is printed with `%d` and is held as an `int`. -/
structure Pool where
  swork : StratumWork := {}
  nonce2 : Nat := 0
  getwork_requested : Nat := 0
  stratum_active : Bool := false
  times_sent : Nat := 0
  bytes_sent : Int := 0
  nonce1 : Option String := none
  n2size : Int := 0
  stratum_url : Option String := none
  sockaddr_url : Option String := none
  stratum_port : Option String := none
  stratum_notify : Bool := false
  probed : Bool := false
  rpc_user : String := ""
  rpc_pass : String := ""
  deriving DecidableEq, Repr

/-- Result of `parse_notify`: the return value, the pool and the global
counter `total_getworks` afterwards. -/
structure NotifyResult where
  ret : Bool
  pool : Pool
  total_getworks : Nat
  deriving DecidableEq, Repr

/-- `parse_notify(pool, val)`; `total_getworks` is the global counter. -/
def parse_notify (pool : Pool) (total_getworks : Nat) (val : Option Json) : NotifyResult :=
  let arr := json_array_get val 4
  if arr.isNone || !json_is_array arr then ⟨false, pool, total_getworks⟩
  else
    let merkles : Int := int_of_size (json_array_size arr)
    let job_id := json_array_string val 0
    let prev_hash := json_array_string val 1
    let coinbase1 := json_array_string val 2
    let coinbase2 := json_array_string val 3
    let bbversion := json_array_string val 5
    let nbit := json_array_string val 6
    let ntime := json_array_string val 7
    let clean := json_is_true (json_array_get val 8)
    if job_id.isNone || prev_hash.isNone || coinbase1.isNone || coinbase2.isNone
        || bbversion.isNone || nbit.isNone || ntime.isNone then
      ⟨false, pool, total_getworks⟩
    else
      let merkle : List (Option String) :=
        if merkles ≠ 0 then
          (List.range merkles.toNat).map (fun i => json_array_string arr i)
        else pool.swork.merkle
      let swork : StratumWork :=
        { pool.swork with
          job_id := job_id, prev_hash := prev_hash, coinbase1 := coinbase1,
          coinbase2 := coinbase2, bbversion := bbversion, nbit := nbit, ntime := ntime,
          clean := clean, merkle := merkle, merkles := merkles }
      let pool1 : Pool :=
        { pool with swork := swork, nonce2 := if clean then 0 else pool.nonce2 }
      ⟨true, { pool1 with getwork_requested := pool1.getwork_requested + 1 },
        total_getworks + 1⟩

/-- A pool that holds an earlier job, used as a concrete starting state. -/
def pool_with_old_job : Pool :=
  { swork := { job_id := some "old", merkle := [some "m"], merkles := 1 },
    nonce2 := 7, getwork_requested := 3 }

/-- The params of the notify of scenario S6. -/
def notify_s6 : Json :=
  Json.array [Json.string "job1", Json.string "prev", Json.string "cb1", Json.string "cb2",
    Json.array [Json.string "m0", Json.string "m1"], Json.string "ver", Json.string "nbit",
    Json.string "nt", Json.bool true]

/-! ## util.c: recv_line -/

/-- C `strstr(s, "\n") != NULL`. -/
def has_newline (s : List Char) : Bool := (cstr s).contains '\n'

/-- Outcome of `strtok(buf, "\n")` on the memory `buf`: it skips leading
newlines; when the string ends there the result is NULL (`none`), otherwise
the token starts at the returned offset, and the newline that ends it (if
any) is overwritten by NUL in the returned memory. -/
def strtok_nl (buf : List Char) : Option Nat × List Char :=
  let start := (buf.takeWhile (fun c => c == '\n')).length
  if peek (buf.drop start) == NUL then (none, buf)
  else
    let tlen := ((buf.drop start).takeWhile (fun c => c != '\n' && c != NUL)).length
    if peek (buf.drop (start + tlen)) == '\n' then
      (some start, write_at buf (start + tlen) [NUL])
    else (some start, buf)

/-- The `n` bytes of memory from offset `off` on, as `memmove` reads them. -/
def mem_read (buf : List Char) (off n : Nat) : List Char :=
  (buf.drop off).take n

/-- The receive buffer of a pool: the allocated memory `sockbuf` (the C string
it holds ends at its first NUL), its recorded size, and the receive
statistics. -/
structure SockBuf where
  sockbuf : List Char
  sockbuf_size : Nat := 0
  times_received : Nat := 0
  bytes_received : Nat := 0
  deriving DecidableEq, Repr

/-- Lines 1026-1043 of `recv_line`: splits the first line off the buffer.
Gives the returned string (`none` for NULL) and the pool afterwards. -/
def recv_line_split (pool : SockBuf) : Option (List Char) × SockBuf :=
  let buflen := strlen pool.sockbuf
  let tk := strtok_nl pool.sockbuf
  match tk.1 with
  | none => (none, { pool with sockbuf := tk.2 })
  | some tok =>
    let sret := cstr (tk.2.drop tok)
    let len := sret.length
    let sockbuf :=
      if buflen > len + 1 then write_at tk.2 0 (mem_read tk.2 (len + 1) (buflen - len + 1))
      else write_at tk.2 0 [NUL]
    (some sret, { pool with sockbuf := sockbuf, times_received := pool.times_received + 1,
                            bytes_received := pool.bytes_received + len })

/-- Outcome of one `recv(sock, _, RECVSIZE, 0)`: the return value, the bytes
stored (the first `n` of `data` when `n > 0`), whether `errno` is `EAGAIN` or
`EWOULDBLOCK` afterwards, and whether less than 60 s have passed since
`recv_line` started when the clock is read after this call. -/
structure RecvStep where
  n : Int
  data : List Char := []
  eagain : Bool := false
  before_60s : Bool := true
  deriving DecidableEq, Repr

/-- `recalloc_sock(pool, len)`; `rbufsize` is the constant `RBUFSIZE`, which
is defined outside these sources. -/
def recalloc_sock (rbufsize : Nat) (pool : SockBuf) (len : Nat) : SockBuf :=
  let old := strlen pool.sockbuf
  let new := old + len + 1
  if new < pool.sockbuf_size then pool
  else
    let new := new + (rbufsize - new % rbufsize)
    { pool with sockbuf := pool.sockbuf.take old ++ List.replicate (new - old) NUL,
                sockbuf_size := new }

/-- C `strcat(dst, s)` on the memory `dst`. -/
def strcat (dst s : List Char) : List Char := write_at dst (strlen dst) (cstr s ++ [NUL])

/-- The `do ... while` receive loop of `recv_line` (lines 1008-1022).  The
result of `recv` is kept in a `size_t`, so the test `n < 1` holds only when
`recv` returned 0.  `none`: the script ended inside the loop. -/
def recv_loop (rbufsize : Nat) : SockBuf → List RecvStep → Option (SockBuf × List RecvStep)
  | _, [] => none
  | pool, ev :: rest =>
    if ev.n = 0 ∧ ev.eagain = false then some (pool, rest)
    else
      let s : List Char := if ev.n > 0 then ev.data.take ev.n.toNat else []
      let slen := strlen s
      let pool := recalloc_sock rbufsize pool slen
      let pool := { pool with sockbuf := strcat pool.sockbuf s }
      if ev.before_60s ∧ has_newline pool.sockbuf = false then recv_loop rbufsize pool rest
      else some (pool, rest)

/-- `clear_sock(pool)`: receives into the buffer until `recv` returns no
more data, then empties the buffer string. -/
def clear_sock : SockBuf → List RecvStep → Option SockBuf
  | _, [] => none
  | pool, ev :: rest =>
    if ev.n > 0 then
      clear_sock { pool with sockbuf := write_at pool.sockbuf 0 (ev.data.take ev.n.toNat) } rest
    else some { pool with sockbuf := write_at pool.sockbuf 0 [NUL] }

/-- `recv_line(pool)`.  `readable` answers `socket_full(pool, true)`, the
script answers the `recv` calls.  The result is the returned string (`none`
for NULL) and the pool afterwards; the outer `none` means the script ended
before the function returned. -/
def recv_line (rbufsize : Nat) (pool : SockBuf) (readable : Bool) (script : List RecvStep) :
    Option (Option (List Char) × SockBuf) :=
  if has_newline pool.sockbuf = false then
    if readable = false then
      (clear_sock pool script).map (fun p => (none, p))
    else
      match recv_loop rbufsize pool script with
      | none => none
      | some (pool1, rest) =>
        match recv_line_split pool1 with
        | (none, pool2) => (clear_sock pool2 rest).map (fun p => (none, p))
        | (some sret, pool2) => some (some sret, pool2)
  else
    match recv_line_split pool with
    | (none, pool2) => (clear_sock pool2 script).map (fun p => (none, p))
    | (some sret, pool2) => some (some sret, pool2)

/-- A receive buffer of `size` bytes, zeroed as `calloc` and `recalloc_sock`
leave it, holding the string `content`. -/
def sockbuf_with (content : String) (size : Nat) : SockBuf :=
  { sockbuf := content.toList ++ List.replicate (size - content.length) NUL,
    sockbuf_size := size }

/-! ## util.c: __stratum_send -/

/-- Answers of the outside world to one pass of the send loop: the return
value of `select`, the return value of `send`, and whether `errno` is
`EAGAIN` or `EWOULDBLOCK` after it. -/
structure SendStep where
  select_ret : Int := 1
  sent : Int
  eagain : Bool := false
  deriving DecidableEq, Repr

/-- One call `send(sock, s + off, len, 0)`: the offset and length passed, the
bytes of the line that lie in that range, and the return value. -/
structure SendCall where
  off : Int
  len : Int
  data : List Char
  sent : Int
  deriving DecidableEq, Repr

/-- Result of `__stratum_send`: the return value (`none` when the script ended
inside the loop), the `send` calls made, the number of `select` calls made,
and the statistics afterwards. -/
structure StratumSendResult where
  ret : Option Bool
  calls : List SendCall
  selects : Nat
  times_sent : Nat
  bytes_sent : Int
  deriving DecidableEq, Repr

/-- The `while (len > 0)` loop of `__stratum_send` and the statistics update
that follows it; `s` is the line after the `strcat`. -/
def stratum_send_loop (s : List Char) (times_sent : Nat) (bytes_sent : Int) :
    Int → Int → List SendStep → StratumSendResult
  | ssent, len, [] =>
    if len > 0 then ⟨none, [], 0, times_sent, bytes_sent⟩
    else ⟨some true, [], 0, times_sent + 1, bytes_sent + ssent⟩
  | ssent, len, ev :: rest =>
    if len > 0 then
      if ev.select_ret < 1 then ⟨some false, [], 1, times_sent, bytes_sent⟩
      else
        let call : SendCall := ⟨ssent, len, (s.drop ssent.toNat).take len.toNat, ev.sent⟩
        if ev.sent < 0 ∧ ev.eagain = false then
          ⟨some false, [call], 1, times_sent, bytes_sent⟩
        else
          let sent : Int := if ev.sent < 0 then 0 else ev.sent
          let ssent := ssent + sent
          let len := len - ssent
          let r := stratum_send_loop s times_sent bytes_sent ssent len rest
          { r with calls := call :: r.calls, selects := r.selects + 1 }
    else ⟨some true, [], 0, times_sent + 1, bytes_sent + ssent⟩

/-- `__stratum_send(pool, s, len)`: appends a newline to `s` (`strcat`),
increments `len` and runs the send loop.  `times_sent` and `bytes_sent` are
the pool statistics on entry. -/
def __stratum_send (times_sent : Nat) (bytes_sent : Int) (s : List Char) (len : Int)
    (script : List SendStep) : StratumSendResult :=
  stratum_send_loop (cstr s ++ ['\n']) times_sent bytes_sent 0 (len + 1) script

/-- The bytes the socket took over: of each `send` call that returned
`sent > 0`, the first `sent` bytes it was offered. -/
def bytes_handed : List SendCall → List Char
  | [] => []
  | c :: cs => c.data.take c.sent.toNat ++ bytes_handed cs


/-! ## driver-bitforce.c: detection, scans -/

/-- The device state `bitforce_detect_one` registers (lines 138-219): a
zeroed `struct cgpu_info` with `deven = DEV_ENABLED`, and `nonce_range`,
`sleep_ms`, `kname` set from the option `opt_bfl_noncerange`. -/
def bitforce_detect_one (opt_bfl_noncerange : Bool) : Bitforce :=
  if opt_bfl_noncerange then
    { nonce_range := true, sleep_ms := 500, kname := Kname.range, deven := Deven.enabled }
  else
    { sleep_ms := 500 * 5, kname := Kname.work, deven := Deven.enabled }

/-- A pass through `re_send` in which the command is written in full and the
device refuses it: a non-empty reply that starts neither with `B` nor with
`OK`. -/
@[reducible] def refuse_round (w r : UsbReply) : Prop :=
  0 ≤ w.err ∧ w.amount = 3 ∧ 0 ≤ r.err ∧ r.amount ≠ 0 ∧ peek r.buf ≠ NUL
    ∧ strncasecmp_eq r.buf "B".toList 1 = false
    ∧ strncasecmp_eq r.buf "OK".toList 2 = false

/-- The sleep the poll loop makes after a reply that does not end it:
`BITFORCE_CHECK_INTERVAL_MS` after a non-empty one, twice
`WORK_CHECK_INTERVAL_MS` after an empty one. -/
def poll_delay (q : Poll) : Nat := if peek q.buf ≠ NUL then 10 else 2 * 50

/-- The value of `wait_ms` after the poll loop ran through the passes `busy`,
starting from `w`. -/
def wait_after : Nat → List Poll → Nat
  | w, [] => w
  | w, q :: rest => wait_after ((w + poll_delay q) % 2 ^ 32) rest

/-- What the outside world supplies to one `bitforce_scanhash`: the
indeterminate contents of the locals `ob` and `nonce`, the work, the answers
to the USB calls of `bitforce_send_work`, the return value of `restart_wait`
(true when the wait ran its full time) and the answers to the polls. -/
structure Scan where
  ob : List Nat
  nonce0 : Nat
  work : Work
  usb : List UsbReply
  restart_wait : Bool := true
  polls : List Poll
  deriving DecidableEq, Repr

/-- Result of a run of `bitforce_scanhash`; `ret = none` when a script ended
before the function returned. -/
structure ScanResult where
  ret : Option Int
  dev : Bitforce
  work : Work
  trace : List Effect
  deriving DecidableEq, Repr

/-- `bitforce_scanhash(thr, work, max_nonce)`. -/
def bitforce_scanhash (dev : Bitforce) (s : Scan) : ScanResult :=
  let sr := bitforce_send_work s.ob dev s.work s.usb
  match sr.ret with
  | none => ⟨none, sr.dev, sr.work, sr.trace⟩
  | some send_ret =>
    let tr := sr.trace ++ [Effect.restart_wait sr.dev.sleep_ms]
    if !s.restart_wait then ⟨some 0, sr.dev, sr.work, tr⟩
    else
      let dev1 : Bitforce := { sr.dev with wait_ms := sr.dev.sleep_ms }
      if send_ret then
        let gr := bitforce_get_result s.nonce0 { dev1 with polling := true } sr.work s.polls
        match gr.ret with
        | none => ⟨none, gr.dev, gr.work, tr ++ gr.trace⟩
        | some ret =>
          let dev2 : Bitforce := { gr.dev with polling := false }
          if ret = -1 then
            ⟨some 0, { dev2 with hw_errors := dev2.hw_errors + 1 }, gr.work,
              tr ++ gr.trace ++ [Effect.dev_error Reason.comms_error]
                ++ bitforce_initialise true⟩
          else ⟨some ret, dev2, gr.work, tr ++ gr.trace⟩
      else
        ⟨some 0, { dev1 with hw_errors := dev1.hw_errors + 1 }, sr.work,
          tr ++ [Effect.dev_error Reason.comms_error] ++ bitforce_initialise true⟩

/-- The device state after a sequence of scans. -/
def run_scans : Bitforce → List Scan → Bitforce
  | dev, [] => dev
  | dev, s :: rest => run_scans (bitforce_scanhash dev s).dev rest

/-- The clock readings of a poll script are consistent with the time slept:
at every poll that reads the clock, the whole seconds elapsed since the work
started, `elapsed_sec`, are at least the milliseconds waited so far (`w`, the
value of `wait_ms`), rounded down to seconds.  Polls after the one at which
`bitforce_get_result` leaves its loop are not looked at. -/
def clock_ok : Nat → List Poll → Bool
  | _, [] => true
  | w, q :: rest =>
    q.work_restart
      || (decide ((w : Int) ≤ 1000 * q.elapsed_sec + 999)
          && (decide (30 ≤ q.elapsed_sec)
              || decide (q.amount > 0 ∧ peek q.buf ≠ NUL
                    ∧ strncasecmp_eq q.buf "B".toList 1 = false)
              || clock_ok (w + poll_delay q) rest))

/-- Every scan of the sequence, run from `dev` on, has consistent clock
readings: when `bitforce_send_work` returned true and the restart wait ran its
full time, the polls start with `wait_ms` equal to the `sleep_ms` that
`bitforce_send_work` left. -/
def clocks_ok : Bitforce → List Scan → Bool
  | _, [] => true
  | dev, s :: rest =>
    (decide ((bitforce_send_work s.ob dev s.work s.usb).ret ≠ some true) || !s.restart_wait
        || clock_ok (bitforce_send_work s.ob dev s.work s.usb).dev.sleep_ms s.polls)
      && clocks_ok (bitforce_scanhash dev s).dev rest

/-- The property of `sleep_ms` that every scan keeps: a positive multiple of
5, below 40000, and below 8000 while nonce-range is on. -/
def sleep_inv (d : Bitforce) : Prop :=
  5 ∣ d.sleep_ms ∧ 0 < d.sleep_ms ∧ d.sleep_ms < 40000
    ∧ (d.nonce_range = true → d.sleep_ms < 8000)

/-- A scan whose command and frame (`len` bytes: 60, or 68 with nonce-range)
are accepted at once and whose result is `NO-NONCE` after `busy` polls
answered `BUSY`, each poll one second after the work started. -/
def quiet_scan (len : Int) (busy : Nat) : Scan :=
  { ob := List.replicate 70 0, nonce0 := 0,
    work := ⟨List.replicate 32 0, List.replicate 128 0, 0⟩,
    usb := [⟨0, 3, []⟩, ⟨0, 3, "OK\n".toList⟩, ⟨0, len, []⟩, ⟨0, 3, "OK\n".toList⟩],
    restart_wait := true,
    polls := List.replicate busy ⟨false, 5, "BUSY\n".toList, 1⟩
      ++ [⟨false, 9, "NO-NONCE\n".toList, 1⟩] }

/-- Twelve scans with nonce-range on: in the first the device is busy for 11
polls, in the others the result is there at the first poll. -/
def scans_to_5 : List Scan := quiet_scan 68 11 :: List.replicate 11 (quiet_scan 68 0)

/-! ## driver-bitforce.c: bitforce_flash_led, bitforce_get_temp -/

/-- C `strchr(s, c)` for `c` other than NUL: the string from the first `c`
on, NULL (`none`) when the string ends first. -/
def strchr : List Char → Char → Option (List Char)
  | [], _ => none
  | x :: t, c => if x == c then some (x :: t) else if x == NUL then none else strchr t c

/-- Result of `bitforce_flash_led` or `bitforce_get_temp`: the return value
(`none` when the script ended first; `bitforce_flash_led` returns nothing and
is given `true`), the device afterwards and the effects. -/
structure TempResult where
  ret : Option Bool
  dev : Bitforce
  trace : List Effect
  deriving DecidableEq, Repr

/-- `bitforce_flash_led(bitforce)`.  `acquired` tells whether `mutex_trylock`
got the device mutex. -/
def bitforce_flash_led (dev : Bitforce) (acquired : Bool) : List UsbReply → TempResult
  | usb =>
    if dev.polling then ⟨some true, dev, []⟩
    else if !acquired then ⟨some true, dev, [Effect.mutex_trylock false]⟩
    else
      match usb with
      | [] => ⟨none, dev, [Effect.mutex_trylock true, Effect.usb_write (ascii "ZMX")]⟩
      | w :: _ =>
        if w.err < 0 ∨ w.amount ≠ 3 then
          ⟨some true, { dev with flash_led := false },
            [Effect.mutex_trylock true, Effect.usb_write (ascii "ZMX"), Effect.mutex_unlock]⟩
        else
          ⟨some true, { dev with flash_led := false },
            [Effect.mutex_trylock true, Effect.usb_write (ascii "ZMX"), Effect.sleep 4,
              Effect.mutex_unlock]⟩

/-- `bitforce_get_temp(bitforce)`.  `strtof` and `strtod` are the C library
parsers, taken as functions from the text to the value read; `acquired`
tells whether `mutex_trylock` got the device mutex. -/
def bitforce_get_temp (strtof strtod : List Char → Rat) (dev : Bitforce) (acquired : Bool) :
    List UsbReply → TempResult
  | usb =>
    if dev.polling then ⟨some true, dev, []⟩
    else if dev.flash_led then
      let f := bitforce_flash_led dev acquired usb
      ⟨f.ret, f.dev, f.trace⟩
    else if !acquired then ⟨some false, dev, [Effect.mutex_trylock false]⟩
    else
      let cmd := [Effect.mutex_trylock true, Effect.usb_write (ascii "ZLX")]
      match usb with
      | [] => ⟨none, dev, cmd⟩
      | w :: rest =>
        if w.err < 0 ∨ w.amount ≠ 3 then
          ⟨some false, { dev with hw_errors := dev.hw_errors + 1 },
            cmd ++ [Effect.mutex_unlock]⟩
        else
          match rest with
          | [] => ⟨none, dev, cmd ++ [Effect.usb_read]⟩
          | r :: _ =>
            if r.err < 0 ∨ r.amount < 1 then
              ⟨some false, { dev with hw_errors := dev.hw_errors + 1 },
                cmd ++ [Effect.usb_read, Effect.mutex_unlock]⟩
            else
              let io := cmd ++ [Effect.usb_read, Effect.mutex_unlock]
              match (if strncasecmp_eq r.buf "TEMP".toList 4 then strchr (r.buf.drop 4) ':'
                     else none) with
              | some s =>
                let temp : Rat := strtof s.tail
                let temp : Rat := if temp > 100 then strtod s.tail else temp
                if temp > 0 then
                  if dev.cutofftemp > 0 ∧ temp > (dev.cutofftemp : Rat) then
                    ⟨some true, { dev with temp := temp, deven := Deven.recover },
                      io ++ [Effect.dev_error Reason.thermal_cutoff]⟩
                  else ⟨some true, { dev with temp := temp }, io⟩
                else ⟨some true, dev, io⟩
              | none =>
                ⟨some false, { dev with hw_errors := dev.hw_errors + 1 },
                  io ++ [Effect.dev_error Reason.throttle] ++ bitforce_initialise true⟩

/-! ## Shapes of scripts and states used to state the theorems -/

/-- The device after the driver gave up nonce-range (lines 427-429 and
597-600): `nonce_range` off, `sleep_ms` times 5, kind "full work". -/
def downgrade (dev : Bitforce) : Bitforce :=
  { dev with nonce_range := false, sleep_ms := dev.sleep_ms * 5 % 2 ^ 32, kname := Kname.work }

/-- A pass of the poll loop that leaves it through the `break`: no restart
is pending, the long timeout has not been reached, and the reply is non-empty
and does not start with `B`. -/
@[reducible] def ends_polling (p : Poll) : Prop :=
  p.work_restart = false ∧ p.elapsed_sec < 30 ∧ p.amount > 0 ∧ peek p.buf ≠ NUL
    ∧ strncasecmp_eq p.buf "B".toList 1 = false

/-- A device with nonce-range on in the middle of a scan, used as a concrete
state: `sleep_ms = wait_ms = 500`, `nonces = 0x33333332`. -/
def dev_ranged : Bitforce :=
  { nonce_range := true, nonces := 0x33333332, sleep_ms := 500, wait_ms := 500,
    kname := Kname.range }

/-- A scan in which the command is accepted and the write of the work frame
fails. -/
def failed_scan : Scan :=
  { ob := List.replicate 70 0, nonce0 := 0,
    work := ⟨List.replicate 32 0, List.replicate 128 0, 0⟩,
    usb := [⟨0, 3, []⟩, ⟨0, 3, "OK\n".toList⟩, ⟨-1, 0, []⟩],
    restart_wait := true,
    polls := [] }

/-- A device in the middle of a poll: `polling` set, a flash of the LED
requested, a temperature held. -/
def dev_polling : Bitforce :=
  { nonce_range := true, sleep_ms := 500, wait_ms := 500, nonces := 0x33333332,
    kname := Kname.range, polling := true, flash_led := true, temp := 42, cutofftemp := 90 }

/-! ## util.c: stratum_send, initiate_stratum, suspend_stratum -/

/-- `json_object_get(v, key)`; NULL when `v` is not an object or has no such
member. -/
def json_object_get : Option Json → String → Option Json
  | some (Json.object members), key => members.lookup key
  | _, _ => none

/-- `json_integer_value(v)`; 0 when `v` is not an integer. -/
def json_integer_value : Option Json → Int
  | some (Json.integer n) => n
  | _ => 0

/-- Conversion of a `json_int_t` to `int`. -/
def int_of_json_int (v : Int) : Int := (v + 2 ^ 31) % 2 ^ 32 - 2 ^ 31

/-- The pool after a send that left the statistics of `r`. -/
def Pool.sent (pool : Pool) (r : StratumSendResult) : Pool :=
  { pool with times_sent := r.times_sent, bytes_sent := r.bytes_sent }

/-- `stratum_send(pool, s, len)`: under the stratum lock, `__stratum_send`
when `stratum_active` is set, and otherwise nothing but a log line. -/
def stratum_send (pool : Pool) (s : List Char) (len : Int) (script : List SendStep) :
    StratumSendResult :=
  if pool.stratum_active then __stratum_send pool.times_sent pool.bytes_sent s len script
  else ⟨some false, [], 0, pool.times_sent, pool.bytes_sent⟩

/-- `suspend_stratum(pool)`: clears `stratum_active` under the stratum lock
and closes the socket; the descriptor number stays in `pool->sock` and no
other field of the pool changes. -/
def suspend_stratum (pool : Pool) : Pool := { pool with stratum_active := false }

/-- What the outside world supplies to one `initiate_stratum`: the return
value of `curl_easy_perform` (0 is success), the upload byte count when
`curl_easy_getinfo` reports it, the value of the global `swork_id` when the
request is formatted, the answers to the send loop, the result of
`socket_full(pool, true)`, the line `recv_line` returns and the value
`JSON_LOADS` makes of it. -/
structure Initiate where
  perform : Int := 0
  upload : Option Nat := none
  swork_id : Int := 0
  send : List SendStep
  socket_full : Bool := true
  sret : Option (List Char) := none
  val : Option Json := none

/-- Result of `initiate_stratum`: the return value (`none` when the send script
ended inside the loop), the pool afterwards, and what `__stratum_send` did. -/
structure InitiateResult where
  ret : Option Bool
  pool : Pool
  calls : List SendCall
  selects : Nat

/-- The request line of `initiate_stratum`. -/
def subscribe_request (swork_id : Int) : List Char :=
  ("\x7b\"id\": " ++ toString swork_id
    ++ ", \"method\": \"mining.subscribe\", \"params\": []\x7d").toList

/-- `initiate_stratum(pool)`.  The receive counters and the socket buffer are
left out. -/
def initiate_stratum (pool : Pool) (a : Initiate) : InitiateResult :=
  let pool : Pool := { pool with stratum_active := false }
  if a.perform ≠ 0 then ⟨some false, pool, [], 0⟩
  else
    let pool : Pool := { pool with times_sent := pool.times_sent + 1 }
    let pool : Pool :=
      match a.upload with
      | some byte_count => { pool with bytes_sent := pool.bytes_sent + byte_count }
      | none => pool
    let s := subscribe_request a.swork_id
    let r := __stratum_send pool.times_sent pool.bytes_sent s (strlen s) a.send
    let pool : Pool := pool.sent r
    match r.ret with
    | none => ⟨none, pool, r.calls, r.selects⟩
    | some false => ⟨some false, pool, r.calls, r.selects⟩
    | some true =>
      if !a.socket_full then ⟨some false, pool, r.calls, r.selects⟩
      else if a.sret.isNone then ⟨some false, pool, r.calls, r.selects⟩
      else if a.val.isNone then ⟨some false, pool, r.calls, r.selects⟩
      else
        let res_val := json_object_get a.val "result"
        let err_val := json_object_get a.val "error"
        if res_val.isNone || json_is_null res_val || (err_val.isSome && !json_is_null err_val)
        then ⟨some false, pool, r.calls, r.selects⟩
        else
          let pool : Pool := { pool with nonce1 := json_array_string res_val 1 }
          if pool.nonce1.isNone then ⟨some false, pool, r.calls, r.selects⟩
          else
            let pool : Pool :=
              { pool with n2size := int_of_json_int (json_integer_value (json_array_get res_val 2)) }
            if pool.n2size = 0 then ⟨some false, pool, r.calls, r.selects⟩
            else
              let pool : Pool :=
                if pool.stratum_url.isNone then { pool with stratum_url := pool.sockaddr_url }
                else pool
              ⟨some true,
                { pool with stratum_active := true, swork := { pool.swork with diff := 1 } },
                r.calls, r.selects⟩

/-- A call made on a pool between two points of a run: a `stratum_send` or an
`initiate_stratum`, with what the outside world answers. -/
inductive PoolOp where
  | send (s : List Char) (len : Int) (script : List SendStep)
  | initiate (a : Initiate)

/-- The pool after a sequence of calls. -/
def run_ops : Pool → List PoolOp → Pool
  | pool, [] => pool
  | pool, PoolOp.send s len script :: rest =>
    run_ops (pool.sent (stratum_send pool s len script)) rest
  | pool, PoolOp.initiate a :: rest => run_ops (initiate_stratum pool a).pool rest

/-- No `initiate_stratum` of the sequence, run from `pool` on, returns true. -/
def no_initiate_succeeds : Pool → List PoolOp → Bool
  | _, [] => true
  | pool, PoolOp.send s len script :: rest =>
    no_initiate_succeeds (pool.sent (stratum_send pool s len script)) rest
  | pool, PoolOp.initiate a :: rest =>
    decide ((initiate_stratum pool a).ret ≠ some true)
      && no_initiate_succeeds (initiate_stratum pool a).pool rest

/-- A pool in use: stratum active, 7 lines and 300 bytes sent so far. -/
def pool_active : Pool :=
  { stratum_active := true, times_sent := 7, bytes_sent := 300,
    nonce1 := some "f8002c90", n2size := 4 }

/-- The subscribe answer of a pool: extranonce1 `f8002c90`, extranonce2 of 4
bytes. -/
def subscribe_answer : Json :=
  Json.object [("id", Json.integer 0),
    ("result", Json.array [Json.array [Json.string "mining.notify", Json.string "ae68"],
      Json.string "f8002c90", Json.integer 4]),
    ("error", Json.null)]

/-- Calls after a suspension: a send, an `initiate_stratum` whose connect
fails, one whose answer is a JSON error, and another send. -/
def ops_after_suspend : List PoolOp :=
  [PoolOp.send "abcd".toList 4 [{ sent := 5 }],
   PoolOp.initiate { perform := 7, send := [] },
   PoolOp.initiate { upload := some 0, send := [{ sent := 59 }], sret := some "x".toList,
                     val := some (Json.object [("result", Json.null)]) },
   PoolOp.send "efgh".toList 4 [{ sent := 5 }]]

/-! ## util.c: the thread queue -/

/-- The state of a `struct thread_q` as one thread at a time sees it under the
queue mutex: the payloads of the list `q`, oldest first, and the flag
`frozen`. -/
structure ThreadQ (α : Type) where
  q : List α := []
  frozen : Bool := false
  deriving DecidableEq, Repr

/-- `tq_new()` when `calloc` succeeds: an empty list, `frozen` zeroed. -/
def tq_new {α : Type} : ThreadQ α := { q := [], frozen := false }

/-- `tq_freezethaw(tq, frozen)`. -/
def tq_freezethaw {α : Type} (tq : ThreadQ α) (frozen : Bool) : ThreadQ α :=
  { tq with frozen := frozen }

/-- `tq_freeze(tq)`. -/
def tq_freeze {α : Type} (tq : ThreadQ α) : ThreadQ α := tq_freezethaw tq true

/-- `tq_thaw(tq)`. -/
def tq_thaw {α : Type} (tq : ThreadQ α) : ThreadQ α := tq_freezethaw tq false

/-- `tq_push(tq, data)`; `alloc_ok` tells whether `calloc` gave the entry. -/
def tq_push {α : Type} (tq : ThreadQ α) (data : α) (alloc_ok : Bool) : Bool × ThreadQ α :=
  if !alloc_ok then (false, tq)
  else if !tq.frozen then (true, { tq with q := tq.q ++ [data] })
  else (false, tq)

/-- `tq_pop(tq, abstime)`; `rc` is the return value of the condition wait
(non-zero on a timeout), which is only made when the list is empty.  No other
thread touches the queue during the wait, so the list is the same after it. -/
def tq_pop {α : Type} (tq : ThreadQ α) (rc : Int) : Option α × ThreadQ α :=
  match tq.q with
  | d :: rest => (some d, { tq with q := rest })
  | [] =>
    if rc ≠ 0 then (none, tq)
    else
      match tq.q with
      | [] => (none, tq)
      | d :: rest => (some d, { tq with q := rest })

/-- Pushes the payloads in order, each with a successful `calloc`; gives the
return values and the queue afterwards. -/
def tq_push_all {α : Type} : ThreadQ α → List α → List Bool × ThreadQ α
  | tq, [] => ([], tq)
  | tq, d :: ds =>
    let r := tq_push tq d true
    let rs := tq_push_all r.2 ds
    (r.1 :: rs.1, rs.2)

/-- One `tq_pop` for each wait result of the list; gives the return values and
the queue afterwards. -/
def tq_pop_all {α : Type} : ThreadQ α → List Int → List (Option α) × ThreadQ α
  | tq, [] => ([], tq)
  | tq, rc :: rcs =>
    let r := tq_pop tq rc
    let rs := tq_pop_all r.2 rcs
    (r.1 :: rs.1, rs.2)

/-- The nonce a token of a `NONCE-FOUND` reply stands for: `swab32` of the
little-endian load of the bytes `hex2bin` decodes. -/
def token_nonce (t : List Char) : Nat := swab32 (load_le32 (hex2bin t 4).2)

/-- The interval `[work.nonce - nonces - 1, work.nonce)` of the specification,
its lower end computed in `uint32_t` as the driver does. -/
@[reducible] def in_nonce_interval (dev : Bitforce) (work : Work) (n : Nat) : Prop :=
  sub32 (sub32 work.nonce dev.nonces) 1 ≤ n ∧ n < work.nonce

/-- A device with the cutoff temperature set to 90 degrees, holding the
temperature 42. -/
def dev_cutoff : Bitforce :=
  { sleep_ms := 2500, kname := Kname.work, temp := 42, cutofftemp := 90, hw_errors := 3 }

/-! ## util.c: the delay-net part of json_rpc_call -/

/-- C `struct timeval`. -/
structure Timeval where
  tv_sec : Int
  tv_usec : Int
  deriving DecidableEq, Repr

/-- The milliseconds `json_rpc_call` computes from a `struct timeval`:
`(long long)tv_sec * 1000 + tv_usec / 1000`, with the truncating division of
C. -/
def tv_msecs (t : Timeval) : Int := t.tv_sec * 1000 + Int.tdiv t.tv_usec 1000

/-- What lines 354-375 of `json_rpc_call` do before the request is performed:
the `tv_nsec` handed to `nanosleep` (`none` when it is not called) and whether
`set_nettime` is called. -/
structure DelayNet where
  nanosleep : Option Int
  set_nettime : Bool
  deriving DecidableEq, Repr

/-- Lines 354-375 of `json_rpc_call`: `now` is what `gettimeofday` gives,
`last` what `last_nettime` gives. -/
def json_rpc_call_delaynet (opt_delaynet share : Bool) (now last : Timeval) : DelayNet :=
  if opt_delaynet then
    if !share then
      let now_msecs := tv_msecs now
      let last_msecs := tv_msecs last
      if now_msecs > last_msecs ∧ now_msecs - last_msecs < 250 then
        ⟨some ((250 - (now_msecs - last_msecs)) * 1000000), true⟩
      else ⟨none, true⟩
    else ⟨none, true⟩
  else ⟨none, false⟩

/-- The sleep a `DelayNet` inserts, in milliseconds. -/
def DelayNet.sleep_msecs (r : DelayNet) : Int :=
  match r.nanosleep with
  | some nsec => nsec / 1000000
  | none => 0

/-- An `initiate_stratum` in which everything up to the response goes well:
the connect succeeds, the request is taken by the socket at once, a line
arrives and parses to `val`. -/
def initiate_with (val : Json) : Initiate :=
  { upload := some 0, send := [{ sent := 59 }], sret := some "line".toList, val := some val }

/-- A subscribe answer whose extranonce1 is no hex string and whose
extranonce2 size is negative. -/
def subscribe_answer_odd : Json :=
  Json.object [("id", Json.integer 0),
    ("result", Json.array [Json.array [], Json.string "not hex!", Json.integer (-4)]),
    ("error", Json.null)]

/-! ## util.c: extract_sockaddr -/

/-- C `strstr(s, pat)` on a string without its NUL: the offset of the first
occurrence of `pat`, `none` for NULL. -/
def strstr : List Char → List Char → Option Nat
  | [], pat => if pat.isEmpty then some 0 else none
  | c :: t, pat =>
    if pat.isPrefixOf (c :: t) then some 0 else (strstr t pat).map (fun i => i + 1)

/-- Lines 846-852 of `extract_sockaddr`: the offset `url_end` of the `:` that
ends the host in the string `ub` that starts at `url_begin`, `none` for
NULL. -/
def url_end_of (ub : List Char) : Option Nat :=
  let ipv6_begin := strstr ub "[".toList
  let ipv6_end := strstr ub "]".toList
  match ipv6_begin, ipv6_end with
  | some b, some e =>
    if e > b then (strstr (ub.drop e) ":".toList).map (fun i => e + i)
    else strstr ub ":".toList
  | _, _ => strstr ub ":".toList

/-- `extract_sockaddr(pool, url)`.  Pointers into `url` are offsets.  The
host is copied into `url_address[256]`; when it does not fit with its NUL the
`sprintf` writes past the array and the result is `none`. -/
def extract_sockaddr (pool : Pool) (url : List Char) : Option (Bool × Pool) :=
  let url := cstr url
  let pool : Pool := { pool with sockaddr_url := some (String.mk url) }
  let url_begin : Nat :=
    match strstr url "//".toList with
    | none => 0
    | some i => i + 2
  let ub := url.drop url_begin
  match url_end_of ub with
  | some ue =>
    let url_len : Int := ue
    let port_len : Int := (ub.length : Int) - url_len - 1
    if port_len < 1 then some (false, pool)
    else if url_len < 1 then some (false, pool)
    else if url_len ≥ 256 then none
    else
      some (true, { pool with
        stratum_port := some (String.mk ((ub.drop (ue + 1)).take (min port_len.toNat 5))),
        sockaddr_url := some (String.mk (ub.take ue)) })
  | none =>
    let url_len : Int := ub.length
    if url_len < 1 then some (false, pool)
    else if url_len ≥ 256 then none
    else
      some (true, { pool with
        stratum_port := some "80", sockaddr_url := some (String.mk (ub.take url_len.toNat)) })

/-- The part `scheme://` of a URL, empty when there is no scheme. -/
def scheme_part : Option (List Char) → List Char
  | some sc => sc ++ "://".toList
  | none => []

/-- The part `:port` of a URL, empty when there is no port. -/
def port_part : Option (List Char) → List Char
  | some p => ':' :: p
  | none => []

/-- The URL `[scheme://]host[:port]` made of its parts. -/
def make_url (scheme : Option (List Char)) (host : List Char) (port : Option (List Char)) :
    List Char :=
  scheme_part scheme ++ host ++ port_part port

/-! ## util.c: parse_method, auth_stratum -/

/-- `json_is_false(v)`. -/
def json_is_false : Option Json → Bool
  | some (Json.bool false) => true
  | _ => false

/-- `json_number_value(v)`: the value of an integer or a real, 0 for anything
else. -/
def json_number_value : Option Json → Rat
  | some (Json.integer n) => n
  | some (Json.real q) => q
  | _ => 0

/-- `parse_diff(pool, val)`. -/
def parse_diff (pool : Pool) (val : Option Json) : Bool × Pool :=
  let diff := json_number_value (json_array_get val 0)
  if diff = 0 then (false, pool)
  else (true, { pool with swork := { pool.swork with diff := diff } })

/-- The line `send_version` answers with; `package_version` is the text of the
macros `PACKAGE "/" VERSION`, which are defined outside these sources. -/
def version_reply (package_version : String) (id : Int) : List Char :=
  ("\x7b\"id\": " ++ toString id ++ ", \"result\": \"" ++ package_version
    ++ "\", \"error\": null\x7d").toList

/-- `send_version(pool, val)`; the script answers the send loop.  The return
value is `none` when the script ended inside the loop. -/
def send_version (package_version : String) (pool : Pool) (val : Option Json)
    (script : List SendStep) : Option Bool × Pool :=
  let id := int_of_json_int (json_integer_value (json_object_get val "id"))
  if id = 0 then (some false, pool)
  else
    let s := version_reply package_version id
    let r := stratum_send pool s (strlen s) script
    (r.ret, pool.sent r)

/-- `parse_reconnect(pool, val)`.  `a` answers the `initiate_stratum` it
makes; `auth` is what the `auth_stratum` made after it returns and the pool it
leaves.  The result is `none` when there is none to give: a script ended, or
`sprintf` was handed a NULL string or more than `address[256]` holds. -/
def parse_reconnect (pool : Pool) (val : Option Json) (a : Initiate)
    (auth : Option (Bool × Pool)) : Option (Bool × Pool) :=
  let url : Option String :=
    match json_string_value (json_array_get val 0) with
    | some u => some u
    | none => pool.sockaddr_url
  let port : Option String :=
    match json_string_value (json_array_get val 1) with
    | some p => some p
    | none => pool.stratum_port
  match url, port with
  | some u, some p =>
    let address := cstr u.toList ++ ':' :: cstr p.toList
    if address.length ≥ 256 then none
    else
      match extract_sockaddr pool address with
      | none => none
      | some (false, pool) => some (false, pool)
      | some (true, pool) =>
        let pool : Pool := { pool with stratum_url := pool.sockaddr_url }
        let i := initiate_stratum pool a
        match i.ret with
        | none => none
        | some false => some (false, i.pool)
        | some true => auth
  | _, _ => none

/-- One line `recv_line` hands to `auth_stratum`, with what the outside world
answers to the calls the line gives rise to: `val` is the value `JSON_LOADS`
makes of the line (`none` when it does not parse), `send` answers the send
loop of `send_version`, `initiate` and `auth` answer the calls of
`parse_reconnect`. -/
structure AuthLine where
  val : Option Json
  send : List SendStep := []
  initiate : Initiate := { send := [] }
  auth : Option (Bool × Pool) := none

/-- Result of `parse_method` or `auth_stratum`: the return value (`none` when
there is none to give), the pool and the global counter `total_getworks`
afterwards. -/
structure MethodResult where
  ret : Option Bool
  pool : Pool
  total_getworks : Nat

/-- `parse_method(pool, s)` for a line `s` that is not NULL. -/
def parse_method (package_version : String) (pool : Pool) (total_getworks : Nat)
    (l : AuthLine) : MethodResult :=
  if l.val.isNone then ⟨some false, pool, total_getworks⟩
  else
    let method := json_object_get l.val "method"
    if method.isNone then ⟨some false, pool, total_getworks⟩
    else
      let err_val := json_object_get l.val "error"
      let params := json_object_get l.val "params"
      if err_val.isSome && !json_is_null err_val then ⟨some false, pool, total_getworks⟩
      else
        match json_string_value method with
        | none => ⟨some false, pool, total_getworks⟩
        | some buf =>
          if strncasecmp_eq buf.toList "mining.notify".toList 13 then
            let r := parse_notify pool total_getworks params
            ⟨some r.ret, { r.pool with stratum_notify := r.ret }, r.total_getworks⟩
          else
            let d : Bool × Pool :=
              if strncasecmp_eq buf.toList "mining.set_difficulty".toList 21 then
                parse_diff pool params
              else (false, pool)
            if d.1 then ⟨some true, d.2, total_getworks⟩
            else
              let rc : Option (Bool × Pool) :=
                if strncasecmp_eq buf.toList "client.reconnect".toList 16 then
                  parse_reconnect d.2 params l.initiate l.auth
                else some (false, d.2)
              match rc with
              | none => ⟨none, d.2, total_getworks⟩
              | some (true, pool) => ⟨some true, pool, total_getworks⟩
              | some (false, pool) =>
                let sv : Option Bool × Pool :=
                  if strncasecmp_eq buf.toList "client.get_version".toList 18 then
                    send_version package_version pool l.val l.send
                  else (some false, pool)
                ⟨sv.1, sv.2, total_getworks⟩

/-- The request line of `auth_stratum`. -/
def authorize_request (swork_id : Int) (rpc_user rpc_pass : String) : List Char :=
  ("\x7b\"id\": " ++ toString swork_id ++ ", \"method\": \"mining.authorize\", \"params\": [\""
    ++ rpc_user ++ "\", \"" ++ rpc_pass ++ "\"]\x7d").toList

/-- The decision `auth_stratum` takes from the value `val` of the line that
ended its loop (lines 1323-1342). -/
def auth_decision (val : Option Json) : Bool :=
  let res_val := json_object_get val "result"
  let err_val := json_object_get val "error"
  !(res_val.isNone || json_is_false res_val || (err_val.isSome && !json_is_null err_val))

/-- The loop of `auth_stratum` (lines 1313-1321) and the decision after it.
Each entry of the script is what one `recv_line` returns: `none` for NULL.
The global `successful_connect` is left out. -/
def auth_loop (package_version : String) :
    Pool → Nat → List (Option AuthLine) → MethodResult
  | pool, total_getworks, [] => ⟨none, pool, total_getworks⟩
  | pool, total_getworks, none :: _ => ⟨some false, pool, total_getworks⟩
  | pool, total_getworks, some l :: rest =>
    let m := parse_method package_version pool total_getworks l
    match m.ret with
    | none => ⟨none, m.pool, m.total_getworks⟩
    | some true => auth_loop package_version m.pool m.total_getworks rest
    | some false =>
      if auth_decision l.val then ⟨some true, { m.pool with probed := true }, m.total_getworks⟩
      else ⟨some false, m.pool, m.total_getworks⟩

/-- `auth_stratum(pool)`.  `swork_id` is the value of the global when the
request is formatted, `send` answers the send loop of the request, `lines`
the calls of `recv_line`. -/
def auth_stratum (package_version : String) (pool : Pool) (total_getworks : Nat)
    (swork_id : Int) (send : List SendStep) (lines : List (Option AuthLine)) : MethodResult :=
  let s := authorize_request swork_id pool.rpc_user pool.rpc_pass
  let r := stratum_send pool s (strlen s) send
  match r.ret with
  | none => ⟨none, pool.sent r, total_getworks⟩
  | some false => ⟨some false, pool.sent r, total_getworks⟩
  | some true => auth_loop package_version (pool.sent r) total_getworks lines

/-- The pool and the counter after `parse_method` took the lines in turn. -/
def run_methods (package_version : String) : Pool → Nat → List AuthLine → Pool × Nat
  | pool, total_getworks, [] => (pool, total_getworks)
  | pool, total_getworks, l :: rest =>
    run_methods package_version (parse_method package_version pool total_getworks l).pool
      (parse_method package_version pool total_getworks l).total_getworks rest

/-- `parse_method` returns true for each of the lines, taken in turn. -/
def methods_accepted (package_version : String) : Pool → Nat → List AuthLine → Bool
  | _, _, [] => true
  | pool, total_getworks, l :: rest =>
    decide ((parse_method package_version pool total_getworks l).ret = some true)
      && methods_accepted package_version
          (parse_method package_version pool total_getworks l).pool
          (parse_method package_version pool total_getworks l).total_getworks rest

/-- A notify line as a pool sends it: method `mining.notify` with the params
of scenario S6. -/
def line_notify : AuthLine :=
  { val := some (Json.object [("id", Json.null), ("method", Json.string "mining.notify"),
      ("params", notify_s6)]) }

/-- A line with a method the client does not know. -/
def line_unknown : AuthLine :=
  { val := some (Json.object [("id", Json.null), ("method", Json.string "mining.ping"),
      ("params", Json.array [])]) }

/-- The answer to `mining.authorize` of a pool that accepts the worker. -/
def line_authorized : AuthLine :=
  { val := some (Json.object [("id", Json.integer 2), ("result", Json.bool true),
      ("error", Json.null)]) }

/-- A pool with its stratum connection up and a worker configured. -/
def pool_worker : Pool :=
  { stratum_active := true, times_sent := 2, bytes_sent := 120, nonce1 := some "f8002c90",
    n2size := 4, rpc_user := "worker", rpc_pass := "x" }

/-! ## The device mutex along a trace -/

/-- Runs a trace against the device mutex, modelled as a held / not held
flag: `none` when the mutex is locked while held, unlocked while not held, or
a USB call is made while it is not held; otherwise the flag at the end.  A
`mutex_trylock` that fails changes nothing. -/
def mutex_run : Bool → List Effect → Option Bool
  | held, [] => some held
  | held, Effect.mutex_lock :: t => if held then none else mutex_run true t
  | held, Effect.mutex_trylock acquired :: t =>
    if acquired then (if held then none else mutex_run true t) else mutex_run held t
  | held, Effect.mutex_unlock :: t => if held then mutex_run false t else none
  | held, Effect.usb_write _ :: t => if held then mutex_run held t else none
  | held, Effect.usb_read :: t => if held then mutex_run held t else none
  | held, Effect.usb_transfer _ :: t => if held then mutex_run held t else none
  | held, _ :: t => mutex_run held t

/-- The seven FTDI transfers of `bitforce_initialise`, in order. -/
def ftdi_sequence : List Effect :=
  [Effect.usb_transfer Ftdi.reset, Effect.usb_transfer Ftdi.setdata,
   Effect.usb_transfer Ftdi.setbaud, Effect.usb_transfer Ftdi.setflow,
   Effect.usb_transfer Ftdi.setmodem, Effect.usb_transfer Ftdi.purgetx,
   Effect.usb_transfer Ftdi.purgerx]

/-- Lines 536-609 of `bitforce_get_result` without the `return 0` that lines
543-544 make when `amount == 0`: the over-heat report when the timeout has
passed, else the tuning step for a reply starting with `N`, and then the
classification of the reply. -/
def classify_reply (nonce0 : Nat) (dev : Bitforce) (work : Work) (p : Poll) : GetResult :=
  let pre : List Effect :=
    if p.elapsed_sec > 7 then [Effect.dev_error Reason.over_heat] else []
  let dev : Bitforce :=
    if p.elapsed_sec > 7 then dev
    else if strncasecmp_eq p.buf "N".toList 1 then tune_sleep dev
    else dev
  if strncasecmp_eq (p.buf.drop 2) "-".toList 1 then
    ⟨some dev.nonces, dev, work, pre⟩
  else if strncasecmp_eq p.buf "I".toList 1 then
    ⟨some 0, dev, work, pre⟩
  else if !strncasecmp_eq p.buf "NONCE-FOUND".toList 11 then
    ⟨some 0, { dev with hw_errors := dev.hw_errors + 1 }, work,
      pre ++ bitforce_initialise true⟩
  else
    let r := nonce_loop dev work nonce0 (p.buf.drop 12)
    ⟨some r.1.nonces, r.1, r.2.1, pre ++ r.2.2⟩

/-- The device as the tuning step of `bitforce_get_result` finds it in the
scan `s` run from `dev`, after the polls `busy` that kept polling:
`bitforce_scanhash` set `wait_ms` to the `sleep_ms` that `bitforce_send_work`
left and `polling`, and each poll added its delay. -/
def scan_tuning_dev (dev : Bitforce) (s : Scan) (busy : List Poll) : Bitforce :=
  { (bitforce_send_work s.ob dev s.work s.usb).dev with
    wait_ms := wait_after (bitforce_send_work s.ob dev s.work s.usb).dev.sleep_ms busy,
    polling := true }

/-! ## Consecutive calls of bitforce_send_work -/

/-- The value of four bytes read as a big-endian word (`be32toh`). -/
def load_be32 (b : List Nat) : Nat :=
  b.getD 0 0 * 2 ^ 24 + b.getD 1 0 * 2 ^ 16 + b.getD 2 0 * 2 ^ 8 + b.getD 3 0

/-- The nonce range a call of `bitforce_send_work` encoded: the two big-endian
words at offsets 52 and 56 of the last data written, the work frame. -/
def encoded_range (r : SendResult) : Nat × Nat :=
  (load_be32 (((usb_writes r.trace).getLast?.getD []).drop 52),
   load_be32 (((usb_writes r.trace).getLast?.getD []).drop 56))

/-- Consecutive calls of `bitforce_send_work` on the same device and work,
each answered by its own script; gives the result of each call. -/
def send_work_chain (ob : List Nat) : Bitforce → Work → List (List UsbReply) → List SendResult
  | _, _, [] => []
  | dev, work, sc :: rest =>
    (bitforce_send_work ob dev work sc)
      :: send_work_chain ob (bitforce_send_work ob dev work sc).dev
          (bitforce_send_work ob dev work sc).work rest

/-- A script with which a call succeeds without a refusal: after any number
of busy passes the device accepts the command, takes the frame of `len` bytes
in full and answers it with `OK`. -/
def send_succeeds (len : Int) (sc : List UsbReply) : Prop :=
  ∃ (busy : List (UsbReply × UsbReply)) (w r fw fr : UsbReply) (rest : List UsbReply),
    sc = rounds busy ++ w :: r :: fw :: fr :: rest
    ∧ (∀ x ∈ busy, busy_round x.1 x.2) ∧ accept_round w r
    ∧ 0 ≤ fw.err ∧ fw.amount = len
    ∧ 0 ≤ fr.err ∧ fr.amount ≠ 0 ∧ peek fr.buf ≠ NUL
    ∧ strncasecmp_eq fr.buf "OK".toList 2 = true

/-- The answers of a device that accepts the command and the 68-byte frame at
once. -/
def ok_script : List UsbReply :=
  [⟨0, 3, []⟩, ⟨0, 3, "OK\n".toList⟩, ⟨0, 68, []⟩, ⟨0, 3, "OK\n".toList⟩]

/-! ## util.c: the size of the receive buffer -/

/-- Lines 1375-1380 of `initiate_stratum`: the first allocation of the receive
buffer, `calloc(RBUFSIZE, 1)`, with `sockbuf_size = RBUFSIZE`. -/
def calloc_sockbuf (rbufsize : Nat) : SockBuf :=
  { sockbuf := List.replicate rbufsize NUL, sockbuf_size := rbufsize }

/-- The offsets of `sockbuf` the `memmove` of `recv_line` reads (lines
1026-1041): `buflen - len + 1` bytes from offset `len + 1` on when
`buflen > len + 1`; none when the copy is not made. -/
def memmove_reads (pool : SockBuf) : List Nat :=
  let buflen := strlen pool.sockbuf
  let tk := strtok_nl pool.sockbuf
  match tk.1 with
  | none => []
  | some tok =>
    let len := (cstr (tk.2.drop tok)).length
    if buflen > len + 1 then List.range' (len + 1) (buflen - len + 1) else []

/-! ## Hex digits, one character at a time -/

theorem xdigit_toNat_lt (c : Char) (h : isxdigit c = true) : c.toNat < 128 := by
  unfold isxdigit hexval at h
  have e9 : ('9' : Char).toNat = 57 := by decide
  have ef : ('f' : Char).toNat = 102 := by decide
  have eF : ('F' : Char).toNat = 70 := by decide
  split_ifs at h with h1 h2 h3
  · have := h1.2
    rw [Char.le_def] at this
    have : c.toNat ≤ ('9' : Char).toNat := this
    omega
  · have := h2.2
    rw [Char.le_def] at this
    have : c.toNat ≤ ('f' : Char).toNat := this
    omega
  · have := h3.2
    rw [Char.le_def] at this
    have : c.toNat ≤ ('F' : Char).toNat := this
    omega
  · simp at h

set_option maxRecDepth 100000 in
theorem xdigit_table : ∀ n : Fin 128, isxdigit (Char.ofNat n.val) = true →
    isspace (Char.ofNat n.val) = false ∧ Char.ofNat n.val ≠ '-' ∧ Char.ofNat n.val ≠ '+'
      ∧ Char.ofNat n.val ≠ 'x' ∧ Char.ofNat n.val ≠ 'X' ∧ Char.ofNat n.val ≠ NUL
      ∧ Char.ofNat n.val ≠ ','
      ∧ (Char.ofNat n.val).toLower ≠ NUL
      ∧ ∃ v : Fin 16, hexval (Char.ofNat n.val) = some v.val
          ∧ Nat.digitChar v.val = (Char.ofNat n.val).toLower := by
  decide

theorem xdigit_facts (c : Char) (h : isxdigit c = true) :
    isspace c = false ∧ c ≠ '-' ∧ c ≠ '+' ∧ c ≠ 'x' ∧ c ≠ 'X' ∧ c ≠ NUL ∧ c ≠ ','
      ∧ c.toLower ≠ NUL
      ∧ ∃ v : Fin 16, hexval c = some v.val ∧ Nat.digitChar v.val = c.toLower := by
  have hlt := xdigit_toNat_lt c h
  have key := xdigit_table ⟨c.toNat, hlt⟩
  simp only [Char.ofNat_toNat] at key
  exact key h

set_option maxRecDepth 100000 in
theorem fmt_02x_table : ∀ a b : Fin 16,
    fmt_02x (16 * a.val + b.val) = [Nat.digitChar a.val, Nat.digitChar b.val] := by
  decide

theorem fmt_02x_length (v : Nat) (h : v < 256) : (fmt_02x v).length = 2 := by
  have := fmt_02x_table ⟨v / 16, by omega⟩ ⟨v % 16, by omega⟩
  simp only at this
  have e : 16 * (v / 16) + v % 16 = v := by omega
  rw [e] at this
  rw [this]
  rfl

theorem sscanf_x_pair (c1 c2 : Char) (h1 : isxdigit c1 = true) (h2 : isxdigit c2 = true) :
    ∃ a b : Fin 16, hexval c1 = some a.val ∧ hexval c2 = some b.val
      ∧ sscanf_x [c1, c2] = some (16 * a.val + b.val) := by
  obtain ⟨s1, m1, p1, -, -, -, -, -, a, ha, -⟩ := xdigit_facts c1 h1
  obtain ⟨-, -, -, x2, X2, -, -, -, b, hb, -⟩ := xdigit_facts c2 h2
  refine ⟨a, b, ha, hb, ?_⟩
  have e1 : List.dropWhile isspace [c1, c2] = [c1, c2] := by
    simp [List.dropWhile, s1]
  have e2 : scan_sign [c1, c2] = (false, [c1, c2]) := by
    unfold scan_sign
    split
    · rename_i heq
      simp at heq
      exact absurd heq.1 m1
    · rename_i heq
      simp at heq
      exact absurd heq.1 p1
    · rfl
  have e3 : scan_0x [c1, c2] = ([c1, c2], none) := by
    unfold scan_0x
    split
    · rename_i x t heq
      simp at heq
      obtain ⟨h0, hx, ht⟩ := heq
      subst h0 hx ht
      simp [x2, X2]
    · rfl
  have e4 : scan_xdigits [c1, c2] none = some (16 * a.val + b.val) := by
    simp [scan_xdigits, ha, hb]
  unfold sscanf_x
  simp only [e1, e2, e3, e4]
  have ha16 := a.isLt
  have hb16 := b.isLt
  have : (16 * a.val + b.val) % 2 ^ 32 = 16 * a.val + b.val := by omega
  simp [this]
  omega


/-! ## bin2hex after hex2bin -/

theorem range_map_getD (bs : List Nat) :
    (List.range bs.length).map (fun i => bs.getD i 0) = bs := by
  apply List.ext_getElem
  · simp
  · intro n h1 h2
    simp [List.getD_eq_getElem, h2]

theorem bin2hex_fold (p : List Nat) (slen : Nat) :
    ∀ k : Nat, 2 * k + 1 ≤ slen →
      (List.range k).foldl
          (fun s i => write_at s (i * 2) (fmt_02x (p.getD i 0 % 256) ++ [NUL]))
          (List.replicate slen NUL)
        = (List.range k).flatMap (fun i => fmt_02x (p.getD i 0 % 256))
            ++ List.replicate (slen - 2 * k) NUL := by
  intro k
  induction k with
  | zero => intro _; simp
  | succ k ih =>
    intro hk
    have hlen : ∀ j : Nat, ((List.range j).flatMap
        (fun i => fmt_02x (p.getD i 0 % 256))).length = 2 * j := by
      intro j
      induction j with
      | zero => simp
      | succ j ihj =>
        rw [List.range_succ, List.flatMap_append, List.length_append, ihj]
        simp [fmt_02x_length _ (Nat.mod_lt _ (by norm_num : 256 > 0))]
        ring
    rw [List.range_succ, List.foldl_append, ih (by omega)]
    simp only [List.foldl_cons, List.foldl_nil, List.flatMap_append, List.flatMap_singleton]
    unfold write_at
    have h2 := fmt_02x_length (p.getD k 0 % 256) (Nat.mod_lt _ (by norm_num))
    rw [List.take_left' (by rw [hlen k]; ring)]
    have e : k * 2 + (fmt_02x (p.getD k 0 % 256) ++ [NUL]).length
        = ((List.range k).flatMap (fun i => fmt_02x (p.getD i 0 % 256))).length + 3 := by
      rw [hlen k, List.length_append, h2]
      simp
      ring
    rw [e, List.drop_append, List.drop_replicate]
    have e2 : slen - 2 * k - 3 + 1 = slen - 2 * (k + 1) := by omega
    rw [← e2, List.replicate_succ]
    simp [List.append_assoc]

theorem bin2hex_eq (bs : List Nat) :
    ∃ m : Nat, bin2hex bs bs.length
      = bs.flatMap (fun b => fmt_02x (b % 256)) ++ List.replicate (m + 1) NUL := by
  unfold bin2hex
  simp only
  generalize hs : (if (bs.length * 2 + 1) % 4 ≠ 0
    then bs.length * 2 + 1 + (4 - (bs.length * 2 + 1) % 4) else bs.length * 2 + 1) = slen
  have hle : 2 * bs.length + 1 ≤ slen := by
    rw [← hs]
    split_ifs <;> omega
  rw [bin2hex_fold bs slen bs.length hle]
  refine ⟨slen - 2 * bs.length - 1, ?_⟩
  have e : slen - 2 * bs.length - 1 + 1 = slen - 2 * bs.length := by omega
  rw [e]
  congr 1
  have := range_map_getD bs
  conv_rhs => rw [← this]
  simp only [List.flatMap, List.map_map]
  rfl


theorem hex2bin_loop_xdigits : ∀ (n : Nat) (h : List Char) (p : List Nat),
    h.length = 2 * n → (∀ c ∈ h, isxdigit c = true) →
    ∃ bs : List Nat, (∀ rest : List Char,
        hex2bin_loop n (h ++ rest) p = (peek rest == NUL, p ++ bs)) ∧ bs.length = n
      ∧ bs.flatMap (fun b => fmt_02x (b % 256)) = h.map Char.toLower := by
  intro n
  induction n with
  | zero =>
    intro h p hlen _
    have : h = [] := List.length_eq_zero.mp (by omega)
    subst this
    exact ⟨[], fun rest => by simp [hex2bin_loop], rfl, rfl⟩
  | succ n ih =>
    intro h p hlen hx
    match h, hlen, hx with
    | c1 :: c2 :: t, hlen, hx =>
      have h1 : isxdigit c1 = true := hx c1 (by simp)
      have h2 : isxdigit c2 = true := hx c2 (by simp)
      obtain ⟨-, -, -, -, -, n1, -, -, a1, ha1, hd1⟩ := xdigit_facts c1 h1
      obtain ⟨-, -, -, -, -, n2, -, -, a2, ha2, hd2⟩ := xdigit_facts c2 h2
      obtain ⟨a, b, ha, hb, hs⟩ := sscanf_x_pair c1 c2 h1 h2
      have ea : a = a1 := by
        rw [ha1] at ha
        exact (Fin.ext (Option.some.inj ha)).symm
      have eb : b = a2 := by
        rw [ha2] at hb
        exact (Fin.ext (Option.some.inj hb)).symm
      subst ea eb
      have hlt : (16 * a.val + b.val) % 256 = 16 * a.val + b.val := by
        have := a.isLt
        have := b.isLt
        omega
      obtain ⟨bs, hloop, hbl, hfm⟩ := ih t (p ++ [16 * a.val + b.val])
        (by simp at hlen; omega) (fun c hc => hx c (by simp [hc]))
      refine ⟨(16 * a.val + b.val) :: bs, ?_, by simp [hbl], ?_⟩
      · intro rest
        rw [List.cons_append, List.cons_append, hex2bin_loop]
        simp only [peek, List.headD_cons, List.tail_cons, List.drop_succ_cons, List.drop_zero]
        simp only [beq_iff_eq, n1, n2, if_false, hs, hlt]
        rw [hloop rest]
        simp [peek]
      · rw [List.flatMap_cons, hfm, hlt, fmt_02x_table a b, hd1, hd2]
        rfl

/-- C1. For every string `h` of `2n` hex digits, `hex2bin(dst, h, n)` returns
true, and `bin2hex` of the `n` bytes it wrote is `h` with every letter in
lower case. -/
theorem hex_round_trip (h : List Char) (n : Nat) (hlen : h.length = 2 * n)
    (hx : ∀ c ∈ h, isxdigit c = true) :
    (hex2bin h n).1 = true ∧ (hex2bin h n).2.length = n
      ∧ cstr (bin2hex (hex2bin h n).2 n) = h.map Char.toLower := by
  obtain ⟨bs, hloop, hbl, hfm⟩ := hex2bin_loop_xdigits n h [] hlen hx
  have e : hex2bin h n = (true, bs) := by
    unfold hex2bin
    have := hloop []
    rw [List.append_nil] at this
    rw [this]
    rfl
  rw [e]
  refine ⟨rfl, hbl, ?_⟩
  simp only
  obtain ⟨m, hm⟩ := bin2hex_eq bs
  rw [hbl] at hm
  rw [hm, hfm]
  unfold cstr
  rw [List.takeWhile_append_of_pos]
  · rw [List.takeWhile_replicate]
    simp [NUL]
  · intro c hc
    obtain ⟨d, hd, rfl⟩ := List.mem_map.mp hc
    have := (xdigit_facts d (hx d hd)).2.2.2.2.2.2.2.1
    simpa using this

/-- Witness of C1 on the spec's example, with the bytes written in between. -/
theorem hex_round_trip_witness :
    (hex2bin "deadbeef".toList 4).2 = [0xDE, 0xAD, 0xBE, 0xEF]
      ∧ (hex2bin "deadbeef".toList 4).1 = true
      ∧ (hex2bin "deadbeef".toList 4).2.length = 4
      ∧ cstr (bin2hex (hex2bin "deadbeef".toList 4).2 4) = "deadbeef".toList.map Char.toLower :=
  ⟨by decide, hex_round_trip "deadbeef".toList 4 (by decide) (by decide)⟩

/-! ## hex2bin: length and character checks -/

theorem strlen_of_peek_nul (s : List Char) (h : (peek s == NUL) = true) : strlen s = 0 := by
  cases s with
  | nil => rfl
  | cons c t =>
    simp only [peek, List.headD_cons, beq_iff_eq] at h
    subst h
    simp [strlen, cstr, List.takeWhile]

theorem strlen_cons (c : Char) (t : List Char) (h : (c == NUL) = false) :
    strlen (c :: t) = strlen t + 1 := by
  have : (c != NUL) = true := by simp [bne, h]
  simp [strlen, cstr, List.takeWhile, this]

theorem hex2bin_loop_true_length : ∀ (len : Nat) (hexstr : List Char) (p : List Nat),
    (hex2bin_loop len hexstr p).1 = true → strlen hexstr = 2 * len := by
  intro len
  induction len with
  | zero =>
    intro hexstr p h
    simp only [hex2bin_loop] at h
    simpa using strlen_of_peek_nul hexstr h
  | succ len ih =>
    intro hexstr p h
    rw [hex2bin_loop] at h
    split_ifs at h with h1 h2
    match hexstr, h1, h2, h with
    | [], h1, _, _ => simp [peek] at h1
    | [c1], _, h2, _ => simp [peek] at h2
    | c1 :: c2 :: t, h1, h2, h =>
      simp only [peek, List.headD_cons, List.tail_cons, Bool.not_eq_true] at h1 h2
      simp only [peek, List.headD_cons, List.tail_cons, List.drop_succ_cons, List.drop_zero] at h
      split at h
      · simp at h
      · have := ih t _ h
        rw [strlen_cons c1 _ h1, strlen_cons c2 _ h2, this]
        ring

/-- C9. `hex2bin(dst, hexstr, len)` returns true only if `hexstr` has exactly
`2*len` characters: whenever the length differs (shorter, odd, or longer) the
call returns false. -/
theorem hex2bin_true_only_exact_length (hexstr : List Char) (len : Nat) :
    ((hex2bin hexstr len).1 = true → strlen hexstr = 2 * len)
      ∧ (strlen hexstr < 2 * len → (hex2bin hexstr len).1 = false)
      ∧ (2 * len < strlen hexstr → (hex2bin hexstr len).1 = false) := by
  have key : (hex2bin hexstr len).1 = true → strlen hexstr = 2 * len :=
    hex2bin_loop_true_length len hexstr []
  refine ⟨key, ?_, ?_⟩
  · intro hlt
    cases hb : (hex2bin hexstr len).1 with
    | false => rfl
    | true => have := key hb; omega
  · intro hlt
    cases hb : (hex2bin hexstr len).1 with
    | false => rfl
    | true => have := key hb; omega

/-- Witness of C9: an accepted string of 8 characters for 4 bytes, and one
truncated, one odd and one overlong string that are refused. -/
theorem hex2bin_true_only_exact_length_witness :
    ((hex2bin "deadbeef".toList 4).1 = true ∧ strlen "deadbeef".toList = 2 * 4)
      ∧ (hex2bin "deadbe".toList 4).1 = false
      ∧ (hex2bin "deadbee".toList 4).1 = false
      ∧ (hex2bin "deadbeef00".toList 4).1 = false :=
  ⟨⟨by decide, (hex2bin_true_only_exact_length "deadbeef".toList 4).1 (by decide)⟩,
    (hex2bin_true_only_exact_length "deadbe".toList 4).2.1 (by decide),
    (hex2bin_true_only_exact_length "deadbee".toList 4).2.1 (by decide),
    (hex2bin_true_only_exact_length "deadbeef00".toList 4).2.2 (by decide)⟩

/-- C10. `hex2bin` accepts pairs that are not two hex digits: for `"1g"`,
`" 1"` and `"-1"` with `len = 1` it returns true, storing 0x01, 0x01 and
0xFF, because `sscanf("%x")` converts the digits it finds. -/
theorem hex2bin_accepts_non_hex :
    hex2bin "1g".toList 1 = (true, [0x01])
      ∧ hex2bin " 1".toList 1 = (true, [0x01])
      ∧ hex2bin "-1".toList 1 = (true, [0xFF])
      ∧ isxdigit 'g' = false ∧ isxdigit ' ' = false ∧ isxdigit '-' = false := by
  decide

/-! ## bitforce_send_work: the work frame -/

theorem write_at_length {α : Type} (buf : List α) (off : Nat) (data : List α)
    (h : off + data.length ≤ buf.length) : (write_at buf off data).length = buf.length := by
  unfold write_at
  simp only [List.length_append, List.length_take, List.length_drop]
  omega

/-- A store at offset `off` keeps the bytes before it and puts the data
after them. -/
theorem write_at_pre {α : Type} (buf pre data : List α) (off k n : Nat)
    (hlen : off ≤ buf.length) (hpre : buf.take off = pre) (hk : k ≤ data.length)
    (hn : n = off + k) :
    (write_at buf off data).take n = pre ++ data.take k := by
  subst hn
  unfold write_at
  have hl : pre.length = off := by rw [← hpre]; simp [hlen]
  rw [hpre, List.append_assoc, List.take_append_eq_append_take, hl,
    List.take_of_length_le (by omega : pre.length ≤ off + k),
    List.take_append_eq_append_take]
  have e1 : off + k - off = k := by omega
  have e2 : k - data.length = 0 := by omega
  rw [e1, e2]
  simp

/-- The first 52 bytes of the frame buffer after lines 437-439. -/
theorem frame_head (ob : List Nat) (work : Work) (hob : ob.length = 70)
    (hm : work.midstate.length = 32) (hd : work.data.length = 128) :
    (write_at (write_at (write_at ob 0 gt8z) 8 (work.midstate.take 32)) (8 + 32)
        ((work.data.drop 64).take 12)).length = 70
      ∧ (write_at (write_at (write_at ob 0 gt8z) 8 (work.midstate.take 32)) (8 + 32)
        ((work.data.drop 64).take 12)).take 52
          = List.replicate 8 0x3E ++ work.midstate ++ (work.data.drop 64).take 12 := by
  have hg : gt8z.length = 9 := rfl
  have hmt : work.midstate.take 32 = work.midstate := List.take_of_length_le (by omega)
  have hdl : ((work.data.drop 64).take 12).length = 12 := by simp [hd]
  rw [hmt]
  generalize (work.data.drop 64).take 12 = tail at hdl ⊢
  have l1 : (write_at ob 0 gt8z).length = 70 := by
    rw [write_at_length _ _ _ (by omega), hob]
  have t1 : (write_at ob 0 gt8z).take 8 = List.replicate 8 0x3E :=
    write_at_pre ob [] gt8z 0 8 8 (by omega) rfl (by omega) rfl
  have l2 : (write_at (write_at ob 0 gt8z) 8 work.midstate).length = 70 := by
    rw [write_at_length _ _ _ (by omega), l1]
  have t2 : (write_at (write_at ob 0 gt8z) 8 work.midstate).take 40
      = List.replicate 8 0x3E ++ work.midstate := by
    have := write_at_pre (write_at ob 0 gt8z) _ work.midstate 8 32 40 (by omega) t1
      (by omega) rfl
    rw [this, List.take_of_length_le (by omega)]
  constructor
  · rw [write_at_length _ _ _ (by omega), l2]
  · have := write_at_pre (write_at (write_at ob 0 gt8z) 8 work.midstate) _ tail (8 + 32) 12 52
      (by omega) t2 (by omega) rfl
    rw [this, List.take_of_length_le (by omega)]

/-- What lines 437-456 build when nonce-range is off. -/
theorem build_frame_plain (ob : List Nat) (dev : Bitforce) (work : Work)
    (hob : ob.length = 70) (hm : work.midstate.length = 32) (hd : work.data.length = 128)
    (hr : dev.nonce_range = false) :
    (build_frame ob dev work).2.1 = 60
      ∧ (build_frame ob dev work).1.take 60
          = List.replicate 8 0x3E ++ work.midstate ++ (work.data.drop 64).take 12
              ++ List.replicate 8 0x3E
      ∧ (build_frame ob dev work).2.2.1 = { dev with nonces := 0xffffffff }
      ∧ (build_frame ob dev work).2.2.2 = { work with nonce := 0xffffffff } := by
  obtain ⟨l3, t3⟩ := frame_head ob work hob hm hd
  unfold build_frame
  simp only [hr, Bool.not_false, if_true]
  refine ⟨by trivial, ?_, by trivial, by trivial⟩
  have hg : gt8z.length = 9 := rfl
  rw [write_at_pre _ _ gt8z (8 + 32 + 12) 8 60 (by omega) t3 (by omega) rfl]
  rfl

/-- What lines 437-456 build when nonce-range is on. -/
theorem build_frame_range (ob : List Nat) (dev : Bitforce) (work : Work)
    (hob : ob.length = 70) (hm : work.midstate.length = 32) (hd : work.data.length = 128)
    (hr : dev.nonce_range = true) :
    (build_frame ob dev work).2.1 = 68
      ∧ (build_frame ob dev work).1.take 68
          = List.replicate 8 0x3E ++ work.midstate ++ (work.data.drop 64).take 12
              ++ store_be32 work.nonce ++ store_be32 ((work.nonce + 0x33333332) % 2 ^ 32)
              ++ List.replicate 8 0x3E
      ∧ (build_frame ob dev work).2.2.1 = { dev with nonces := 0x33333332 }
      ∧ (build_frame ob dev work).2.2.2
          = { work with nonce := (work.nonce + 0x33333333) % 2 ^ 32 } := by
  obtain ⟨l3, t3⟩ := frame_head ob work hob hm hd
  unfold build_frame
  simp only [hr, Bool.not_true, Bool.false_eq_true, if_false]
  refine ⟨by trivial, ?_, by trivial, by trivial⟩
  have hg : gt8z.length = 9 := rfl
  have hs : ∀ x : Nat, (store_be32 x).length = 4 := fun x => rfl
  generalize write_at (write_at (write_at ob 0 gt8z) 8 (work.midstate.take 32)) (8 + 32)
        ((work.data.drop 64).take 12) = ob3 at l3 t3 ⊢
  have h1 := hs work.nonce
  have h2 := hs ((work.nonce + 0x33333332) % 2 ^ 32)
  have l4 : (write_at ob3 (8 + 32 + 12) (store_be32 work.nonce)).length = 70 := by
    rw [write_at_length _ _ _ (by omega), l3]
  have t4 := write_at_pre ob3 _ (store_be32 work.nonce) (8 + 32 + 12) 4 56 (by omega) t3
    (by omega) rfl
  rw [List.take_of_length_le (l := store_be32 work.nonce) (by omega)] at t4
  generalize write_at ob3 (8 + 32 + 12) (store_be32 work.nonce) = ob4 at l4 t4 ⊢
  have l5 : (write_at ob4 (8 + 32 + 12 + 4)
      (store_be32 ((work.nonce + 0x33333332) % 2 ^ 32))).length = 70 := by
    rw [write_at_length _ _ _ (by omega), l4]
  have t5 := write_at_pre ob4 _ (store_be32 ((work.nonce + 0x33333332) % 2 ^ 32))
    (8 + 32 + 12 + 4) 4 60 (by omega) t4 (by omega) rfl
  rw [List.take_of_length_le (l := store_be32 _) (by omega)] at t5
  generalize write_at ob4 (8 + 32 + 12 + 4)
      (store_be32 ((work.nonce + 0x33333332) % 2 ^ 32)) = ob5 at l5 t5 ⊢
  rw [write_at_pre ob5 _ gt8z (8 + 32 + 12 + 8) 8 68 (by omega) t5 (by omega) rfl]
  rfl

theorem usb_writes_append (a b : List Effect) :
    usb_writes (a ++ b) = usb_writes a ++ usb_writes b := by
  induction a with
  | nil => rfl
  | cons e t ih => cases e <;> simp [usb_writes, ih]

theorem ok_not_busy (buf : List Char) (h : strncasecmp_eq buf "OK".toList 2 = true) :
    strncasecmp_eq buf "B".toList 1 = false := by
  have e1 : "OK".toList = ['O', 'K'] := rfl
  have e2 : "B".toList = ['B'] := rfl
  rw [e1] at h
  rw [e2]
  rw [strncasecmp_eq] at h ⊢
  have ho : (peek ['O', 'K']).toLower = 'o' := by decide
  have hb : (peek ['B']).toLower = 'b' := by decide
  rw [ho] at h
  rw [hb]
  by_cases hc : (peek buf).toLower = 'o'
  · have hne : ('o' != 'b') = true := by decide
    rw [hc, if_pos hne]
  · simp [hc] at h

/-- Writes, device and work of lines 437-494 for any continuation of the
script. -/
theorem send_frame_writes (ob : List Nat) (dev : Bitforce) (work : Work)
    (rest : List UsbReply) :
    usb_writes (send_frame ob dev work rest).trace
        = [(build_frame ob dev work).1.take (build_frame ob dev work).2.1]
      ∧ (send_frame ob dev work rest).dev = (build_frame ob dev work).2.2.1
      ∧ (send_frame ob dev work rest).work = (build_frame ob dev work).2.2.2 := by
  match rest with
  | [] => exact ⟨rfl, rfl, rfl⟩
  | [w] =>
    simp only [send_frame]
    split_ifs <;> exact ⟨rfl, rfl, rfl⟩
  | w :: r :: t =>
    simp only [send_frame]
    split_ifs <;> exact ⟨rfl, rfl, rfl⟩

theorem send_work_busy_round (ob : List Nat) (dev : Bitforce) (work : Work)
    (w r : UsbReply) (rest : List UsbReply) (h : busy_round w r) :
    bitforce_send_work ob dev work (w :: r :: rest)
      = (bitforce_send_work ob dev work rest).after
          [Effect.mutex_lock,
            Effect.usb_write (if dev.nonce_range then ascii "ZPX" else ascii "ZDX"),
            Effect.usb_read, Effect.mutex_unlock, Effect.nmsleep 50] := by
  obtain ⟨h1, h2, h3, h4⟩ := h
  rw [bitforce_send_work]
  have c1 : ¬ (w.err < 0 ∨ w.amount ≠ 3) := by
    intro hc
    rcases hc with hc | hc
    · omega
    · exact hc h2
  have c2 : ¬ (r.err < 0) := by omega
  simp only [c1, c2, if_false, h4, if_true]

theorem send_work_accept_round (ob : List Nat) (dev : Bitforce) (work : Work)
    (w r : UsbReply) (rest : List UsbReply) (h : accept_round w r) :
    bitforce_send_work ob dev work (w :: r :: rest)
      = (send_frame ob dev work rest).after
          [Effect.mutex_lock,
            Effect.usb_write (if dev.nonce_range then ascii "ZPX" else ascii "ZDX"),
            Effect.usb_read] := by
  obtain ⟨h1, h2, h3, h4, h5, h6⟩ := h
  rw [bitforce_send_work]
  have c1 : ¬ (w.err < 0 ∨ w.amount ≠ 3) := by
    intro hc
    rcases hc with hc | hc
    · omega
    · exact hc h2
  have c2 : ¬ (r.err < 0) := by omega
  have c3 : ¬ (r.amount = 0 ∨ peek r.buf = NUL ∨ strncasecmp_eq r.buf "B".toList 1 = true) := by
    intro hc
    rcases hc with hc | hc | hc
    · exact h4 hc
    · exact h5 hc
    · rw [ok_not_busy r.buf h6] at hc
      exact Bool.false_ne_true hc
  simp only [c1, c2, c3, if_false, h6, Bool.not_true, Bool.false_eq_true]

/-- Writes, device and work of a run of `bitforce_send_work` in which the
device is busy for `busy.length` passes and then accepts the command. -/
theorem send_work_accepted (ob : List Nat) (dev : Bitforce) (work : Work)
    (busy : List (UsbReply × UsbReply)) (w r : UsbReply) (rest : List UsbReply)
    (hbusy : ∀ x ∈ busy, busy_round x.1 x.2) (hacc : accept_round w r) :
    usb_writes (bitforce_send_work ob dev work (rounds busy ++ w :: r :: rest)).trace
        = List.replicate (busy.length + 1) (if dev.nonce_range then ascii "ZPX" else ascii "ZDX")
            ++ [(build_frame ob dev work).1.take (build_frame ob dev work).2.1]
      ∧ (bitforce_send_work ob dev work (rounds busy ++ w :: r :: rest)).dev
          = (build_frame ob dev work).2.2.1
      ∧ (bitforce_send_work ob dev work (rounds busy ++ w :: r :: rest)).work
          = (build_frame ob dev work).2.2.2 := by
  induction busy with
  | nil =>
    simp only [rounds, List.flatMap_nil, List.nil_append, List.length_nil]
    rw [send_work_accept_round ob dev work w r rest hacc]
    obtain ⟨f1, f2, f3⟩ := send_frame_writes ob dev work rest
    refine ⟨?_, f2, f3⟩
    simp only [SendResult.after, usb_writes_append, f1]
    rfl
  | cons x busy ih =>
    have hx := hbusy x (by simp)
    obtain ⟨i1, i2, i3⟩ := ih (fun y hy => hbusy y (by simp [hy]))
    have e : rounds (x :: busy) ++ w :: r :: rest
        = x.1 :: x.2 :: (rounds busy ++ w :: r :: rest) := by
      simp [rounds]
    rw [e, send_work_busy_round ob dev work x.1 x.2 _ hx]
    refine ⟨?_, i2, i3⟩
    simp only [SendResult.after, usb_writes_append, i1, List.length_cons]
    rfl

/-- C2. With nonce-range off, once the device accepts the command (after any
number of busy passes) `bitforce_send_work` writes one frame, and that frame
is exactly 60 bytes: eight 0x3E, the 32 midstate bytes, work data bytes
64..75, eight 0x3E; every other write is the command `ZDX`.  The per-scan
`nonces` and `work.nonce` are both set to 0xFFFFFFFF. -/
theorem send_work_frame_plain (ob : List Nat) (dev : Bitforce) (work : Work)
    (busy : List (UsbReply × UsbReply)) (w r : UsbReply) (rest : List UsbReply)
    (hob : ob.length = 70) (hm : work.midstate.length = 32) (hd : work.data.length = 128)
    (hr : dev.nonce_range = false)
    (hbusy : ∀ x ∈ busy, busy_round x.1 x.2) (hacc : accept_round w r) :
    usb_writes (bitforce_send_work ob dev work (rounds busy ++ w :: r :: rest)).trace
        = List.replicate (busy.length + 1) (ascii "ZDX")
            ++ [List.replicate 8 0x3E ++ work.midstate ++ (work.data.drop 64).take 12
                  ++ List.replicate 8 0x3E]
      ∧ (List.replicate 8 0x3E ++ work.midstate ++ (work.data.drop 64).take 12
            ++ List.replicate 8 0x3E).length = 60
      ∧ (bitforce_send_work ob dev work (rounds busy ++ w :: r :: rest)).dev.nonces = 0xffffffff
      ∧ (bitforce_send_work ob dev work (rounds busy ++ w :: r :: rest)).work.nonce
          = 0xffffffff := by
  obtain ⟨s1, s2, s3⟩ := send_work_accepted ob dev work busy w r rest hbusy hacc
  obtain ⟨b1, b2, b3, b4⟩ := build_frame_plain ob dev work hob hm hd hr
  rw [s1, s2, s3, b1, b2, b3, b4]
  refine ⟨by simp [hr], ?_, rfl, rfl⟩
  simp [hm, hd]

set_option maxRecDepth 100000 in
/-- Witness of C2: the spec's scenario S2 (midstate 32 times 0x11, tail 12
times 0x22), with one busy pass before the command is accepted. -/
theorem send_work_frame_plain_witness :
    usb_writes (bitforce_send_work (List.replicate 70 0xAA) { sleep_ms := 2500 }
        ⟨List.replicate 32 0x11,
          List.replicate 64 0 ++ List.replicate 12 0x22 ++ List.replicate 52 0, 7⟩
        (rounds [(⟨0, 3, []⟩, ⟨0, 5, "BUSY\n".toList⟩)]
          ++ ⟨0, 3, []⟩ :: ⟨0, 3, "OK\n".toList⟩ :: [⟨0, 60, []⟩, ⟨0, 3, "OK\n".toList⟩])).trace
        = [ascii "ZDX", ascii "ZDX",
            List.replicate 8 0x3E ++ List.replicate 32 0x11 ++ List.replicate 12 0x22
              ++ List.replicate 8 0x3E]
      ∧ (bitforce_send_work (List.replicate 70 0xAA) { sleep_ms := 2500 }
        ⟨List.replicate 32 0x11,
          List.replicate 64 0 ++ List.replicate 12 0x22 ++ List.replicate 52 0, 7⟩
        (rounds [(⟨0, 3, []⟩, ⟨0, 5, "BUSY\n".toList⟩)]
          ++ ⟨0, 3, []⟩ :: ⟨0, 3, "OK\n".toList⟩ :: [⟨0, 60, []⟩, ⟨0, 3, "OK\n".toList⟩])).dev.nonces
        = 0xffffffff
      ∧ (bitforce_send_work (List.replicate 70 0xAA) { sleep_ms := 2500 }
        ⟨List.replicate 32 0x11,
          List.replicate 64 0 ++ List.replicate 12 0x22 ++ List.replicate 52 0, 7⟩
        (rounds [(⟨0, 3, []⟩, ⟨0, 5, "BUSY\n".toList⟩)]
          ++ ⟨0, 3, []⟩ :: ⟨0, 3, "OK\n".toList⟩ :: [⟨0, 60, []⟩, ⟨0, 3, "OK\n".toList⟩])).work.nonce
        = 0xffffffff := by
  have h := send_work_frame_plain (List.replicate 70 0xAA) { sleep_ms := 2500 }
    ⟨List.replicate 32 0x11,
      List.replicate 64 0 ++ List.replicate 12 0x22 ++ List.replicate 52 0, 7⟩
    [(⟨0, 3, []⟩, ⟨0, 5, "BUSY\n".toList⟩)] ⟨0, 3, []⟩ ⟨0, 3, "OK\n".toList⟩
    [⟨0, 60, []⟩, ⟨0, 3, "OK\n".toList⟩]
    (by decide) (by decide) (by decide) (by decide) (by decide) (by decide)
  exact ⟨h.1, h.2.2.1, h.2.2.2⟩

/-- C3. With nonce-range on, once the device accepts the command (after any
number of busy passes) `bitforce_send_work` writes one frame of exactly 68
bytes: eight 0x3E, the 32 midstate bytes, work data bytes 64..75, the starting
nonce `s` as 4 big-endian bytes, `(s + 0x33333332) mod 2^32` as 4 big-endian
bytes, eight 0x3E; every other write is the command `ZPX`.  The per-scan
`nonces` becomes 0x33333332 and `work.nonce` becomes `(s + 0x33333333) mod 2^32`. -/
theorem send_work_frame_range (ob : List Nat) (dev : Bitforce) (work : Work)
    (busy : List (UsbReply × UsbReply)) (w r : UsbReply) (rest : List UsbReply)
    (hob : ob.length = 70) (hm : work.midstate.length = 32) (hd : work.data.length = 128)
    (hr : dev.nonce_range = true)
    (hbusy : ∀ x ∈ busy, busy_round x.1 x.2) (hacc : accept_round w r) :
    usb_writes (bitforce_send_work ob dev work (rounds busy ++ w :: r :: rest)).trace
        = List.replicate (busy.length + 1) (ascii "ZPX")
            ++ [List.replicate 8 0x3E ++ work.midstate ++ (work.data.drop 64).take 12
                  ++ [work.nonce / 2 ^ 24 % 256, work.nonce / 2 ^ 16 % 256,
                      work.nonce / 2 ^ 8 % 256, work.nonce % 256]
                  ++ [(work.nonce + 0x33333332) % 2 ^ 32 / 2 ^ 24 % 256,
                      (work.nonce + 0x33333332) % 2 ^ 32 / 2 ^ 16 % 256,
                      (work.nonce + 0x33333332) % 2 ^ 32 / 2 ^ 8 % 256,
                      (work.nonce + 0x33333332) % 2 ^ 32 % 256]
                  ++ List.replicate 8 0x3E]
      ∧ (List.replicate 8 0x3E ++ work.midstate ++ (work.data.drop 64).take 12
            ++ [work.nonce / 2 ^ 24 % 256, work.nonce / 2 ^ 16 % 256,
                work.nonce / 2 ^ 8 % 256, work.nonce % 256]
            ++ [(work.nonce + 0x33333332) % 2 ^ 32 / 2 ^ 24 % 256,
                (work.nonce + 0x33333332) % 2 ^ 32 / 2 ^ 16 % 256,
                (work.nonce + 0x33333332) % 2 ^ 32 / 2 ^ 8 % 256,
                (work.nonce + 0x33333332) % 2 ^ 32 % 256]
            ++ List.replicate 8 0x3E).length = 68
      ∧ (bitforce_send_work ob dev work (rounds busy ++ w :: r :: rest)).dev.nonces = 0x33333332
      ∧ (bitforce_send_work ob dev work (rounds busy ++ w :: r :: rest)).work.nonce
          = (work.nonce + 0x33333333) % 2 ^ 32 := by
  obtain ⟨s1, s2, s3⟩ := send_work_accepted ob dev work busy w r rest hbusy hacc
  obtain ⟨b1, b2, b3, b4⟩ := build_frame_range ob dev work hob hm hd hr
  rw [s1, s2, s3, b1, b2, b3, b4]
  refine ⟨by simp [hr, store_be32], ?_, rfl, rfl⟩
  simp [hm, hd]

set_option maxRecDepth 100000 in
/-- Witness of C3: the spec's scenario S3 (starting nonce 0): bytes 52..55 of
the frame are 00 00 00 00, bytes 56..59 are 33 33 33 32, and the frame ends
with eight 0x3E. -/
theorem send_work_frame_range_witness :
    usb_writes (bitforce_send_work (List.replicate 70 0xAA)
        { nonce_range := true, sleep_ms := 500, kname := Kname.range }
        ⟨List.replicate 32 0x11,
          List.replicate 64 0 ++ List.replicate 12 0x22 ++ List.replicate 52 0, 0⟩
        (rounds [] ++ ⟨0, 3, []⟩ :: ⟨0, 3, "OK\n".toList⟩ ::
          [⟨0, 68, []⟩, ⟨0, 3, "OK\n".toList⟩])).trace
        = [ascii "ZPX",
            List.replicate 8 0x3E ++ List.replicate 32 0x11 ++ List.replicate 12 0x22
              ++ [0x00, 0x00, 0x00, 0x00] ++ [0x33, 0x33, 0x33, 0x32]
              ++ List.replicate 8 0x3E]
      ∧ (bitforce_send_work (List.replicate 70 0xAA)
        { nonce_range := true, sleep_ms := 500, kname := Kname.range }
        ⟨List.replicate 32 0x11,
          List.replicate 64 0 ++ List.replicate 12 0x22 ++ List.replicate 52 0, 0⟩
        (rounds [] ++ ⟨0, 3, []⟩ :: ⟨0, 3, "OK\n".toList⟩ ::
          [⟨0, 68, []⟩, ⟨0, 3, "OK\n".toList⟩])).dev.nonces = 0x33333332
      ∧ (bitforce_send_work (List.replicate 70 0xAA)
        { nonce_range := true, sleep_ms := 500, kname := Kname.range }
        ⟨List.replicate 32 0x11,
          List.replicate 64 0 ++ List.replicate 12 0x22 ++ List.replicate 52 0, 0⟩
        (rounds [] ++ ⟨0, 3, []⟩ :: ⟨0, 3, "OK\n".toList⟩ ::
          [⟨0, 68, []⟩, ⟨0, 3, "OK\n".toList⟩])).work.nonce = 0x33333333 := by
  have h := send_work_frame_range (List.replicate 70 0xAA)
    { nonce_range := true, sleep_ms := 500, kname := Kname.range }
    ⟨List.replicate 32 0x11,
      List.replicate 64 0 ++ List.replicate 12 0x22 ++ List.replicate 52 0, 0⟩
    [] ⟨0, 3, []⟩ ⟨0, 3, "OK\n".toList⟩ [⟨0, 68, []⟩, ⟨0, 3, "OK\n".toList⟩]
    (by decide) (by decide) (by decide) (by decide) (by decide) (by decide)
  exact ⟨h.1, h.2.2.1, h.2.2.2⟩

/-! ## bitforce_get_result: NONCE-FOUND replies -/

theorem submitted_append (a b : List Effect) :
    submitted (a ++ b) = submitted a ++ submitted b := by
  induction a with
  | nil => rfl
  | cons e t ih => cases e <;> simp [submitted, ih]

theorem intercalate_single {α : Type} (sep t : List α) : List.intercalate sep [t] = t := by
  simp [List.intercalate, List.intersperse]

theorem intercalate_cons_cons {α : Type} (sep t t2 : List α) (ts : List (List α)) :
    List.intercalate sep (t :: t2 :: ts) = t ++ sep ++ List.intercalate sep (t2 :: ts) := by
  simp [List.intercalate, List.intersperse]

theorem length_eight {α : Type} (t : List α) (h : t.length = 8) :
    ∃ a b c d e f g i, t = [a, b, c, d, e, f, g, i] := by
  match t, h with
  | [a, b, c, d, e, f, g, i], _ => exact ⟨a, b, c, d, e, f, g, i, rfl⟩

/-- The value `hex2bin` and `swab32` leave in `nonce` for a token of 8 hex
digits, whatever followed the token and whatever `nonce` held before. -/
theorem nonce_of_token (t rest : List Char) (nonce : Nat) (hl : t.length = 8)
    (hx : ∀ c ∈ t, isxdigit c = true) :
    swab32 (load_le32 (write_at (store_le32 nonce) 0 ((hex2bin (t ++ rest) 4).2)))
      = swab32 (load_le32 (hex2bin t 4).2) := by
  obtain ⟨bs, hloop, hbl, -⟩ := hex2bin_loop_xdigits 4 t [] (by omega) hx
  have e1 : (hex2bin (t ++ rest) 4).2 = bs := by
    unfold hex2bin
    rw [hloop rest]
    rfl
  have e2 : (hex2bin t 4).2 = bs := by
    unfold hex2bin
    have := hloop []
    rw [List.append_nil] at this
    rw [this]
    rfl
  rw [e1, e2]
  match bs, hbl with
  | [b0, b1, b2, b3], _ => rfl

theorem nonce_loop_tokens : ∀ (tokens : List (List Char)) (dev : Bitforce) (work : Work)
    (nonce : Nat) (tail : List Char), tokens ≠ [] →
    (∀ t ∈ tokens, t.length = 8 ∧ ∀ c ∈ t, isxdigit c = true) → peek tail ≠ ',' →
    submitted (nonce_loop dev work nonce (List.intercalate [','] tokens ++ tail)).2.2
        = tokens.map (fun t => swab32 (load_le32 (hex2bin t 4).2))
      ∧ (nonce_loop dev work nonce (List.intercalate [','] tokens ++ tail)).1.nonces
          = dev.nonces := by
  intro tokens
  induction tokens with
  | nil => intro _ _ _ _ h; exact absurd rfl h
  | cons t ts ih =>
    intro dev work nonce tail _ hx htail
    obtain ⟨hl, hxt⟩ := hx t (by simp)
    obtain ⟨a, b, c, d, e, f, g, i, ht⟩ := length_eight t hl
    subst ht
    cases ts with
    | nil =>
      rw [intercalate_single]
      have hn := nonce_of_token [a, b, c, d, e, f, g, i] tail nonce hl hxt
      cases tail with
      | nil =>
        simp only [List.append_nil] at hn ⊢
        unfold nonce_loop
        simp only [hn]
        constructor
        · simp [submitted]
        · split_ifs <;> rfl
      | cons x tl =>
        have hx' : (x != ',') = true := by
          simpa [peek] using htail
        simp only [List.cons_append, List.nil_append] at hn ⊢
        unfold nonce_loop
        simp only [hn, hx', if_true]
        constructor
        · simp [submitted]
        · split_ifs <;> rfl
    | cons t2 ts2 =>
      rw [intercalate_cons_cons, List.append_assoc, List.append_assoc]
      have hn := nonce_of_token [a, b, c, d, e, f, g, i]
        ([','] ++ (List.intercalate [','] (t2 :: ts2) ++ tail)) nonce hl hxt
      simp only [List.cons_append, List.nil_append] at hn ⊢
      have hc : ((',' : Char) != ',') = false := by decide
      have hrec := fun dev1 work1 => ih dev1 work1
        (swab32 (load_le32 (hex2bin [a, b, c, d, e, f, g, i] 4).2)) tail (by simp)
        (fun u hu => hx u (by simp [hu])) htail
      generalize List.intercalate [','] (t2 :: ts2) ++ tail = more at hn hrec ⊢
      unfold nonce_loop
      simp only [hn, hc, Bool.false_eq_true, if_false]
      constructor
      · simp only [submitted, List.map_cons]
        rw [(hrec _ _).1]
        rfl
      · rw [(hrec _ _).2]
        split_ifs <;> rfl

theorem tune_sleep_nonces (dev : Bitforce) : (tune_sleep dev).nonces = dev.nonces := by
  unfold tune_sleep
  split_ifs <;> rfl

/-- Classification of a `NONCE-FOUND:` reply: every token is submitted, in
order, and the per-scan `nonces` is returned. -/
theorem classify_nonce_found (nonce0 : Nat) (dev : Bitforce) (work : Work) (p : Poll)
    (tokens : List (List Char)) (tail : List Char)
    (hamount : p.amount > 0)
    (hbuf : p.buf = "NONCE-FOUND:".toList ++ (List.intercalate [','] tokens ++ tail))
    (hne : tokens ≠ [])
    (hx : ∀ t ∈ tokens, t.length = 8 ∧ ∀ c ∈ t, isxdigit c = true)
    (htail : peek tail ≠ ',') :
    submitted (classify nonce0 dev work p).trace
        = tokens.map (fun t => swab32 (load_le32 (hex2bin t 4).2))
      ∧ (classify nonce0 dev work p).ret = some (dev.nonces : Int) := by
  generalize hX : List.intercalate [','] tokens ++ tail = X at hbuf
  have k1 : strncasecmp_eq (p.buf.drop 2) "-".toList 1 = false := by rw [hbuf]; rfl
  have k2 : strncasecmp_eq p.buf "I".toList 1 = false := by rw [hbuf]; rfl
  have k3 : strncasecmp_eq p.buf "NONCE-FOUND".toList 11 = true := by rw [hbuf]; rfl
  have k4 : p.buf.drop 12 = X := by rw [hbuf]; rfl
  have c0 : ¬ (p.elapsed_sec > 7 ∧ p.amount = 0) := by
    intro hc
    omega
  unfold classify
  simp only [c0, if_false, k1, k2, k3, k4, Bool.false_eq_true, Bool.not_true]
  rw [← hX]
  have key := fun d => nonce_loop_tokens tokens d work nonce0 tail hne hx htail
  by_cases h7 : p.elapsed_sec > 7
  · simp only [h7, if_true]
    obtain ⟨n1, n2⟩ := key dev
    refine ⟨?_, by rw [n2]⟩
    rw [submitted_append, n1]
    rfl
  · simp only [h7, if_false]
    split_ifs
    · obtain ⟨n1, n2⟩ := key (tune_sleep dev)
      refine ⟨?_, by rw [n2, tune_sleep_nonces]⟩
      rw [submitted_append, n1]
      rfl
    · obtain ⟨n1, n2⟩ := key dev
      refine ⟨?_, by rw [n2]⟩
      rw [submitted_append, n1]
      rfl

/-- The poll loop runs through passes that keep polling and reaches the pass
that breaks it with only `wait_ms` changed and no nonce submitted. -/
theorem get_result_polls (nonce0 : Nat) (work : Work) (p : Poll) (rest : List Poll)
    (hr : p.work_restart = false) (ht : p.elapsed_sec < 30) (ha : p.amount > 0)
    (hn : peek p.buf ≠ NUL) (hb : strncasecmp_eq p.buf "B".toList 1 = false) :
    ∀ (busy : List Poll) (dev : Bitforce), (∀ q ∈ busy, keeps_polling q) →
      ∃ (wait : Nat) (pre : List Effect), submitted pre = []
        ∧ bitforce_get_result nonce0 dev work (busy ++ p :: rest)
            = (classify nonce0 { dev with wait_ms := wait } work p).after pre := by
  intro busy
  induction busy with
  | nil =>
    intro dev _
    refine ⟨dev.wait_ms, [Effect.mutex_lock, Effect.usb_write (ascii "ZFX"), Effect.usb_read,
      Effect.mutex_unlock], ?_, ?_⟩
    rotate_left
    · rw [List.nil_append, bitforce_get_result]
      have c1 : ¬ (p.elapsed_sec ≥ 30) := by omega
      simp only [hr, Bool.false_eq_true, if_false, c1, ha, hn, hb, ne_eq, not_false_eq_true,
        and_self, if_true]
    · rfl
  | cons q busy ih =>
    intro dev hq
    obtain ⟨q1, q2, q3⟩ := hq q (by simp)
    obtain ⟨wait, pre, hpre, hrun⟩ := ih
      { dev with wait_ms := (dev.wait_ms + (if peek q.buf ≠ NUL then 10 else 2 * 50)) % 2 ^ 32 }
      (fun y hy => hq y (by simp [hy]))
    refine ⟨wait, ([Effect.mutex_lock, Effect.usb_write (ascii "ZFX"), Effect.usb_read,
      Effect.mutex_unlock] ++ [Effect.nmsleep (if peek q.buf ≠ NUL then 10 else 2 * 50)])
        ++ pre, ?_, ?_⟩
    rotate_left
    · rw [List.cons_append, bitforce_get_result]
      have c1 : ¬ (q.elapsed_sec ≥ 30) := by omega
      simp only [q1, Bool.false_eq_true, if_false, c1, q3]
      rw [hrun]
      simp only [GetResult.after, List.append_assoc]
    · simp [submitted_append, hpre, submitted]

/-- C4. A work-status reply `NONCE-FOUND:` followed by `k >= 1` comma-separated
tokens of 8 hex digits, read before the long timeout with no restart pending
(after any number of passes that kept polling): `bitforce_get_result` calls
`submit_nonce` exactly `k` times, in token order, the i-th nonce being
`swab32` of the little-endian load of the 4 bytes `hex2bin` decodes from
token i, and returns the per-scan `nonces` of the device. -/
theorem get_result_nonce_found (nonce0 : Nat) (dev : Bitforce) (work : Work)
    (busy : List Poll) (p : Poll) (rest : List Poll)
    (tokens : List (List Char)) (tail : List Char)
    (hbusy : ∀ q ∈ busy, keeps_polling q)
    (hr : p.work_restart = false) (ht : p.elapsed_sec < 30) (ha : p.amount > 0)
    (hbuf : p.buf = "NONCE-FOUND:".toList ++ (List.intercalate [','] tokens ++ tail))
    (hne : tokens ≠ [])
    (hx : ∀ t ∈ tokens, t.length = 8 ∧ ∀ c ∈ t, isxdigit c = true)
    (htail : peek tail ≠ ',') :
    submitted (bitforce_get_result nonce0 dev work (busy ++ p :: rest)).trace
        = tokens.map (fun t => swab32 (load_le32 (hex2bin t 4).2))
      ∧ (submitted (bitforce_get_result nonce0 dev work (busy ++ p :: rest)).trace).length
          = tokens.length
      ∧ (bitforce_get_result nonce0 dev work (busy ++ p :: rest)).ret
          = some (dev.nonces : Int) := by
  have hn : peek p.buf ≠ NUL := by
    rw [hbuf]
    show 'N' ≠ NUL
    decide
  have hb : strncasecmp_eq p.buf "B".toList 1 = false := by rw [hbuf]; rfl
  obtain ⟨wait, pre, hpre, hrun⟩ :=
    get_result_polls nonce0 work p rest hr ht ha hn hb busy dev hbusy
  obtain ⟨c1, c2⟩ := classify_nonce_found nonce0 { dev with wait_ms := wait } work p tokens
    tail ha hbuf hne hx htail
  rw [hrun]
  simp only [GetResult.after, submitted_append, hpre, List.nil_append, c1, c2,
    List.length_map]
  exact ⟨trivial, trivial, trivial⟩

set_option maxRecDepth 100000 in
/-- Witness of C4: the spec's scenario S8.  After one busy pass the reply
`NONCE-FOUND:12345678,87654321` gives exactly two submissions, 0x12345678 and
0x87654321, and the call returns `nonces`. -/
theorem get_result_nonce_found_witness :
    submitted (bitforce_get_result 0 { nonces := 0xffffffff, sleep_ms := 2500 }
        ⟨[], [], 0xffffffff⟩
        ([⟨false, 5, "BUSY\n".toList, 0⟩]
          ++ ⟨false, 30, "NONCE-FOUND:12345678,87654321\n".toList, 1⟩ :: [])).trace
        = [0x12345678, 0x87654321]
      ∧ (bitforce_get_result 0 { nonces := 0xffffffff, sleep_ms := 2500 }
        ⟨[], [], 0xffffffff⟩
        ([⟨false, 5, "BUSY\n".toList, 0⟩]
          ++ ⟨false, 30, "NONCE-FOUND:12345678,87654321\n".toList, 1⟩ :: [])).ret
        = some 0xffffffff := by
  have h := get_result_nonce_found 0 { nonces := 0xffffffff, sleep_ms := 2500 }
    ⟨[], [], 0xffffffff⟩ [⟨false, 5, "BUSY\n".toList, 0⟩]
    ⟨false, 30, "NONCE-FOUND:12345678,87654321\n".toList, 1⟩ []
    ["12345678".toList, "87654321".toList] "\n".toList
    (by decide) (by decide) (by decide) (by decide) (by decide) (by decide) (by decide)
    (by decide)
  exact ⟨h.1, h.2.2⟩

/-! ## parse_notify -/

theorem json_array_string_array (l : List Json) (i : Nat) :
    json_array_string (some (Json.array l)) i = json_string_value (l.get? i) := by
  unfold json_array_string __json_array_string
  simp only [json_is_null, json_is_array, json_array_size, json_array_get, Bool.false_eq_true,
    if_false, Bool.not_true]
  by_cases h : i > l.length
  · have : l.get? i = none := List.get?_eq_none.mpr (by omega)
    rw [if_pos h, this]
    rfl
  · rw [if_neg h]
    cases json_string_value (l.get? i) <;> rfl

theorem json_array_string_none (val : Option Json) (i : Nat)
    (h : ∀ s, json_array_get val i ≠ some (Json.string s)) :
    json_array_string val i = none := by
  match val with
  | some (Json.array l) =>
    rw [json_array_string_array]
    simp only [json_array_get] at h
    cases hg : l.get? i with
    | none => rfl
    | some v =>
      cases v with
      | string s => exact absurd hg (h s)
      | _ => rfl
  | none => rfl
  | some Json.null => rfl
  | some (Json.bool _) => rfl
  | some (Json.integer _) => rfl
  | some (Json.real _) => rfl
  | some (Json.string _) => rfl
  | some (Json.object _) => rfl

/-- C5. If any of the seven string fields (indices 0, 1, 2, 3, 5, 6, 7) of
the `mining.notify` params is missing or not a string, or index 4 is not an
array, `parse_notify` returns false and leaves the pool (all of `swork`,
`nonce2`, `getwork_requested`) and `total_getworks` unchanged. -/
theorem parse_notify_rejects (pool : Pool) (total_getworks : Nat) (val : Option Json)
    (h : (∀ l, json_array_get val 4 ≠ some (Json.array l))
      ∨ ∃ i ∈ [0, 1, 2, 3, 5, 6, 7], ∀ s, json_array_get val i ≠ some (Json.string s)) :
    parse_notify pool total_getworks val = ⟨false, pool, total_getworks⟩ := by
  by_cases c1 : ((json_array_get val 4).isNone || !json_is_array (json_array_get val 4)) = true
  · unfold parse_notify
    simp only [c1, if_true]
  · have c2 : ((json_array_string val 0).isNone || (json_array_string val 1).isNone
        || (json_array_string val 2).isNone || (json_array_string val 3).isNone
        || (json_array_string val 5).isNone || (json_array_string val 6).isNone
        || (json_array_string val 7).isNone) = true := by
      rcases h with h | ⟨i, hi, h⟩
      · exfalso
        apply c1
        cases hg : json_array_get val 4 with
        | none => rfl
        | some v =>
          cases v with
          | array l => exact absurd hg (h l)
          | _ => rfl
      · have hnone := json_array_string_none val i h
        simp only [List.mem_cons, List.mem_singleton, List.not_mem_nil, or_false] at hi
        rcases hi with rfl | rfl | rfl | rfl | rfl | rfl | rfl <;> simp [hnone]
    unfold parse_notify
    simp only [c1, c2, if_true, if_false, Bool.false_eq_true]

/-- Witness of C5: `coinbase1` (index 2) is a number; the pool, which holds an
earlier job, and the counter stay as they were. -/
theorem parse_notify_rejects_witness :
    parse_notify pool_with_old_job 10
        (some (Json.array [Json.string "job1", Json.string "prev", Json.integer 5,
          Json.string "cb2", Json.array [], Json.string "ver", Json.string "nbit",
          Json.string "nt", Json.bool true]))
      = ⟨false, pool_with_old_job, 10⟩ :=
  parse_notify_rejects _ _ _ (Or.inr ⟨2, by decide, fun s h => by
    simp [json_array_get] at h⟩)

theorem int_of_size_small (n : Nat) (h : n < 2 ^ 31) : int_of_size n = (n : Int) := by
  unfold int_of_size
  have e : n % 2 ^ 32 = n := Nat.mod_eq_of_lt (by omega)
  rw [e, if_pos h]

/-- C6. For params `[job_id, prev_hash, coinbase1, coinbase2, [m_0..m_{k-1}],
bbversion, nbit, ntime, clean]` with the seven fields strings, `parse_notify`
returns true; afterwards the seven `swork` strings are the seven inputs,
`swork.merkles = k`, `merkle[i]` is the string `m_i` for every `i < k` (NULL
where `m_i` is not a string), `swork.clean` is the clean flag, `nonce2` is 0
if clean and unchanged otherwise, and `getwork_requested` and
`total_getworks` are each one more than before. -/
theorem parse_notify_accepts (pool : Pool) (total_getworks : Nat)
    (job_id prev_hash coinbase1 coinbase2 bbversion nbit ntime : String)
    (ms : List Json) (clean : Bool) (hk : ms.length < 2 ^ 31) :
    (parse_notify pool total_getworks
        (some (Json.array [Json.string job_id, Json.string prev_hash, Json.string coinbase1,
          Json.string coinbase2, Json.array ms, Json.string bbversion, Json.string nbit,
          Json.string ntime, Json.bool clean]))).ret = true
      ∧ (parse_notify pool total_getworks
        (some (Json.array [Json.string job_id, Json.string prev_hash, Json.string coinbase1,
          Json.string coinbase2, Json.array ms, Json.string bbversion, Json.string nbit,
          Json.string ntime, Json.bool clean]))).total_getworks = total_getworks + 1
      ∧ ∃ p : Pool,
          (parse_notify pool total_getworks
            (some (Json.array [Json.string job_id, Json.string prev_hash,
              Json.string coinbase1, Json.string coinbase2, Json.array ms,
              Json.string bbversion, Json.string nbit, Json.string ntime,
              Json.bool clean]))).pool = p
          ∧ p.swork.job_id = some job_id ∧ p.swork.prev_hash = some prev_hash
          ∧ p.swork.coinbase1 = some coinbase1 ∧ p.swork.coinbase2 = some coinbase2
          ∧ p.swork.bbversion = some bbversion ∧ p.swork.nbit = some nbit
          ∧ p.swork.ntime = some ntime
          ∧ p.swork.merkles = (ms.length : Int)
          ∧ (∀ i s, ms.get? i = some (Json.string s) → p.swork.merkle.get? i = some (some s))
          ∧ (∀ i, i < ms.length → (∀ s, ms.get? i ≠ some (Json.string s)) →
                p.swork.merkle.get? i = some none)
          ∧ p.swork.clean = clean
          ∧ p.nonce2 = (if clean then 0 else pool.nonce2)
          ∧ p.getwork_requested = pool.getwork_requested + 1 := by
  have hsz := int_of_size_small ms.length hk
  have hm : ∀ i, i < ms.length →
      (if int_of_size ms.length ≠ 0 then
          (List.range (int_of_size ms.length).toNat).map
            (fun i => json_array_string (some (Json.array ms)) i)
        else pool.swork.merkle).get? i = some (json_string_value (ms.get? i)) := by
    intro i hi
    have hne : int_of_size ms.length ≠ 0 := by
      rw [hsz]
      omega
    rw [if_pos hne, hsz, Int.toNat_ofNat, List.get?_eq_getElem?, List.getElem?_map,
      List.getElem?_range hi]
    simp [json_array_string_array]
  refine ⟨by cases clean <;> rfl, by cases clean <;> rfl, _, rfl, ?_⟩
  refine ⟨by cases clean <;> rfl, by cases clean <;> rfl, by cases clean <;> rfl,
    by cases clean <;> rfl, by cases clean <;> rfl, by cases clean <;> rfl,
    by cases clean <;> rfl, ?_, ?_, ?_, by cases clean <;> rfl, by cases clean <;> rfl,
    by cases clean <;> rfl⟩
  · cases clean <;> exact hsz
  · intro i s hs
    have hi : i < ms.length := by
      by_contra hc
      rw [List.get?_eq_none.mpr (by omega)] at hs
      exact Option.noConfusion hs
    have := hm i hi
    rw [hs] at this
    cases clean <;> exact this
  · intro i hi hs
    have h2 : json_string_value (ms.get? i) = none := by
      cases hg : ms.get? i with
      | none => rfl
      | some v =>
        cases v with
        | string s => exact absurd hg (hs s)
        | _ => rfl
    have := (hm i hi).trans (congrArg some h2)
    cases clean <;> exact this

/-- Witness of C6: the spec's scenario S6, on a pool that holds an earlier
job and a non-zero `nonce2`. -/
theorem parse_notify_accepts_witness :
    parse_notify pool_with_old_job 10 (some notify_s6)
      = ⟨true, { swork := { job_id := some "job1", prev_hash := some "prev",
                            coinbase1 := some "cb1", coinbase2 := some "cb2",
                            merkle := [some "m0", some "m1"], bbversion := some "ver",
                            nbit := some "nbit", ntime := some "nt", clean := true,
                            merkles := 2 },
                 nonce2 := 0, getwork_requested := 4 }, 11⟩
      ∧ (parse_notify pool_with_old_job 10 (some notify_s6)).ret = true :=
  ⟨by decide,
    (parse_notify_accepts pool_with_old_job 10 "job1" "prev" "cb1" "cb2" "ver" "nbit" "nt"
      [Json.string "m0", Json.string "m1"] true (by decide)).1⟩

/-! ## recv_line and __stratum_send at the inputs where they go wrong -/

set_option maxRecDepth 1000000 in
/-- C7. A buffer that starts with a newline: for the content
`"\nabc\ndef\n"` the first newline has nothing before it and `"abc\ndef\n"`
after it, yet `recv_line` returns `"abc"` (`strtok` skips the leading
newline) and leaves the buffer string empty, so the line `"def"` is lost. -/
theorem recv_line_leading_newline :
    has_newline (sockbuf_with "\nabc\ndef\n" 8192).sockbuf = true
      ∧ (recv_line 8192 (sockbuf_with "\nabc\ndef\n" 8192) true []).map (fun r => r.1)
          = some (some "abc".toList)
      ∧ (recv_line 8192 (sockbuf_with "\nabc\ndef\n" 8192) true []).map
          (fun r => cstr r.2.sockbuf) = some [] := by
  decide

/-- C8. A partial send: for `s = "abcd"` (`len = 4`) and `send` returning 2
and then 1, `__stratum_send` returns true after the socket took only `"abc"`,
3 of the 5 bytes of the line, because `len -= ssent` subtracts the running
total. -/
theorem stratum_send_partial_loses_bytes :
    (__stratum_send 0 0 "abcd".toList 4 [{ sent := 2 }, { sent := 1 }]).ret = some true
      ∧ bytes_handed (__stratum_send 0 0 "abcd".toList 4 [{ sent := 2 }, { sent := 1 }]).calls
          = "abc".toList
      ∧ (__stratum_send 0 0 "abcd".toList 4 [{ sent := 2 }, { sent := 1 }]).calls
          = [⟨0, 5, "abcd\n".toList, 2⟩, ⟨2, 3, "cd\n".toList, 1⟩]
      ∧ (__stratum_send 0 0 "abcd".toList 4 [{ sent := 2 }, { sent := 1 }]).bytes_sent = 3 := by
  decide

/-! ## recv_line when the buffer starts with a non-empty line -/

theorem takeWhile_stop {α : Type} (p : α → Bool) (x y : List α) (b : α)
    (hx : ∀ a ∈ x, p a = true) (hb : p b = false) :
    (x ++ b :: y).takeWhile p = x := by
  rw [List.takeWhile_append_of_pos hx, List.takeWhile_cons_of_neg (by simp [hb])]
  simp

theorem cstr_stop (x y : List Char) (hx : ∀ c ∈ x, c ≠ NUL) : cstr (x ++ NUL :: y) = x := by
  unfold cstr
  apply takeWhile_stop
  · intro a ha
    simpa using hx a ha
  · simp

theorem write_at_mid {α : Type} (x y : List α) (b c : α) :
    write_at (x ++ b :: y) x.length [c] = x ++ c :: y := by
  unfold write_at
  rw [List.take_left, List.length_singleton, List.drop_append]
  simp

/-- When the buffer holds a non-empty first line, a newline, and then `after`,
`recv_line` returns the line and keeps exactly `after` in the buffer; no `recv`
is made.  (`slack` is the memory behind the terminator; the buffer invariant
`strlen + 2 <= size` makes it non-empty.) -/
theorem recv_line_first_line (rbufsize size tr br : Nat) (line after slack : List Char)
    (readable : Bool) (script : List RecvStep)
    (hline : line ≠ []) (h1 : ∀ c ∈ line, c ≠ '\n' ∧ c ≠ NUL) (h2 : ∀ c ∈ after, c ≠ NUL)
    (hs : slack ≠ []) :
    ∃ pool1 : SockBuf,
      recv_line rbufsize ⟨line ++ '\n' :: (after ++ NUL :: slack), size, tr, br⟩ readable script
          = some (some line, pool1)
        ∧ cstr pool1.sockbuf = after
        ∧ pool1.times_received = tr + 1 ∧ pool1.bytes_received = br + line.length := by
  have hnl : ('\n' : Char) ≠ NUL := by decide
  have hcontent : cstr (line ++ '\n' :: (after ++ NUL :: slack))
      = line ++ '\n' :: after := by
    have : line ++ '\n' :: (after ++ NUL :: slack) = (line ++ '\n' :: after) ++ NUL :: slack := by
      simp
    rw [this]
    apply cstr_stop
    intro c hc
    rcases List.mem_append.mp hc with hc | hc
    · exact (h1 c hc).2
    · rcases List.mem_cons.mp hc with hc | hc
      · rw [hc]; exact hnl
      · exact h2 c hc
  have hhas : has_newline (line ++ '\n' :: (after ++ NUL :: slack)) = true := by
    unfold has_newline
    rw [hcontent]
    simp
  obtain ⟨c0, l0, hl0⟩ := List.exists_cons_of_ne_nil hline
  have hc0 : c0 ≠ '\n' ∧ c0 ≠ NUL := h1 c0 (by rw [hl0]; simp)
  have hstart : ((line ++ '\n' :: (after ++ NUL :: slack)).takeWhile
      (fun c => c == '\n')).length = 0 := by
    rw [hl0, List.cons_append, List.takeWhile_cons_of_neg (by simpa using hc0.1)]
    rfl
  have htlen : (line ++ '\n' :: (after ++ NUL :: slack)).takeWhile
      (fun c => c != '\n' && c != NUL) = line := by
    apply takeWhile_stop
    · intro a ha
      have := h1 a ha
      simp [this.1, this.2]
    · simp
  have htok : strtok_nl (line ++ '\n' :: (after ++ NUL :: slack))
      = (some 0, line ++ NUL :: (after ++ NUL :: slack)) := by
    unfold strtok_nl
    simp only [hstart, List.drop_zero, Nat.zero_add, htlen]
    have hp : (peek (line ++ '\n' :: (after ++ NUL :: slack)) == NUL) = false := by
      rw [hl0]
      simpa [peek] using hc0.2
    have hp2 : (peek ((line ++ '\n' :: (after ++ NUL :: slack)).drop line.length) == '\n')
        = true := by
      rw [List.drop_left]
      simp [peek]
    simp only [hp, Bool.false_eq_true, if_false, hp2, if_true]
    rw [write_at_mid]
  have hsret : cstr (line ++ NUL :: (after ++ NUL :: slack)) = line :=
    cstr_stop line _ (fun c hc => (h1 c hc).2)
  have hsplit : ∃ pool1 : SockBuf,
      recv_line_split ⟨line ++ '\n' :: (after ++ NUL :: slack), size, tr, br⟩
          = (some line, pool1)
        ∧ cstr pool1.sockbuf = after
        ∧ pool1.times_received = tr + 1 ∧ pool1.bytes_received = br + line.length := by
    unfold recv_line_split
    simp only [htok, List.drop_zero, hsret, strlen, hcontent]
    refine ⟨_, rfl, ?_, rfl, rfl⟩
    simp only [List.length_append, List.length_cons]
    by_cases ha : after = []
    · subst ha
      simp [write_at, cstr]
    · have hpos : 0 < after.length := List.length_pos.mpr ha
      have hcond : line.length + (after.length + 1) > line.length + 1 := by omega
      rw [if_pos hcond]
      obtain ⟨s0, sl, hsl⟩ := List.exists_cons_of_ne_nil hs
      have hread : ∀ n : Nat, n = after.length + 2 →
          mem_read (line ++ NUL :: (after ++ NUL :: slack)) (line.length + 1) n
            = after ++ [NUL, s0] := by
        intro n hn
        subst hn
        unfold mem_read
        have e1 : line ++ NUL :: (after ++ NUL :: slack)
            = (line ++ [NUL]) ++ (after ++ NUL :: slack) := by simp
        have e2 : (line ++ [NUL]).length = line.length + 1 := by simp
        rw [e1, List.drop_left' e2, hsl]
        have e4 : after ++ NUL :: s0 :: sl = (after ++ [NUL, s0]) ++ sl := by simp
        have e5 : (after ++ [NUL, s0]).length = after.length + 2 := by simp
        rw [e4, List.take_left' e5]
      rw [hread _ (by omega)]
      unfold write_at
      simp only [List.take_zero, List.nil_append, List.append_assoc]
      exact cstr_stop after _ h2
  obtain ⟨pool1, hsp, hrest⟩ := hsplit
  refine ⟨pool1, ?_, hrest⟩
  unfold recv_line
  simp only [hhas, Bool.true_eq_false, if_false, hsp]

/-! ## bitforce_get_result: what a run does to the device -/

theorem nonce_loop_dev : ∀ (n : Nat) (buf : List Char) (dev : Bitforce) (work : Work)
    (nonce : Nat), buf.length ≤ n →
    (nonce_loop dev work nonce buf).1 = dev
      ∨ (dev.nonce_range = true ∧ (nonce_loop dev work nonce buf).1 = downgrade dev) := by
  intro n
  induction n with
  | zero =>
    intro buf dev work nonce hl
    have : buf = [] := List.length_eq_zero.mp (by omega)
    subst this
    unfold nonce_loop
    simp only
    split_ifs with hb
    · right
      simp only [Bool.and_eq_true] at hb
      exact ⟨hb.1, rfl⟩
    · left; rfl
  | succ n ih =>
    intro buf dev work nonce hl
    unfold nonce_loop
    simp only
    generalize hbr : (dev.nonce_range && (decide (swab32 (load_le32 (write_at (store_le32 nonce) 0
      (hex2bin buf 4).2)) ≥ work.nonce) || (decide (work.nonce > 0) && decide
      (swab32 (load_le32 (write_at (store_le32 nonce) 0 (hex2bin buf 4).2))
        < sub32 (sub32 work.nonce dev.nonces) 1)))) = b
    have hnr : b = true → dev.nonce_range = true := by
      intro hb
      rw [hb] at hbr
      simp only [Bool.and_eq_true] at hbr
      exact hbr.1
    cases b with
    | true =>
      have hnr := hnr rfl
      simp only [if_true]
      split
      · rename_i c rest
        have hrest : rest.length ≤ n := by
          simp only [List.length_cons] at hl
          omega
        split_ifs
        · right; exact ⟨hnr, rfl⟩
        · right
          refine ⟨hnr, ?_⟩
          rcases ih rest (downgrade dev) _ _ hrest with h | ⟨h, -⟩
          · exact h
          · simp [downgrade] at h
      · right; exact ⟨hnr, rfl⟩
    | false =>
      simp only [Bool.false_eq_true, if_false]
      split
      · rename_i c rest
        have hrest : rest.length ≤ n := by
          simp only [List.length_cons] at hl
          omega
        split_ifs
        · left; rfl
        · exact ih rest dev _ _ hrest
      · left; rfl

theorem tune_sleep_eq (dev : Bitforce) :
    tune_sleep dev = { dev with sleep_ms := (tune_sleep dev).sleep_ms } := by
  unfold tune_sleep
  split_ifs <;> rfl

theorem wait_after_lt : ∀ (busy : List Poll) (w : Nat), w < 2 ^ 32 →
    wait_after w busy < 2 ^ 32 := by
  intro busy
  induction busy with
  | nil => intro w hw; exact hw
  | cons q rest ih =>
    intro w _
    exact ih _ (Nat.mod_lt _ (by norm_num))

/-- The poll loop runs through passes that keep polling and reaches the pass
that breaks it with `wait_ms` advanced as `wait_after` says; the passes
before submit nothing and make no FTDI transfer. -/
theorem get_result_polls_wait (nonce0 : Nat) (work : Work) (p : Poll) (rest : List Poll)
    (hend : ends_polling p) :
    ∀ (busy : List Poll) (dev : Bitforce), (∀ q ∈ busy, keeps_polling q) →
      ∃ pre : List Effect, submitted pre = []
        ∧ bitforce_get_result nonce0 dev work (busy ++ p :: rest)
            = (classify nonce0 { dev with wait_ms := wait_after dev.wait_ms busy } work p).after
                pre := by
  obtain ⟨hr, ht, ha, hn, hb⟩ := hend
  intro busy
  induction busy with
  | nil =>
    intro dev _
    refine ⟨[Effect.mutex_lock, Effect.usb_write (ascii "ZFX"), Effect.usb_read,
      Effect.mutex_unlock], rfl, ?_⟩
    rw [List.nil_append, bitforce_get_result]
    have c1 : ¬ (p.elapsed_sec ≥ 30) := by omega
    simp only [hr, Bool.false_eq_true, if_false, c1, ha, hn, hb, ne_eq, not_false_eq_true,
      and_self, if_true]
    rfl
  | cons q busy ih =>
    intro dev hq
    obtain ⟨q1, q2, q3⟩ := hq q (by simp)
    obtain ⟨pre, hpre, hrun⟩ := ih
      { dev with wait_ms := (dev.wait_ms + poll_delay q) % 2 ^ 32 }
      (fun y hy => hq y (by simp [hy]))
    refine ⟨([Effect.mutex_lock, Effect.usb_write (ascii "ZFX"), Effect.usb_read,
      Effect.mutex_unlock] ++ [Effect.nmsleep (poll_delay q)]) ++ pre, ?_, ?_⟩
    · simp [submitted_append, hpre, submitted]
    · rw [List.cons_append, bitforce_get_result]
      have c1 : ¬ (q.elapsed_sec ≥ 30) := by omega
      simp only [q1, Bool.false_eq_true, if_false, c1, q3]
      have hd : (if peek q.buf ≠ NUL then 10 else 2 * 50) = poll_delay q := rfl
      rw [hd, hrun]
      simp only [GetResult.after, List.append_assoc, wait_after]

theorem tune_sleep_catch_up (dev : Bitforce) (hw : dev.wait_ms < 2 ^ 32)
    (hgt : dev.wait_ms > dev.sleep_ms + 100) :
    (tune_sleep dev).sleep_ms = dev.sleep_ms + (dev.wait_ms - dev.sleep_ms) / 2 := by
  unfold tune_sleep sub32
  have e1 : (dev.sleep_ms + 50 * 2) % 2 ^ 32 = dev.sleep_ms + 100 := by
    rw [Nat.mod_eq_of_lt (by omega)]
  have c1 : dev.wait_ms > (dev.sleep_ms + 50 * 2) % 2 ^ 32 := by rw [e1]; exact hgt
  rw [if_pos c1]
  simp only
  have e2 : dev.wait_ms % 2 ^ 32 = dev.wait_ms := Nat.mod_eq_of_lt hw
  have e3 : dev.sleep_ms % 2 ^ 32 = dev.sleep_ms := Nat.mod_eq_of_lt (by omega)
  have e4 : (dev.wait_ms + 2 ^ 32 - dev.sleep_ms) % 2 ^ 32 = dev.wait_ms - dev.sleep_ms := by
    have : dev.wait_ms + 2 ^ 32 - dev.sleep_ms = (dev.wait_ms - dev.sleep_ms) + 2 ^ 32 := by omega
    rw [this, Nat.add_mod_right, Nat.mod_eq_of_lt (by omega)]
  rw [e2, e3, e4, Nat.mod_eq_of_lt (by omega)]

theorem tune_sleep_tighten (dev : Bitforce) (heq : dev.wait_ms = dev.sleep_ms)
    (hS : dev.sleep_ms + 100 < 2 ^ 32) :
    (tune_sleep dev).sleep_ms
      = if dev.sleep_ms > 50 then dev.sleep_ms - 50
        else if dev.sleep_ms > 10 then dev.sleep_ms - 10 else dev.sleep_ms := by
  unfold tune_sleep
  have e1 : (dev.sleep_ms + 50 * 2) % 2 ^ 32 = dev.sleep_ms + 100 := by
    rw [Nat.mod_eq_of_lt (by omega)]
  have c1 : ¬ dev.wait_ms > (dev.sleep_ms + 50 * 2) % 2 ^ 32 := by rw [e1]; omega
  rw [if_neg c1, if_pos heq]
  split_ifs <;> rfl

theorem tune_sleep_nonce_range (dev : Bitforce) :
    (tune_sleep dev).nonce_range = dev.nonce_range := by
  unfold tune_sleep
  split_ifs <;> rfl

theorem tune_sleep_hw_errors (dev : Bitforce) :
    (tune_sleep dev).hw_errors = dev.hw_errors := by
  unfold tune_sleep
  split_ifs <;> rfl

/-- After the tuning step of a reply starting with `N`, the rest of the
classification leaves `sleep_ms` alone unless the nonce loop gives up
nonce-range, which multiplies it by 5. -/
theorem classify_tuned (nonce0 : Nat) (dev : Bitforce) (work : Work) (p : Poll)
    (h7 : p.elapsed_sec ≤ 7) (hN : strncasecmp_eq p.buf "N".toList 1 = true) :
    (classify nonce0 dev work p).dev.sleep_ms
      = if (classify nonce0 dev work p).dev.nonce_range = dev.nonce_range
        then (tune_sleep dev).sleep_ms else (tune_sleep dev).sleep_ms * 5 % 2 ^ 32 := by
  have c7 : ¬ p.elapsed_sec > 7 := by omega
  have c0 : ¬ (p.elapsed_sec > 7 ∧ p.amount = 0) := fun h => c7 h.1
  have hnr := tune_sleep_nonce_range dev
  unfold classify
  simp only [c0, c7, if_false, hN, if_true]
  generalize tune_sleep dev = d at hnr ⊢
  split_ifs with h1 h2 h3 h4 h5 h6
  all_goals first
    | rfl
    | exact absurd hnr ‹_›
    | skip
  all_goals
    rcases nonce_loop_dev _ (p.buf.drop 12) d work nonce0 (Nat.le_refl _) with h | ⟨hr, h⟩
    all_goals simp_all [downgrade]

/-- C12. A reply starting with `N` that ends the poll loop within the
timeout (`elapsed.tv_sec <= 7`), with `W = wait_ms` and `S = sleep_ms` on
entry to the tuning step: if `W > S + 100` the tuning step sets `sleep_ms`
to `S + (W - S) / 2` (integer division).  That is the `sleep_ms` the call
leaves, unless the nonce loop then gives up nonce-range and multiplies it
by 5. -/
theorem tuning_catch_up (nonce0 : Nat) (dev : Bitforce) (work : Work)
    (busy : List Poll) (p : Poll) (rest : List Poll)
    (hbusy : ∀ q ∈ busy, keeps_polling q) (hend : ends_polling p)
    (h7 : p.elapsed_sec ≤ 7) (hN : strncasecmp_eq p.buf "N".toList 1 = true)
    (hw : dev.wait_ms < 2 ^ 32)
    (hgt : wait_after dev.wait_ms busy > dev.sleep_ms + 100) :
    (tune_sleep { dev with wait_ms := wait_after dev.wait_ms busy }).sleep_ms
        = dev.sleep_ms + (wait_after dev.wait_ms busy - dev.sleep_ms) / 2
      ∧ (bitforce_get_result nonce0 dev work (busy ++ p :: rest)).dev.sleep_ms
        = if (bitforce_get_result nonce0 dev work (busy ++ p :: rest)).dev.nonce_range
              = dev.nonce_range
          then dev.sleep_ms + (wait_after dev.wait_ms busy - dev.sleep_ms) / 2
          else (dev.sleep_ms + (wait_after dev.wait_ms busy - dev.sleep_ms) / 2) * 5 % 2 ^ 32 := by
  have hW := wait_after_lt busy dev.wait_ms hw
  have ht := tune_sleep_catch_up { dev with wait_ms := wait_after dev.wait_ms busy } hW hgt
  obtain ⟨pre, -, hrun⟩ := get_result_polls_wait nonce0 work p rest hend busy dev hbusy
  refine ⟨ht, ?_⟩
  rw [hrun]
  have hc := classify_tuned nonce0 { dev with wait_ms := wait_after dev.wait_ms busy } work p
    h7 hN
  rw [ht] at hc
  exact hc

set_option maxRecDepth 100000 in
/-- Witness of C12: the spec's scenario S4.  `sleep_ms = 500`, three empty
replies bring `wait_ms` from 500 to 800, then `NO-NONCE`: the new `sleep_ms`
is 650. -/
theorem tuning_catch_up_witness :
    wait_after 500 [⟨false, 0, [], 1⟩, ⟨false, 0, [], 1⟩, ⟨false, 0, [], 1⟩] = 800
      ∧ (bitforce_get_result 0 { sleep_ms := 500, wait_ms := 500, nonces := 0xffffffff }
          ⟨[], [], 0xffffffff⟩
          ([⟨false, 0, [], 1⟩, ⟨false, 0, [], 1⟩, ⟨false, 0, [], 1⟩]
            ++ ⟨false, 9, "NO-NONCE\n".toList, 1⟩ :: [])).dev.sleep_ms = 650 := by
  have h := tuning_catch_up 0 { sleep_ms := 500, wait_ms := 500, nonces := 0xffffffff }
    ⟨[], [], 0xffffffff⟩ [⟨false, 0, [], 1⟩, ⟨false, 0, [], 1⟩, ⟨false, 0, [], 1⟩]
    ⟨false, 9, "NO-NONCE\n".toList, 1⟩ []
    (by decide) (by decide) (by decide) (by decide) (by decide) (by decide)
  refine ⟨by decide, ?_⟩
  rw [h.2]
  decide

/-- C13. A reply starting with `N` that ends the poll loop within the
timeout, with `W = wait_ms` equal to `S = sleep_ms` on entry to the tuning
step (and `S + 100` within the unsigned range): the tuning step sets
`sleep_ms` to `S - 50` if `S > 50`, else to `S - 10` if `S > 10`, else leaves
`S`.  That is the `sleep_ms` the call leaves, unless the nonce loop then
gives up nonce-range and multiplies it by 5. -/
theorem tuning_tighten (nonce0 : Nat) (dev : Bitforce) (work : Work)
    (busy : List Poll) (p : Poll) (rest : List Poll)
    (hbusy : ∀ q ∈ busy, keeps_polling q) (hend : ends_polling p)
    (h7 : p.elapsed_sec ≤ 7) (hN : strncasecmp_eq p.buf "N".toList 1 = true)
    (hS : dev.sleep_ms + 100 < 2 ^ 32)
    (heq : wait_after dev.wait_ms busy = dev.sleep_ms) :
    (tune_sleep { dev with wait_ms := wait_after dev.wait_ms busy }).sleep_ms
        = (if dev.sleep_ms > 50 then dev.sleep_ms - 50
           else if dev.sleep_ms > 10 then dev.sleep_ms - 10 else dev.sleep_ms)
      ∧ (bitforce_get_result nonce0 dev work (busy ++ p :: rest)).dev.sleep_ms
        = if (bitforce_get_result nonce0 dev work (busy ++ p :: rest)).dev.nonce_range
              = dev.nonce_range
          then (if dev.sleep_ms > 50 then dev.sleep_ms - 50
                else if dev.sleep_ms > 10 then dev.sleep_ms - 10 else dev.sleep_ms)
          else (if dev.sleep_ms > 50 then dev.sleep_ms - 50
                else if dev.sleep_ms > 10 then dev.sleep_ms - 10 else dev.sleep_ms)
                  * 5 % 2 ^ 32 := by
  have ht := tune_sleep_tighten { dev with wait_ms := wait_after dev.wait_ms busy } heq hS
  obtain ⟨pre, -, hrun⟩ := get_result_polls_wait nonce0 work p rest hend busy dev hbusy
  refine ⟨ht, ?_⟩
  rw [hrun]
  have hc := classify_tuned nonce0 { dev with wait_ms := wait_after dev.wait_ms busy } work p
    h7 hN
  rw [ht] at hc
  exact hc

set_option maxRecDepth 100000 in
/-- Witness of C13: the spec's scenario S5.  `sleep_ms = wait_ms = 500` and
`NO-NONCE` at the first poll: the new `sleep_ms` is 450. -/
theorem tuning_tighten_witness :
    (bitforce_get_result 0 { sleep_ms := 500, wait_ms := 500, nonces := 0xffffffff }
        ⟨[], [], 0xffffffff⟩ ([] ++ ⟨false, 9, "NO-NONCE\n".toList, 1⟩ :: [])).dev.sleep_ms
      = 450 := by
  have h := tuning_tighten 0 { sleep_ms := 500, wait_ms := 500, nonces := 0xffffffff }
    ⟨[], [], 0xffffffff⟩ [] ⟨false, 9, "NO-NONCE\n".toList, 1⟩ []
    (by decide) (by decide) (by decide) (by decide) (by decide) (by decide)
  rw [h.2]
  decide

/-! ## bitforce_get_result: classification of the reply -/

/-- C15. For the reply `NO-NONCE` (read before the long timeout, no restart
pending, after any number of passes that kept polling) `bitforce_get_result`
returns the per-scan `nonces` of the device; for the reply `IDLE` it returns
0; in both cases no nonce is submitted and the hardware-error counter is
unchanged. -/
theorem get_result_no_nonce_idle (nonce0 : Nat) (dev : Bitforce) (work : Work)
    (busy : List Poll) (p : Poll) (rest : List Poll) (tail : List Char)
    (hbusy : ∀ q ∈ busy, keeps_polling q)
    (hr : p.work_restart = false) (ht : p.elapsed_sec < 30) (ha : p.amount > 0) :
    (p.buf = "NO-NONCE".toList ++ tail →
        (bitforce_get_result nonce0 dev work (busy ++ p :: rest)).ret = some (dev.nonces : Int)
          ∧ submitted (bitforce_get_result nonce0 dev work (busy ++ p :: rest)).trace = []
          ∧ (bitforce_get_result nonce0 dev work (busy ++ p :: rest)).dev.hw_errors
              = dev.hw_errors)
      ∧ (p.buf = "IDLE".toList ++ tail →
        (bitforce_get_result nonce0 dev work (busy ++ p :: rest)).ret = some 0
          ∧ submitted (bitforce_get_result nonce0 dev work (busy ++ p :: rest)).trace = []
          ∧ (bitforce_get_result nonce0 dev work (busy ++ p :: rest)).dev.hw_errors
              = dev.hw_errors) := by
  have c0 : ¬ (p.elapsed_sec > 7 ∧ p.amount = 0) := by
    intro hc
    omega
  constructor
  · intro hbuf
    have hn : peek p.buf ≠ NUL := by
      rw [hbuf]
      show 'N' ≠ NUL
      decide
    have hb : strncasecmp_eq p.buf "B".toList 1 = false := by rw [hbuf]; rfl
    have k1 : strncasecmp_eq (p.buf.drop 2) "-".toList 1 = true := by rw [hbuf]; rfl
    obtain ⟨pre, hpre, hrun⟩ :=
      get_result_polls_wait nonce0 work p rest ⟨hr, ht, ha, hn, hb⟩ busy dev hbusy
    rw [hrun]
    unfold classify
    simp only [c0, if_false, k1, if_true, GetResult.after, submitted_append, hpre,
      List.nil_append]
    refine ⟨?_, ?_, ?_⟩
    · split_ifs <;> simp [tune_sleep_nonces]
    · split_ifs <;> rfl
    · split_ifs <;> simp [tune_sleep_hw_errors]
  · intro hbuf
    have hn : peek p.buf ≠ NUL := by
      rw [hbuf]
      show 'I' ≠ NUL
      decide
    have hb : strncasecmp_eq p.buf "B".toList 1 = false := by rw [hbuf]; rfl
    have k1 : strncasecmp_eq (p.buf.drop 2) "-".toList 1 = false := by rw [hbuf]; rfl
    have k2 : strncasecmp_eq p.buf "I".toList 1 = true := by rw [hbuf]; rfl
    have k3 : strncasecmp_eq p.buf "N".toList 1 = false := by rw [hbuf]; rfl
    obtain ⟨pre, hpre, hrun⟩ :=
      get_result_polls_wait nonce0 work p rest ⟨hr, ht, ha, hn, hb⟩ busy dev hbusy
    rw [hrun]
    unfold classify
    simp only [c0, if_false, k1, k2, k3, if_true, GetResult.after, submitted_append, hpre,
      List.nil_append, Bool.false_eq_true]
    refine ⟨trivial, ?_, ?_⟩
    · split_ifs <;> rfl
    · split_ifs <;> rfl

set_option maxRecDepth 100000 in
/-- Witness of C15: `NO-NONCE` with nonce-range (`nonces = 0x33333332`) and
`IDLE`; and whole scans from detection that end in `NO-NONCE`, which return
0x33333332 with nonce-range and 0xFFFFFFFF without. -/
theorem get_result_no_nonce_idle_witness :
    (bitforce_get_result 0 dev_ranged ⟨[], [], 0x33333333⟩
        ([] ++ ⟨false, 9, "NO-NONCE\n".toList, 1⟩ :: [])).ret = some 0x33333332
      ∧ (bitforce_get_result 0 dev_ranged ⟨[], [], 0x33333333⟩
        ([] ++ ⟨false, 5, "IDLE\n".toList, 1⟩ :: [])).ret = some 0
      ∧ (bitforce_scanhash (bitforce_detect_one true) (quiet_scan 68 0)).ret
          = some 0x33333332
      ∧ (bitforce_scanhash (bitforce_detect_one false) (quiet_scan 60 0)).ret
          = some 0xffffffff :=
  ⟨((get_result_no_nonce_idle 0 dev_ranged ⟨[], [], 0x33333333⟩ []
        ⟨false, 9, "NO-NONCE\n".toList, 1⟩ [] "\n".toList
        (by decide) (by decide) (by decide) (by decide)).1 (by decide)).1,
    ((get_result_no_nonce_idle 0 dev_ranged ⟨[], [], 0x33333333⟩ []
        ⟨false, 5, "IDLE\n".toList, 1⟩ [] "\n".toList
        (by decide) (by decide) (by decide) (by decide)).2 (by decide)).1,
    by decide, by decide⟩

/-! ## bitforce_send_work: refusals and the downgrade -/

theorem build_frame_dev (ob : List Nat) (dev : Bitforce) (work : Work) :
    (build_frame ob dev work).2.2.1
      = { dev with nonces := (build_frame ob dev work).2.2.1.nonces } := by
  unfold build_frame
  simp only
  split_ifs <;> rfl

theorem send_frame_dev (ob : List Nat) (dev : Bitforce) (work : Work) (rest : List UsbReply) :
    (send_frame ob dev work rest).dev
      = { dev with nonces := (send_frame ob dev work rest).dev.nonces } := by
  rw [(send_frame_writes ob dev work rest).2.1]
  exact build_frame_dev ob dev work

theorem send_work_failed_io (ob : List Nat) (dev : Bitforce) (work : Work)
    (w r : UsbReply) (rest : List UsbReply)
    (h : (w.err < 0 ∨ w.amount ≠ 3) ∨ r.err < 0) :
    (bitforce_send_work ob dev work (w :: r :: rest)).ret = some false
      ∧ (bitforce_send_work ob dev work (w :: r :: rest)).dev = dev := by
  rw [bitforce_send_work]
  by_cases c1 : w.err < 0 ∨ w.amount ≠ 3
  · simp only [c1, if_true, and_self]
  · have c2 : r.err < 0 := h.resolve_left c1
    simp only [c1, if_false, c2, if_true, and_self]

theorem send_work_refuse_round_range (ob : List Nat) (dev : Bitforce) (work : Work)
    (w r : UsbReply) (rest : List UsbReply) (h : refuse_round w r)
    (hr : dev.nonce_range = true) :
    bitforce_send_work ob dev work (w :: r :: rest)
      = (bitforce_send_work ob (downgrade dev) work rest).after
          [Effect.mutex_lock, Effect.usb_write (ascii "ZPX"), Effect.usb_read,
            Effect.mutex_unlock] := by
  obtain ⟨h1, h2, h3, h4, h5, h6, h7⟩ := h
  rw [bitforce_send_work]
  have c1 : ¬ (w.err < 0 ∨ w.amount ≠ 3) := by
    intro hc
    rcases hc with hc | hc
    · omega
    · exact hc h2
  have c2 : ¬ (r.err < 0) := by omega
  have c3 : ¬ (r.amount = 0 ∨ peek r.buf = NUL ∨ strncasecmp_eq r.buf "B".toList 1 = true) := by
    intro hc
    rcases hc with hc | hc | hc
    · exact h4 hc
    · exact h5 hc
    · rw [h6] at hc
      exact Bool.false_ne_true hc
  simp only [c1, c2, c3, if_false, h7, Bool.not_false, if_true, hr]
  rfl

theorem send_work_refuse_round_plain (ob : List Nat) (dev : Bitforce) (work : Work)
    (w r : UsbReply) (rest : List UsbReply) (h : refuse_round w r)
    (hr : dev.nonce_range = false) :
    bitforce_send_work ob dev work (w :: r :: rest)
      = ⟨some false, dev, work,
          [Effect.mutex_lock, Effect.usb_write (ascii "ZDX"), Effect.usb_read,
            Effect.mutex_unlock]⟩ := by
  obtain ⟨h1, h2, h3, h4, h5, h6, h7⟩ := h
  rw [bitforce_send_work]
  have c1 : ¬ (w.err < 0 ∨ w.amount ≠ 3) := by
    intro hc
    rcases hc with hc | hc
    · omega
    · exact hc h2
  have c2 : ¬ (r.err < 0) := by omega
  have c3 : ¬ (r.amount = 0 ∨ peek r.buf = NUL ∨ strncasecmp_eq r.buf "B".toList 1 = true) := by
    intro hc
    rcases hc with hc | hc | hc
    · exact h4 hc
    · exact h5 hc
    · rw [h6] at hc
      exact Bool.false_ne_true hc
  simp only [c1, c2, c3, if_false, h7, Bool.not_false, if_true, hr, Bool.false_eq_true]

/-- Every pass through `re_send` is of one of five kinds. -/
theorem round_cases (w r : UsbReply) :
    ((w.err < 0 ∨ w.amount ≠ 3) ∨ r.err < 0) ∨ busy_round w r ∨ refuse_round w r
      ∨ accept_round w r := by
  by_cases c1 : w.err < 0 ∨ w.amount ≠ 3
  · exact Or.inl (Or.inl c1)
  by_cases c2 : r.err < 0
  · exact Or.inl (Or.inr c2)
  have hw1 : 0 ≤ w.err := by
    by_contra hc
    exact c1 (Or.inl (by omega))
  have hw2 : w.amount = 3 := by
    by_contra hc
    exact c1 (Or.inr hc)
  have hr1 : 0 ≤ r.err := by omega
  by_cases c3 : r.amount = 0 ∨ peek r.buf = NUL ∨ strncasecmp_eq r.buf "B".toList 1 = true
  · exact Or.inr (Or.inl ⟨hw1, hw2, hr1, c3⟩)
  have h4 : r.amount ≠ 0 := fun h => c3 (Or.inl h)
  have h5 : peek r.buf ≠ NUL := fun h => c3 (Or.inr (Or.inl h))
  have h6 : strncasecmp_eq r.buf "B".toList 1 = false := by
    cases hb : strncasecmp_eq r.buf "B".toList 1 with
    | false => rfl
    | true => exact absurd (Or.inr (Or.inr hb)) c3
  cases h7 : strncasecmp_eq r.buf "OK".toList 2 with
  | false => exact Or.inr (Or.inr (Or.inl ⟨hw1, hw2, hr1, h4, h5, h6, h7⟩))
  | true => exact Or.inr (Or.inr (Or.inr ⟨hw1, hw2, hr1, h4, h5, h7⟩))

/-- Whatever the script, `bitforce_send_work` changes of the device only
`nonces` and, at most once, what the downgrade changes. -/
theorem send_work_dev (ob : List Nat) (work : Work) : ∀ (n : Nat) (script : List UsbReply)
    (dev : Bitforce), script.length ≤ n →
    (bitforce_send_work ob dev work script).dev
        = { dev with nonces := (bitforce_send_work ob dev work script).dev.nonces }
      ∨ (dev.nonce_range = true ∧ (bitforce_send_work ob dev work script).dev
        = { downgrade dev with nonces := (bitforce_send_work ob dev work script).dev.nonces }) := by
  intro n
  induction n using Nat.strong_induction_on with
  | _ n ih =>
    intro script dev hl
    match script, hl with
    | [], _ => left; rfl
    | [w], _ =>
      left
      simp only [bitforce_send_work]
      split_ifs <;> rfl
    | w :: r :: rest, hl =>
      have hrest : rest.length ≤ n - 2 := by
        simp only [List.length_cons] at hl
        omega
      have hlt : n - 2 < n := by
        simp only [List.length_cons] at hl
        omega
      rcases round_cases w r with h | h | h | h
      · left
        rw [(send_work_failed_io ob dev work w r rest h).2]
      · rw [send_work_busy_round ob dev work w r rest h]
        exact ih (n - 2) hlt rest dev hrest
      · by_cases hr : dev.nonce_range = true
        · right
          refine ⟨hr, ?_⟩
          rw [send_work_refuse_round_range ob dev work w r rest h hr]
          rcases ih (n - 2) hlt rest (downgrade dev) hrest with h | ⟨h, -⟩
          · exact h
          · simp [downgrade] at h
        · left
          rw [send_work_refuse_round_plain ob dev work w r rest h (by simpa using hr)]
      · left
        rw [send_work_accept_round ob dev work w r rest h]
        exact send_frame_dev ob dev work rest

/-- Busy passes only repeat the command: the run continues on the rest of
the script with the device unchanged. -/
theorem send_work_through_busy (ob : List Nat) (dev : Bitforce) (work : Work)
    (tail : List UsbReply) :
    ∀ busy : List (UsbReply × UsbReply), (∀ x ∈ busy, busy_round x.1 x.2) →
      ∃ pre : List Effect,
        usb_writes pre
            = List.replicate busy.length (if dev.nonce_range then ascii "ZPX" else ascii "ZDX")
          ∧ bitforce_send_work ob dev work (rounds busy ++ tail)
            = (bitforce_send_work ob dev work tail).after pre := by
  intro busy
  induction busy with
  | nil =>
    intro _
    exact ⟨[], rfl, rfl⟩
  | cons x busy ih =>
    intro hb
    obtain ⟨pre, h1, h2⟩ := ih (fun y hy => hb y (by simp [hy]))
    have e : rounds (x :: busy) ++ tail = x.1 :: x.2 :: (rounds busy ++ tail) := by
      simp [rounds]
    refine ⟨[Effect.mutex_lock,
      Effect.usb_write (if dev.nonce_range then ascii "ZPX" else ascii "ZDX"),
      Effect.usb_read, Effect.mutex_unlock, Effect.nmsleep 50] ++ pre, ?_, ?_⟩
    · rw [usb_writes_append, h1]
      rfl
    · rw [e, send_work_busy_round ob dev work x.1 x.2 _ (hb x (by simp)), h2]
      simp only [SendResult.after, List.append_assoc]

/-- The first USB write of `bitforce_send_work` is the command. -/
theorem send_work_first_write (ob : List Nat) (dev : Bitforce) (work : Work)
    (script : List UsbReply) :
    ∃ more : List (List Nat), usb_writes (bitforce_send_work ob dev work script).trace
      = (if dev.nonce_range then ascii "ZPX" else ascii "ZDX") :: more := by
  match script with
  | [] => exact ⟨[], rfl⟩
  | [w] =>
    simp only [bitforce_send_work]
    split_ifs <;> exact ⟨[], rfl⟩
  | w :: r :: rest =>
    rw [bitforce_send_work]
    split_ifs
    all_goals exact ⟨_, rfl⟩

/-- C20. In `bitforce_send_work`, when the first non-empty reply that does
not start with `B` is not `OK`: with nonce-range on, the device is
downgraded (`nonce_range` off, `sleep_ms` exactly 5 times its value, kind
"full work") and the next command written is `ZDX`, and a second refusal
makes the call return false; with nonce-range off the call returns false and
the device is unchanged.  For every script the `sleep_ms` left by one call is
the old value or 5 times it (modulo `2^32`). -/
theorem send_work_refusal (ob : List Nat) (dev : Bitforce) (work : Work)
    (busy : List (UsbReply × UsbReply)) (w r : UsbReply) (rest : List UsbReply)
    (hbusy : ∀ x ∈ busy, busy_round x.1 x.2) (href : refuse_round w r) :
    (dev.nonce_range = true → dev.sleep_ms * 5 < 2 ^ 32 →
        (bitforce_send_work ob dev work (rounds busy ++ w :: r :: rest)).dev.nonce_range = false
          ∧ (bitforce_send_work ob dev work (rounds busy ++ w :: r :: rest)).dev.sleep_ms
              = 5 * dev.sleep_ms
          ∧ (bitforce_send_work ob dev work (rounds busy ++ w :: r :: rest)).dev.kname
              = Kname.work
          ∧ (∃ more : List (List Nat),
              usb_writes (bitforce_send_work ob dev work (rounds busy ++ w :: r :: rest)).trace
                = List.replicate (busy.length + 1) (ascii "ZPX") ++ ascii "ZDX" :: more)
          ∧ ∀ (busy2 : List (UsbReply × UsbReply)) (w2 r2 : UsbReply) (rest2 : List UsbReply),
              rest = rounds busy2 ++ w2 :: r2 :: rest2 → (∀ x ∈ busy2, busy_round x.1 x.2) →
              refuse_round w2 r2 →
              (bitforce_send_work ob dev work (rounds busy ++ w :: r :: rest)).ret = some false)
      ∧ (dev.nonce_range = false →
          (bitforce_send_work ob dev work (rounds busy ++ w :: r :: rest)).ret = some false
            ∧ (bitforce_send_work ob dev work (rounds busy ++ w :: r :: rest)).dev = dev)
      ∧ ∀ script : List UsbReply,
          (bitforce_send_work ob dev work script).dev.sleep_ms = dev.sleep_ms
            ∨ (bitforce_send_work ob dev work script).dev.sleep_ms
                = dev.sleep_ms * 5 % 2 ^ 32 := by
  obtain ⟨pre, hpre, hrun⟩ := send_work_through_busy ob dev work (w :: r :: rest) busy hbusy
  refine ⟨?_, ?_, ?_⟩
  · intro hr h5
    rw [hrun, send_work_refuse_round_range ob dev work w r rest href hr]
    have hd : (downgrade dev).nonce_range = false := rfl
    have hcont := send_work_dev ob work rest.length rest (downgrade dev) (Nat.le_refl _)
    have hdev : (bitforce_send_work ob (downgrade dev) work rest).dev
        = { downgrade dev with
            nonces := (bitforce_send_work ob (downgrade dev) work rest).dev.nonces } := by
      rcases hcont with h | ⟨h, -⟩
      · exact h
      · rw [hd] at h
        exact absurd h Bool.false_ne_true
    simp only [SendResult.after]
    refine ⟨by rw [hdev]; rfl, ?_, by rw [hdev]; rfl, ?_, ?_⟩
    · rw [hdev]
      show dev.sleep_ms * 5 % 2 ^ 32 = 5 * dev.sleep_ms
      rw [Nat.mod_eq_of_lt h5, Nat.mul_comm]
    · obtain ⟨more, hmore⟩ := send_work_first_write ob (downgrade dev) work rest
      refine ⟨more, ?_⟩
      rw [usb_writes_append, usb_writes_append, hpre, hmore, hr, hd]
      simp only [if_true, Bool.false_eq_true, if_false]
      rw [List.replicate_succ', List.append_assoc]
      rfl
    · intro busy2 w2 r2 rest2 hrest hb2 href2
      obtain ⟨pre2, -, hrun2⟩ :=
        send_work_through_busy ob (downgrade dev) work (w2 :: r2 :: rest2) busy2 hb2
      rw [hrest, hrun2, send_work_refuse_round_plain ob (downgrade dev) work w2 r2 rest2 href2 hd]
      rfl
  · intro hr
    rw [hrun, send_work_refuse_round_plain ob dev work w r rest href hr]
    exact ⟨rfl, rfl⟩
  · intro script
    rcases send_work_dev ob work script.length script dev (Nat.le_refl _) with h | ⟨-, h⟩
    · left; rw [h]
    · right; rw [h]; rfl

set_option maxRecDepth 100000 in
/-- Witness of C20: a device detected with nonce-range (`sleep_ms = 500`)
whose `ZPX` is answered `ERR`: it is downgraded to `sleep_ms = 2500`, the next
write is `ZDX`, and when that is refused too the call returns false with
`sleep_ms` still 2500. -/
theorem send_work_refusal_witness :
    (bitforce_send_work [] (bitforce_detect_one true) ⟨[], [], 0⟩
        (rounds [] ++ ⟨0, 3, []⟩ :: ⟨0, 4, "ERR\n".toList⟩ ::
          [⟨0, 3, []⟩, ⟨0, 4, "ERR\n".toList⟩])).dev.sleep_ms = 5 * 500
      ∧ (bitforce_send_work [] (bitforce_detect_one true) ⟨[], [], 0⟩
        (rounds [] ++ ⟨0, 3, []⟩ :: ⟨0, 4, "ERR\n".toList⟩ ::
          [⟨0, 3, []⟩, ⟨0, 4, "ERR\n".toList⟩])).ret = some false
      ∧ usb_writes (bitforce_send_work [] (bitforce_detect_one true) ⟨[], [], 0⟩
        (rounds [] ++ ⟨0, 3, []⟩ :: ⟨0, 4, "ERR\n".toList⟩ ::
          [⟨0, 3, []⟩, ⟨0, 4, "ERR\n".toList⟩])).trace = [ascii "ZPX", ascii "ZDX"] := by
  have h := (send_work_refusal [] (bitforce_detect_one true) ⟨[], [], 0⟩ []
    ⟨0, 3, []⟩ ⟨0, 4, "ERR\n".toList⟩ [⟨0, 3, []⟩, ⟨0, 4, "ERR\n".toList⟩]
    (by decide) (by decide)).1 (by decide) (by decide)
  exact ⟨h.2.1, h.2.2.2.2 [] ⟨0, 3, []⟩ ⟨0, 4, "ERR\n".toList⟩ [] rfl (by decide) (by decide),
    by decide⟩

/-! ## bitforce_scanhash -/

theorem write_at_head {α : Type} (buf data : List α) (off : Nat) (a : α)
    (h : buf.head? = some a) (hoff : 0 < off) : (write_at buf off data).head? = some a := by
  unfold write_at
  cases buf with
  | nil => simp at h
  | cons b t =>
    cases off with
    | zero => omega
    | succ k =>
      simp only [List.head?_cons, Option.some.injEq] at h
      simp [h]

/-- The frame buffer starts with `>` whatever it held before. -/
theorem build_frame_head (ob : List Nat) (dev : Bitforce) (work : Work) :
    ((build_frame ob dev work).1.take (build_frame ob dev work).2.1).head? = some 0x3E := by
  have h1 : (write_at ob 0 gt8z).head? = some 0x3E := by
    unfold write_at
    simp [gt8z, List.replicate]
  have h2 := write_at_head _ (work.midstate.take 32) 8 _ h1 (by omega)
  have h3 := write_at_head _ ((work.data.drop 64).take 12) (8 + 32) _ h2 (by omega)
  unfold build_frame
  simp only
  split_ifs
  · have h4 := write_at_head _ gt8z (8 + 32 + 12) _ h3 (by omega)
    simp only
    rw [List.head?_take, if_neg (by omega)]
    exact h4
  · have h4 := write_at_head _ (store_be32 work.nonce) (8 + 32 + 12) _ h3 (by omega)
    have h5 := write_at_head _ (store_be32 ((work.nonce + 0x33333332) % 2 ^ 32))
      (8 + 32 + 12 + 4) _ h4 (by omega)
    have h6 := write_at_head _ gt8z (8 + 32 + 12 + 8) _ h5 (by omega)
    simp only
    rw [List.head?_take, if_neg (by omega)]
    exact h6

/-- Every USB write of `bitforce_send_work` is a send command or a frame. -/
theorem send_work_writes_kind (ob : List Nat) (work : Work) : ∀ (n : Nat)
    (script : List UsbReply) (dev : Bitforce), script.length ≤ n →
    ∀ d ∈ usb_writes (bitforce_send_work ob dev work script).trace,
      d = ascii "ZPX" ∨ d = ascii "ZDX" ∨ d.head? = some 0x3E := by
  intro n
  induction n using Nat.strong_induction_on with
  | _ n ih =>
    intro script dev hl d hd
    have hcmd : (if dev.nonce_range then ascii "ZPX" else ascii "ZDX") = ascii "ZPX"
        ∨ (if dev.nonce_range then ascii "ZPX" else ascii "ZDX") = ascii "ZDX" := by
      split_ifs
      · left; rfl
      · right; rfl
    match script, hl with
    | [], _ =>
      simp only [bitforce_send_work, usb_writes, List.mem_singleton] at hd
      rcases hcmd with h | h
      · left; rw [hd, h]
      · right; left; rw [hd, h]
    | [w], _ =>
      have hd2 : d = (if dev.nonce_range then ascii "ZPX" else ascii "ZDX") := by
        simp only [bitforce_send_work] at hd
        by_cases c1 : w.err < 0 ∨ w.amount ≠ 3
        · simpa only [c1, if_true, usb_writes, List.mem_singleton] using hd
        · simpa only [c1, if_false, usb_writes, List.mem_singleton] using hd
      rcases hcmd with h | h
      · left; rw [hd2, h]
      · right; left; rw [hd2, h]
    | w :: r :: rest, hl =>
      have hrest : rest.length ≤ n - 2 := by
        simp only [List.length_cons] at hl
        omega
      have hlt : n - 2 < n := by
        simp only [List.length_cons] at hl
        omega
      have hc : d = (if dev.nonce_range then ascii "ZPX" else ascii "ZDX") →
          d = ascii "ZPX" ∨ d = ascii "ZDX" ∨ d.head? = some 0x3E := by
        intro h
        rcases hcmd with h' | h'
        · left; rw [h, h']
        · right; left; rw [h, h']
      rcases round_cases w r with h | h | h | h
      · rw [bitforce_send_work] at hd
        by_cases c1 : w.err < 0 ∨ w.amount ≠ 3
        · rw [if_pos c1] at hd
          exact hc (List.mem_singleton.mp hd)
        · have c2 : r.err < 0 := h.resolve_left c1
          rw [if_neg c1, if_pos c2] at hd
          exact hc (List.mem_singleton.mp hd)
      · rw [send_work_busy_round ob dev work w r rest h] at hd
        rcases List.mem_append.mp ((usb_writes_append _ _) ▸ hd) with hd | hd
        · exact hc (List.mem_singleton.mp hd)
        · exact ih (n - 2) hlt rest dev hrest d hd
      · by_cases hr : dev.nonce_range = true
        · rw [send_work_refuse_round_range ob dev work w r rest h hr] at hd
          rcases List.mem_append.mp ((usb_writes_append _ _) ▸ hd) with hd | hd
          · left; exact List.mem_singleton.mp hd
          · exact ih (n - 2) hlt rest (downgrade dev) hrest d hd
        · rw [send_work_refuse_round_plain ob dev work w r rest h (by simpa using hr)] at hd
          right; left; exact List.mem_singleton.mp hd
      · rw [send_work_accept_round ob dev work w r rest h] at hd
        rcases List.mem_append.mp ((usb_writes_append _ _) ▸ hd) with hd | hd
        · exact hc (List.mem_singleton.mp hd)
        · right; right
          rw [(send_frame_writes ob dev work rest).1] at hd
          rw [List.mem_singleton.mp hd]
          exact build_frame_head ob dev work

theorem classify_ret_nonneg (nonce0 : Nat) (dev : Bitforce) (work : Work) (p : Poll) :
    ∀ v : Int, (classify nonce0 dev work p).ret = some v → 0 ≤ v := by
  intro v
  unfold classify
  simp only
  split_ifs <;> intro h <;> simp only [Option.some.injEq] at h <;> omega

theorem get_result_ret_nonneg (nonce0 : Nat) (work : Work) : ∀ (polls : List Poll)
    (dev : Bitforce) (v : Int),
    (bitforce_get_result nonce0 dev work polls).ret = some v → 0 ≤ v := by
  intro polls
  induction polls with
  | nil =>
    intro dev v h
    simp [bitforce_get_result] at h
  | cons p rest ih =>
    intro dev v h
    rw [bitforce_get_result] at h
    simp only at h
    split_ifs at h
    all_goals first
      | exact classify_ret_nonneg nonce0 dev work p v h
      | exact ih _ v h
      | (simp only [Option.some.injEq] at h; omega)

/-- C19.  In a scan whose restart wait runs its full time: when
`bitforce_send_work` returns false, `bitforce_scanhash` returns 0 with the
hardware-error counter one above its value before the scan, and all it does
after the send and the wait is to record a comms error and to run the
initialisation, so that no work-status command `ZFX` is written; when
`bitforce_send_work` returns true, `bitforce_scanhash` returns the value of
`bitforce_get_result`, run with `wait_ms = sleep_ms` and `polling` set, and
does nothing after it. -/
theorem scanhash_send_outcome (dev : Bitforce) (s : Scan) (hwait : s.restart_wait = true) :
    ((bitforce_send_work s.ob dev s.work s.usb).ret = some false →
      (bitforce_scanhash dev s).ret = some 0
      ∧ (bitforce_scanhash dev s).dev.hw_errors = dev.hw_errors + 1
      ∧ (bitforce_scanhash dev s).trace
          = (bitforce_send_work s.ob dev s.work s.usb).trace
            ++ [Effect.restart_wait (bitforce_send_work s.ob dev s.work s.usb).dev.sleep_ms,
                Effect.dev_error Reason.comms_error]
            ++ bitforce_initialise true
      ∧ ascii "ZFX" ∉ usb_writes (bitforce_scanhash dev s).trace)
    ∧ ((bitforce_send_work s.ob dev s.work s.usb).ret = some true →
      (bitforce_scanhash dev s).ret
          = (bitforce_get_result s.nonce0
              { (bitforce_send_work s.ob dev s.work s.usb).dev with
                wait_ms := (bitforce_send_work s.ob dev s.work s.usb).dev.sleep_ms,
                polling := true }
              (bitforce_send_work s.ob dev s.work s.usb).work s.polls).ret
      ∧ (bitforce_scanhash dev s).trace
          = (bitforce_send_work s.ob dev s.work s.usb).trace
            ++ [Effect.restart_wait (bitforce_send_work s.ob dev s.work s.usb).dev.sleep_ms]
            ++ (bitforce_get_result s.nonce0
              { (bitforce_send_work s.ob dev s.work s.usb).dev with
                wait_ms := (bitforce_send_work s.ob dev s.work s.usb).dev.sleep_ms,
                polling := true }
              (bitforce_send_work s.ob dev s.work s.usb).work s.polls).trace) := by
  constructor
  · intro hf
    have htr : (bitforce_scanhash dev s).trace
        = (bitforce_send_work s.ob dev s.work s.usb).trace
          ++ [Effect.restart_wait (bitforce_send_work s.ob dev s.work s.usb).dev.sleep_ms,
              Effect.dev_error Reason.comms_error]
          ++ bitforce_initialise true := by
      unfold bitforce_scanhash
      simp only [hf, hwait]
      simp
    have hhw : (bitforce_send_work s.ob dev s.work s.usb).dev.hw_errors = dev.hw_errors := by
      rcases send_work_dev s.ob s.work _ s.usb dev (le_refl _) with h | ⟨_, h⟩
      · rw [h]
      · rw [h]; rfl
    refine ⟨?_, ?_, htr, ?_⟩
    · unfold bitforce_scanhash
      simp only [hf, hwait]
      simp
    · unfold bitforce_scanhash
      simp only [hf, hwait]
      simp [hhw]
    · rw [htr, usb_writes_append, usb_writes_append]
      intro hmem
      rcases List.mem_append.mp hmem with hmem | hmem
      · rcases List.mem_append.mp hmem with hmem | hmem
        · rcases send_work_writes_kind s.ob s.work _ s.usb dev (le_refl _) _ hmem with h | h | h
          · exact absurd h (by decide)
          · exact absurd h (by decide)
          · exact absurd h (by decide)
        · simp [usb_writes] at hmem
      · simp [usb_writes, bitforce_initialise] at hmem
  · intro ht
    generalize hgr : bitforce_get_result s.nonce0
      { (bitforce_send_work s.ob dev s.work s.usb).dev with
        wait_ms := (bitforce_send_work s.ob dev s.work s.usb).dev.sleep_ms,
        polling := true }
      (bitforce_send_work s.ob dev s.work s.usb).work s.polls = gr
    have hnn := get_result_ret_nonneg s.nonce0 (bitforce_send_work s.ob dev s.work s.usb).work
      s.polls { (bitforce_send_work s.ob dev s.work s.usb).dev with
        wait_ms := (bitforce_send_work s.ob dev s.work s.usb).dev.sleep_ms,
        polling := true }
    rw [hgr] at hnn
    unfold bitforce_scanhash
    simp only [ht, hwait, hgr]
    cases hret : gr.ret with
    | none => simp
    | some v =>
      have hv : v ≠ -1 := by
        have := hnn v hret
        omega
      simp [hv]

set_option maxRecDepth 100000 in
/-- Witness for C19: from the detected nonce-range device, the scan whose
frame write fails returns 0 with one hardware error, and the scan answered
`NO-NONCE` at the first poll returns the nonce count `0x33333332`. -/
theorem scanhash_send_outcome_witness :
    ((bitforce_scanhash (bitforce_detect_one true) failed_scan).ret = some 0
      ∧ (bitforce_scanhash (bitforce_detect_one true) failed_scan).dev.hw_errors = 0 + 1)
    ∧ (bitforce_scanhash (bitforce_detect_one true) (quiet_scan 68 0)).ret
        = some 0x33333332 :=
  ⟨⟨((scanhash_send_outcome (bitforce_detect_one true) failed_scan rfl).1 (by decide)).1,
    ((scanhash_send_outcome (bitforce_detect_one true) failed_scan rfl).1 (by decide)).2.1⟩,
   (((scanhash_send_outcome (bitforce_detect_one true) (quiet_scan 68 0) rfl).2
      (by decide)).1).trans (by decide)⟩

/-! ## bitforce_get_temp and bitforce_flash_led -/

/-- C17.  While `polling` is set, `bitforce_get_temp` and
`bitforce_flash_led` do nothing at all: whatever the answers of the device
and of `mutex_trylock` would be, their traces are empty (no `ZLX`, no `ZMX`,
no read, no lock) and the device state, with `temp`, `flash_led`, `hw_errors`
and `deven`, is the one they were called with; `bitforce_get_temp` returns
true. -/
theorem polling_skips_temp_and_flash (strtof strtod : List Char → Rat) (dev : Bitforce)
    (acquired : Bool) (usb : List UsbReply) (hp : dev.polling = true) :
    (bitforce_get_temp strtof strtod dev acquired usb).trace = []
    ∧ (bitforce_get_temp strtof strtod dev acquired usb).dev = dev
    ∧ (bitforce_get_temp strtof strtod dev acquired usb).ret = some true
    ∧ (bitforce_flash_led dev acquired usb).trace = []
    ∧ (bitforce_flash_led dev acquired usb).dev = dev := by
  have h1 : bitforce_get_temp strtof strtod dev acquired usb = ⟨some true, dev, []⟩ := by
    unfold bitforce_get_temp
    simp only [hp, if_true]
  have h2 : bitforce_flash_led dev acquired usb = ⟨some true, dev, []⟩ := by
    unfold bitforce_flash_led
    simp only [hp, if_true]
  rw [h1, h2]
  exact ⟨rfl, rfl, rfl, rfl, rfl⟩

/-- Witness for C17: a polling device with a flash request pending, a mutex
that could be taken and a device that would answer `TEMP:50`. -/
theorem polling_skips_temp_and_flash_witness :
    dev_polling.polling = true
    ∧ (bitforce_get_temp (fun _ => 50) (fun _ => 50) dev_polling true
        [⟨0, 3, []⟩, ⟨0, 8, "TEMP:50\n".toList⟩]).trace = []
    ∧ (bitforce_flash_led dev_polling true [⟨0, 3, []⟩]).trace = [] :=
  ⟨rfl,
   (polling_skips_temp_and_flash (fun _ => 50) (fun _ => 50) dev_polling true
      [⟨0, 3, []⟩, ⟨0, 8, "TEMP:50\n".toList⟩] rfl).1,
   (polling_skips_temp_and_flash (fun _ => 50) (fun _ => 50) dev_polling true
      [⟨0, 3, []⟩] rfl).2.2.2.1⟩

/-- C16 (amended).  `bitforce_get_temp`, called with `polling` and
`flash_led` off, the mutex free, the command `ZLX` written in full and a
non-empty reply read: when the reply does not both start with `TEMP` (in any
letter case) and hold a `:` after these four characters, the function returns
false, the hardware-error counter goes up by exactly 1 and nothing else of the
device changes (the stored temperature stays), a throttle event is recorded
and the initialisation sequence is run; when the reply does start with `TEMP`
and holds a `:` later, the function returns true and the counter stays. -/
theorem get_temp_garbled (strtof strtod : List Char → Rat) (dev : Bitforce)
    (w r : UsbReply) (rest : List UsbReply)
    (hp : dev.polling = false) (hf : dev.flash_led = false)
    (hw : 0 ≤ w.err ∧ w.amount = 3) (hr : 0 ≤ r.err ∧ 1 ≤ r.amount) :
    (¬ (strncasecmp_eq r.buf "TEMP".toList 4 = true
          ∧ (strchr (r.buf.drop 4) ':').isSome = true) →
      (bitforce_get_temp strtof strtod dev true (w :: r :: rest)).ret = some false
      ∧ (bitforce_get_temp strtof strtod dev true (w :: r :: rest)).dev
          = { dev with hw_errors := dev.hw_errors + 1 }
      ∧ (bitforce_get_temp strtof strtod dev true (w :: r :: rest)).trace
          = [Effect.mutex_trylock true, Effect.usb_write (ascii "ZLX"), Effect.usb_read,
              Effect.mutex_unlock, Effect.dev_error Reason.throttle]
            ++ bitforce_initialise true)
    ∧ ((strncasecmp_eq r.buf "TEMP".toList 4 = true
          ∧ (strchr (r.buf.drop 4) ':').isSome = true) →
      (bitforce_get_temp strtof strtod dev true (w :: r :: rest)).ret = some true
      ∧ (bitforce_get_temp strtof strtod dev true (w :: r :: rest)).dev.hw_errors
          = dev.hw_errors) := by
  have c1 : ¬ (w.err < 0 ∨ w.amount ≠ 3) := by
    intro h
    rcases h with h | h
    · omega
    · exact h hw.2
  have c2 : ¬ (r.err < 0 ∨ r.amount < 1) := by
    intro h
    rcases h with h | h <;> omega
  constructor
  · intro hg
    have hn : (if strncasecmp_eq r.buf "TEMP".toList 4 = true then strchr (r.buf.drop 4) ':'
        else none) = none := by
      by_cases hs : strncasecmp_eq r.buf "TEMP".toList 4 = true
      · rw [if_pos hs]
        cases hc : strchr (r.buf.drop 4) ':' with
        | none => rfl
        | some x => exact absurd ⟨hs, by rw [hc]; rfl⟩ hg
      · rw [if_neg hs]
    unfold bitforce_get_temp
    simp only [hp, hf, c1, c2, hn, if_false, Bool.not_true, Bool.false_eq_true]
    simp
  · intro hg
    obtain ⟨x, hx⟩ := Option.isSome_iff_exists.mp hg.2
    have hn : (if strncasecmp_eq r.buf "TEMP".toList 4 = true then strchr (r.buf.drop 4) ':'
        else none) = some x := by
      rw [if_pos hg.1, hx]
    unfold bitforce_get_temp
    simp only [hp, hf, c1, c2, hn, if_false, Bool.not_true, Bool.false_eq_true]
    split_ifs <;> exact ⟨rfl, rfl⟩

/-- Witness for C16: the reply `XYZ` with its newline to a device holding the
temperature 42. -/
theorem get_temp_garbled_witness :
    (bitforce_get_temp (fun _ => 0) (fun _ => 0) { temp := 42 } true
        [⟨0, 3, []⟩, ⟨0, 4, "XYZ\n".toList⟩]).ret = some false
    ∧ (bitforce_get_temp (fun _ => 0) (fun _ => 0) { temp := 42 } true
        [⟨0, 3, []⟩, ⟨0, 4, "XYZ\n".toList⟩]).dev = { temp := 42, hw_errors := 0 + 1 } :=
  ⟨((get_temp_garbled (fun _ => 0) (fun _ => 0) { temp := 42 } ⟨0, 3, []⟩
      ⟨0, 4, "XYZ\n".toList⟩ [] rfl rfl (by decide) (by decide)).1 (by decide)).1,
   ((get_temp_garbled (fun _ => 0) (fun _ => 0) { temp := 42 } ⟨0, 3, []⟩
      ⟨0, 4, "XYZ\n".toList⟩ [] rfl rfl (by decide) (by decide)).1 (by decide)).2.1⟩

/-- Counterexample to C16 as stated: the reply `TEMPX:50` with its newline
does not start with `TEMP:`, in any letter case, yet `bitforce_get_temp`
returns true, stores the temperature 50, leaves the hardware-error counter
at 0 and does not run the initialisation. -/
theorem get_temp_garbled_counterexample :
    strncasecmp_eq "TEMPX:50\n".toList "TEMP:".toList 5 = false
    ∧ (bitforce_get_temp (fun _ => 50) (fun _ => 50) { temp := 42 } true
        [⟨0, 3, []⟩, ⟨0, 9, "TEMPX:50\n".toList⟩])
      = ⟨some true, { temp := 50, hw_errors := 0 },
          [Effect.mutex_trylock true, Effect.usb_write (ascii "ZLX"), Effect.usb_read,
            Effect.mutex_unlock]⟩ := by
  decide

/-! ## stratum_send after suspend_stratum -/

theorem stratum_send_inactive (pool : Pool) (s : List Char) (len : Int)
    (script : List SendStep) (h : pool.stratum_active = false) :
    stratum_send pool s len script = ⟨some false, [], 0, pool.times_sent, pool.bytes_sent⟩ := by
  unfold stratum_send
  simp [h]

theorem pool_sent_active (pool : Pool) (r : StratumSendResult) :
    (pool.sent r).stratum_active = pool.stratum_active := rfl

theorem initiate_stratum_active (pool : Pool) (a : Initiate)
    (h : (initiate_stratum pool a).ret ≠ some true) :
    (initiate_stratum pool a).pool.stratum_active = false := by
  revert h
  unfold initiate_stratum
  cases a.upload <;> simp only <;> (repeat' split) <;> simp [Pool.sent]

theorem run_ops_inactive : ∀ (ops : List PoolOp) (pool : Pool),
    pool.stratum_active = false → no_initiate_succeeds pool ops = true →
    (run_ops pool ops).stratum_active = false := by
  intro ops
  induction ops with
  | nil =>
    intro pool h _
    exact h
  | cons op rest ih =>
    intro pool h hn
    cases op with
    | send s len script =>
      exact ih _ ((pool_sent_active pool _).trans h) hn
    | initiate a =>
      simp only [no_initiate_succeeds, Bool.and_eq_true, decide_eq_true_eq] at hn
      exact ih _ (initiate_stratum_active pool a hn.1) hn.2

/-- C18.  After `suspend_stratum(pool)` and any sequence of
`stratum_send` and `initiate_stratum` calls in which no `initiate_stratum`
returns true, `stratum_send` returns false, makes no `select` and no `send`
call whatever the socket would answer, and leaves the pool, with its sent
counters, as it was. -/
theorem suspended_send_refused (pool : Pool) (ops : List PoolOp) (s : List Char) (len : Int)
    (script : List SendStep) (h : no_initiate_succeeds (suspend_stratum pool) ops = true) :
    (stratum_send (run_ops (suspend_stratum pool) ops) s len script).ret = some false
    ∧ (stratum_send (run_ops (suspend_stratum pool) ops) s len script).selects = 0
    ∧ (stratum_send (run_ops (suspend_stratum pool) ops) s len script).calls = []
    ∧ (run_ops (suspend_stratum pool) ops).sent
          (stratum_send (run_ops (suspend_stratum pool) ops) s len script)
        = run_ops (suspend_stratum pool) ops := by
  have hi := run_ops_inactive ops (suspend_stratum pool) rfl h
  rw [stratum_send_inactive _ s len script hi]
  exact ⟨rfl, rfl, rfl, rfl⟩

set_option maxRecDepth 100000 in
/-- Witness for C18: a pool in use is suspended; a send, two failing
`initiate_stratum` calls and another send follow; the next send is refused
without a `select`, although the socket would take the line.  The second
`initiate_stratum` counted its connection and its request, so `times_sent`
went from 7 to 9; the refused sends did not move it. -/
theorem suspended_send_refused_witness :
    no_initiate_succeeds (suspend_stratum pool_active) ops_after_suspend = true
    ∧ (stratum_send (run_ops (suspend_stratum pool_active) ops_after_suspend)
        "ijkl".toList 4 [{ sent := 5 }]).ret = some false
    ∧ (stratum_send (run_ops (suspend_stratum pool_active) ops_after_suspend)
        "ijkl".toList 4 [{ sent := 5 }]).selects = 0
    ∧ (stratum_send pool_active "ijkl".toList 4 [{ sent := 5 }]).ret = some true
    ∧ (stratum_send pool_active "ijkl".toList 4 [{ sent := 5 }]).selects = 1
    ∧ (run_ops (suspend_stratum pool_active) ops_after_suspend).times_sent = 9 :=
  ⟨by decide,
   (suspended_send_refused pool_active ops_after_suspend "ijkl".toList 4 [{ sent := 5 }]
      (by decide)).1,
   (suspended_send_refused pool_active ops_after_suspend "ijkl".toList 4 [{ sent := 5 }]
      (by decide)).2.1,
   by decide, by decide, by decide⟩

/-! ## The lower bound of sleep_ms -/

theorem sleep_inv_detect (opt : Bool) : sleep_inv (bitforce_detect_one opt) := by
  cases opt
  · refine ⟨by decide, by decide, by decide, ?_⟩
    intro h
    exact absurd h (by decide)
  · exact ⟨by decide, by decide, by decide, fun _ => by decide⟩

theorem sleep_inv_downgrade (d : Bitforce) (h : sleep_inv d) (hr : d.nonce_range = true) :
    sleep_inv (downgrade d) := by
  obtain ⟨h5, h0, _, h8⟩ := h
  have h8 := h8 hr
  have hm : d.sleep_ms * 5 % 2 ^ 32 = d.sleep_ms * 5 := Nat.mod_eq_of_lt (by omega)
  unfold sleep_inv downgrade
  simp only [hm]
  refine ⟨Dvd.dvd.mul_left (dvd_refl 5) _, by omega, by omega, ?_⟩
  intro hc
  exact absurd hc (by decide)

theorem sleep_inv_send_work (ob : List Nat) (dev : Bitforce) (work : Work)
    (script : List UsbReply) (h : sleep_inv dev) :
    sleep_inv (bitforce_send_work ob dev work script).dev := by
  rcases send_work_dev ob work _ script dev (le_refl _) with hd | ⟨hr, hd⟩
  · rw [hd]
    exact h
  · rw [hd]
    exact sleep_inv_downgrade dev h hr

theorem sleep_inv_nonce_loop (dev : Bitforce) (work : Work) (nonce : Nat) (buf : List Char)
    (h : sleep_inv dev) : sleep_inv (nonce_loop dev work nonce buf).1 := by
  rcases nonce_loop_dev _ buf dev work nonce (le_refl _) with hd | ⟨hr, hd⟩
  · rw [hd]
    exact h
  · rw [hd]
    exact sleep_inv_downgrade dev h hr

theorem sleep_inv_tune (dev : Bitforce) (h : sleep_inv dev) (hle : dev.sleep_ms ≤ dev.wait_ms)
    (h10 : 10 ∣ dev.wait_ms - dev.sleep_ms) (hw : dev.wait_ms < 8000) :
    sleep_inv (tune_sleep dev) := by
  obtain ⟨h5, h0, h4, h8⟩ := h
  obtain ⟨k, hk⟩ := h10
  obtain ⟨j, hj⟩ := h5
  unfold tune_sleep
  have hm : (dev.sleep_ms + 50 * 2) % 2 ^ 32 = dev.sleep_ms + 100 := Nat.mod_eq_of_lt (by omega)
  have hs : sub32 dev.wait_ms dev.sleep_ms = dev.wait_ms - dev.sleep_ms := by
    unfold sub32
    rw [Nat.mod_eq_of_lt (by omega : dev.wait_ms < 2 ^ 32),
      Nat.mod_eq_of_lt (by omega : dev.sleep_ms < 2 ^ 32)]
    omega
  rw [hm, hs]
  split_ifs with c1 c2 c3 c4
  · have hm2 : (dev.sleep_ms + (dev.wait_ms - dev.sleep_ms) / 2) % 2 ^ 32
        = dev.sleep_ms + (dev.wait_ms - dev.sleep_ms) / 2 := Nat.mod_eq_of_lt (by omega)
    unfold sleep_inv
    simp only [hm2]
    refine ⟨⟨j + k, by omega⟩, by omega, by omega, fun _ => by omega⟩
  · unfold sleep_inv
    simp only
    refine ⟨⟨j - 10, by omega⟩, by omega, by omega, fun hr => ?_⟩
    have := h8 hr
    omega
  · unfold sleep_inv
    simp only
    refine ⟨⟨j - 2, by omega⟩, by omega, by omega, fun hr => ?_⟩
    have := h8 hr
    omega
  · exact ⟨⟨j, hj⟩, h0, h4, h8⟩
  · exact ⟨⟨j, hj⟩, h0, h4, h8⟩

theorem sleep_inv_classify (nonce0 : Nat) (dev : Bitforce) (work : Work) (p : Poll)
    (h : sleep_inv dev) (hle : dev.sleep_ms ≤ dev.wait_ms)
    (h10 : 10 ∣ dev.wait_ms - dev.sleep_ms)
    (hc : (dev.wait_ms : Int) ≤ 1000 * p.elapsed_sec + 999) :
    sleep_inv (classify nonce0 dev work p).dev := by
  unfold classify
  simp only
  split_ifs
  all_goals first
    | exact h
    | exact sleep_inv_tune dev h hle h10 (by omega)
    | exact sleep_inv_nonce_loop _ _ _ _ h
    | exact sleep_inv_nonce_loop _ _ _ _ (sleep_inv_tune dev h hle h10 (by omega))

theorem sleep_inv_get_result (nonce0 : Nat) (work : Work) : ∀ (polls : List Poll)
    (dev : Bitforce), sleep_inv dev → dev.sleep_ms ≤ dev.wait_ms →
    10 ∣ dev.wait_ms - dev.sleep_ms → clock_ok dev.wait_ms polls = true →
    sleep_inv (bitforce_get_result nonce0 dev work polls).dev := by
  intro polls
  induction polls with
  | nil =>
    intro dev h _ _ _
    exact h
  | cons p rest ih =>
    intro dev h hle h10 hc
    rw [bitforce_get_result]
    by_cases c1 : p.work_restart = true
    · rw [if_pos c1]
      exact h
    · rw [if_neg c1]
      simp only [clock_ok, c1, Bool.false_or, Bool.and_eq_true, Bool.or_eq_true,
        decide_eq_true_eq] at hc
      obtain ⟨hclk, hrest⟩ := hc
      simp only
      by_cases c2 : p.elapsed_sec ≥ 30
      · rw [if_pos c2]
        exact h
      · rw [if_neg c2]
        by_cases c3 : p.amount > 0 ∧ peek p.buf ≠ NUL ∧ strncasecmp_eq p.buf "B".toList 1 = false
        · rw [if_pos c3]
          exact sleep_inv_classify nonce0 dev work p h hle h10 hclk
        · rw [if_neg c3]
          have hrest : clock_ok (dev.wait_ms + poll_delay p) rest = true := by
            rcases hrest with (hr | hr) | hr
            · exact absurd hr (by omega)
            · exact absurd hr c3
            · exact hr
          have hd : poll_delay p = 10 ∨ poll_delay p = 100 := by
            unfold poll_delay
            split_ifs
            · left; rfl
            · right; rfl
          have hm : (dev.wait_ms + poll_delay p) % 2 ^ 32 = dev.wait_ms + poll_delay p :=
            Nat.mod_eq_of_lt (by omega)
          have hgoal := ih { dev with wait_ms := (dev.wait_ms + poll_delay p) % 2 ^ 32 } h
            (by simp only [hm]; omega)
            (by
              simp only [hm]
              obtain ⟨k, hk⟩ := h10
              rcases hd with hd | hd
              · exact ⟨k + 1, by omega⟩
              · exact ⟨k + 10, by omega⟩)
            (by simp only [hm]; exact hrest)
          exact hgoal

theorem sleep_inv_scanhash (dev : Bitforce) (s : Scan) (h : sleep_inv dev)
    (hc : (bitforce_send_work s.ob dev s.work s.usb).ret = some true → s.restart_wait = true →
      clock_ok (bitforce_send_work s.ob dev s.work s.usb).dev.sleep_ms s.polls = true) :
    sleep_inv (bitforce_scanhash dev s).dev := by
  have hs := sleep_inv_send_work s.ob dev s.work s.usb h
  unfold bitforce_scanhash
  simp only
  cases hret : (bitforce_send_work s.ob dev s.work s.usb).ret with
  | none => exact hs
  | some send_ret =>
    simp only
    by_cases hw : s.restart_wait = true
    · simp only [hw, Bool.not_true, Bool.false_eq_true, if_false]
      cases send_ret with
      | false =>
        simp only [Bool.false_eq_true, if_false]
        exact hs
      | true =>
        simp only [if_true]
        have hg := sleep_inv_get_result s.nonce0 (bitforce_send_work s.ob dev s.work s.usb).work
          s.polls
          { (bitforce_send_work s.ob dev s.work s.usb).dev with
            wait_ms := (bitforce_send_work s.ob dev s.work s.usb).dev.sleep_ms,
            polling := true }
          hs (le_refl _) ⟨0, by simp⟩ (hc hret hw)
        split
        · exact hg
        · split_ifs
          · exact hg
          · exact hg
    · have hw2 : s.restart_wait = false := by simpa using hw
      simp only [hw2, Bool.not_false, if_true]
      exact hs

theorem sleep_inv_run_scans : ∀ (scans : List Scan) (dev : Bitforce), sleep_inv dev →
    clocks_ok dev scans = true → sleep_inv (run_scans dev scans) := by
  intro scans
  induction scans with
  | nil =>
    intro dev h _
    exact h
  | cons s rest ih =>
    intro dev h hc
    simp only [clocks_ok, Bool.and_eq_true, Bool.or_eq_true, decide_eq_true_eq,
      Bool.not_eq_true'] at hc
    refine ih _ (sleep_inv_scanhash dev s h ?_) hc.2
    intro hret hw
    rcases hc.1 with (h1 | h1) | h1
    · exact absurd hret h1
    · rw [hw] at h1
      exact absurd h1 (by decide)
    · exact h1

/-- C11 (amended).  From the state `bitforce_detect_one` registers
(`sleep_ms` 500 with nonce-range, 2500 without), through any sequence of scans
whose clock readings are consistent with the time slept, `sleep_ms` stays a
multiple of 5 that is at least 5 (`BITFORCE_CHECK_INTERVAL_MS` is 10); this
holds after every scan, so in particular after every `bitforce_get_result`
that ends in a reply starting with `N`. -/
theorem sleep_ms_floor (opt : Bool) (scans : List Scan)
    (h : clocks_ok (bitforce_detect_one opt) scans = true) :
    5 ≤ (run_scans (bitforce_detect_one opt) scans).sleep_ms
    ∧ 5 ∣ (run_scans (bitforce_detect_one opt) scans).sleep_ms := by
  obtain ⟨h5, h0, _, _⟩ := sleep_inv_run_scans scans _ (sleep_inv_detect opt) h
  refine ⟨?_, h5⟩
  obtain ⟨k, hk⟩ := h5
  omega

set_option maxRecDepth 1000000 in
/-- Witness for C11: the twelve scans of `scans_to_5`, from the detected
nonce-range device, have consistent clocks, and `sleep_ms` ends at a multiple
of 5 that is at least 5. -/
theorem sleep_ms_floor_witness :
    clocks_ok (bitforce_detect_one true) scans_to_5 = true
    ∧ 5 ≤ (run_scans (bitforce_detect_one true) scans_to_5).sleep_ms
    ∧ 5 ∣ (run_scans (bitforce_detect_one true) scans_to_5).sleep_ms :=
  ⟨by decide, sleep_ms_floor true scans_to_5 (by decide)⟩

set_option maxRecDepth 1000000 in
/-- Counterexample to C11 as stated: from the detected nonce-range device
(`sleep_ms` 500), a scan answered `BUSY` at 11 polls and then `NO-NONCE` moves
`sleep_ms` to 555, and eleven scans answered `NO-NONCE` at the first poll take
50 off each time; after the last one, whose `bitforce_get_result` returns the
nonce count for the reply `NO-NONCE`, `sleep_ms` is 5, below 10. -/
theorem sleep_ms_floor_counterexample :
    (run_scans (bitforce_detect_one true) [quiet_scan 68 11]).sleep_ms = 555
    ∧ (run_scans (bitforce_detect_one true) (scans_to_5.take 11)).sleep_ms = 55
    ∧ (bitforce_scanhash (run_scans (bitforce_detect_one true) (scans_to_5.take 11))
        (quiet_scan 68 0)).ret = some 0x33333332
    ∧ (run_scans (bitforce_detect_one true) scans_to_5).sleep_ms = 5 := by
  decide

/-! ## recv_line when the receive phase ends without a newline -/

set_option maxRecDepth 100000 in
/-- C21. The receive phase ends with no newline in the buffer, which holds
the partial line `abc`: when `recv` returns 0 with an `errno` other than
`EAGAIN` the loop breaks and `recv_line` returns `abc`; when the 60 s have
passed after a `recv` that brought `def`, `recv_line` returns `abcdef`; in
both cases the buffer string is empty afterwards and a line is counted.  Only
with an empty buffer does `recv_line` return NULL in these two cases. -/
theorem recv_line_returns_partial_line :
    has_newline (sockbuf_with "abc" 8192).sockbuf = false
      ∧ (recv_line 8192 (sockbuf_with "abc" 8192) true [{ n := 0 }]).map (fun r => r.1)
          = some (some "abc".toList)
      ∧ (recv_line 8192 (sockbuf_with "abc" 8192) true [{ n := 0 }]).map
              (fun r => (cstr r.2.sockbuf, r.2.times_received, r.2.bytes_received))
          = some ([], 1, 3)
      ∧ (recv_line 8192 (sockbuf_with "abc" 8192) true
            [{ n := 3, data := "def".toList, before_60s := false }]).map (fun r => r.1)
          = some (some "abcdef".toList)
      ∧ (recv_line 8192 (sockbuf_with "abc" 8192) true
            [{ n := 3, data := "def".toList, before_60s := false }]).map
              (fun r => (cstr r.2.sockbuf, r.2.times_received, r.2.bytes_received))
          = some ([], 1, 6)
      ∧ (recv_line 8192 (sockbuf_with "" 8192) true [{ n := 0 }, { n := 0 }]).map
            (fun r => r.1) = some none
      ∧ (recv_line 8192 (sockbuf_with "" 8192) true
            [{ n := 0, eagain := true, before_60s := false }, { n := 0 }]).map
            (fun r => r.1) = some none := by
  decide

/-! ## The thread queue -/

theorem tq_push_all_unfrozen {α : Type} : ∀ (ds : List α) (tq : ThreadQ α),
    tq.frozen = false →
    tq_push_all tq ds = (ds.map (fun _ => true), { tq with q := tq.q ++ ds }) := by
  intro ds
  induction ds with
  | nil =>
    intro tq _
    simp [tq_push_all]
  | cons d ds ih =>
    intro tq h
    have hp : tq_push tq d true = (true, { tq with q := tq.q ++ [d] }) := by
      simp [tq_push, h]
    simp only [tq_push_all, hp]
    rw [ih { tq with q := tq.q ++ [d] } h]
    simp

theorem tq_pop_all_items {α : Type} : ∀ (ds : List α) (rcs : List Int) (frozen : Bool),
    rcs.length = ds.length →
    tq_pop_all (⟨ds, frozen⟩ : ThreadQ α) rcs = (ds.map some, ⟨[], frozen⟩) := by
  intro ds
  induction ds with
  | nil =>
    intro rcs frozen h
    have : rcs = [] := List.length_eq_zero.mp h
    subst this
    rfl
  | cons d ds ih =>
    intro rcs frozen h
    cases rcs with
    | nil => simp at h
    | cons rc rcs =>
      simp only [List.length_cons, Nat.add_right_cancel_iff] at h
      simp only [tq_pop_all, tq_pop, List.map_cons]
      rw [ih rcs frozen h]

/-- C22. After `tq_push` of `d1 .. dn` (each entry allocated) onto the new,
unfrozen queue, every push returned true, and `n` calls of `tq_pop` return
`d1, d2, .., dn` in that order and leave the queue empty, whatever their
waits would have returned; `tq_pop` on an empty queue whose wait returns
non-zero (a timeout) returns NULL and leaves the queue as it was. -/
theorem tq_fifo {α : Type} (ds : List α) (rcs : List Int) (hn : rcs.length = ds.length) :
    (tq_push_all (tq_new : ThreadQ α) ds).1 = ds.map (fun _ => true)
    ∧ (tq_pop_all (tq_push_all (tq_new : ThreadQ α) ds).2 rcs).1 = ds.map some
    ∧ (tq_pop_all (tq_push_all (tq_new : ThreadQ α) ds).2 rcs).2 = tq_new
    ∧ ∀ (frozen : Bool) (rc : Int), rc ≠ 0 →
        tq_pop (⟨[], frozen⟩ : ThreadQ α) rc = (none, ⟨[], frozen⟩) := by
  rw [tq_push_all_unfrozen ds tq_new rfl]
  have h := tq_pop_all_items ds rcs false hn
  refine ⟨rfl, ?_, ?_, ?_⟩
  · simp only [tq_new, List.nil_append]
    rw [h]
  · simp only [tq_new, List.nil_append]
    rw [h]
  · intro frozen rc hrc
    simp [tq_pop, hrc]

/-- Witness of C22: three payloads, and waits that would time out. -/
theorem tq_fifo_witness :
    (tq_pop_all (tq_push_all (tq_new : ThreadQ Nat) [7, 8, 9]).2 [110, 110, 110]).1
        = [7, 8, 9].map some
    ∧ (tq_pop_all (tq_push_all (tq_new : ThreadQ Nat) [7, 8, 9]).2 [110, 110, 110]).2
        = tq_new :=
  ⟨(tq_fifo ([7, 8, 9] : List Nat) [110, 110, 110] rfl).2.1,
   (tq_fifo ([7, 8, 9] : List Nat) [110, 110, 110] rfl).2.2.1⟩

/-- C23. While the queue is frozen, `tq_push` returns false and leaves the
queue as it was, and `tq_pop` returns the oldest item there is, or NULL when
there is none, whatever the wait returns; after `tq_thaw`, `tq_push` (with its
entry allocated) returns true and the payload is the last of the list. -/
theorem tq_frozen {α : Type} (tq : ThreadQ α) (data : α) (alloc_ok : Bool) (rc : Int)
    (hf : tq.frozen = true) :
    tq_push tq data alloc_ok = (false, tq)
    ∧ (∀ d rest, tq.q = d :: rest → tq_pop tq rc = (some d, { tq with q := rest }))
    ∧ (tq.q = [] → tq_pop tq rc = (none, tq))
    ∧ tq_push (tq_thaw tq) data true = (true, { q := tq.q ++ [data], frozen := false }) := by
  refine ⟨?_, ?_, ?_, ?_⟩
  · unfold tq_push
    cases alloc_ok <;> simp [hf]
  · intro d rest hq
    simp [tq_pop, hq]
  · intro hq
    unfold tq_pop
    simp only [hq]
    split_ifs <;> rfl
  · simp [tq_push, tq_thaw, tq_freezethaw]

/-- Witness of C23: the frozen queue holding 7 and 8. -/
theorem tq_frozen_witness :
    tq_push (tq_freeze (⟨[7, 8], false⟩ : ThreadQ Nat)) 9 true = (false, ⟨[7, 8], true⟩)
    ∧ tq_pop (tq_freeze (⟨[7, 8], false⟩ : ThreadQ Nat)) 0 = (some 7, ⟨[8], true⟩)
    ∧ tq_pop (tq_freeze (⟨[], false⟩ : ThreadQ Nat)) 0 = (none, ⟨[], true⟩)
    ∧ tq_push (tq_thaw (tq_freeze (⟨[7, 8], false⟩ : ThreadQ Nat))) 9 true
        = (true, ⟨[7, 8, 9], false⟩) :=
  ⟨(tq_frozen (tq_freeze (⟨[7, 8], false⟩ : ThreadQ Nat)) 9 true 0 rfl).1,
   (tq_frozen (tq_freeze (⟨[7, 8], false⟩ : ThreadQ Nat)) 9 true 0 rfl).2.1 7 [8] rfl,
   (tq_frozen (tq_freeze (⟨[], false⟩ : ThreadQ Nat)) 9 true 0 rfl).2.2.1 rfl,
   (tq_frozen (tq_freeze (⟨[7, 8], false⟩ : ThreadQ Nat)) 9 true 0 rfl).2.2.2⟩

/-! ## bitforce_get_result: the nonce-range check -/

theorem nonce_loop_off : ∀ (n : Nat) (buf : List Char) (dev : Bitforce) (work : Work)
    (nonce : Nat), buf.length ≤ n → dev.nonce_range = false →
    (nonce_loop dev work nonce buf).1 = dev ∧ (nonce_loop dev work nonce buf).2.1 = work := by
  intro n
  induction n using Nat.strong_induction_on with
  | _ n ih =>
    intro buf dev work nonce hl hr
    unfold nonce_loop
    simp only [hr, Bool.false_and, Bool.false_eq_true, if_false]
    split
    · rename_i c rest
      split_ifs
      · exact ⟨rfl, rfl⟩
      · simp only [List.length_cons] at hl
        exact ih (n - 9) (by omega) rest dev work _ (by omega) hr
    · exact ⟨rfl, rfl⟩

theorem nonce_broken_iff (dev : Bitforce) (work : Work) (n : Nat)
    (hr : dev.nonce_range = true) :
    (dev.nonce_range && (decide (n ≥ work.nonce) ||
        (decide (work.nonce > 0) && decide (n < sub32 (sub32 work.nonce dev.nonces) 1))))
      = !decide (in_nonce_interval dev work n) := by
  rw [hr, Bool.true_and]
  by_cases h : in_nonce_interval dev work n
  · have h1 : ¬ n ≥ work.nonce := by
      have := h.2
      omega
    have h2 : ¬ n < sub32 (sub32 work.nonce dev.nonces) 1 := by
      have := h.1
      omega
    simp [h, h1, h2]
  · have h3 : n ≥ work.nonce ∨ (work.nonce > 0 ∧ n < sub32 (sub32 work.nonce dev.nonces) 1) := by
      by_cases c : n ≥ work.nonce
      · left; exact c
      · right
        refine ⟨by omega, ?_⟩
        by_contra c2
        exact h ⟨by omega, by omega⟩
    simp only [h, decide_False, Bool.not_false]
    rcases h3 with h3 | ⟨h3, h4⟩
    · simp [h3]
    · simp [h3, h4]

theorem nonce_loop_range : ∀ (tokens : List (List Char)) (dev : Bitforce) (work : Work)
    (nonce : Nat) (tail : List Char), tokens ≠ [] →
    (∀ t ∈ tokens, t.length = 8 ∧ ∀ c ∈ t, isxdigit c = true) → peek tail ≠ ',' →
    dev.nonce_range = true →
    ((∀ t ∈ tokens, in_nonce_interval dev work (token_nonce t)) →
        (nonce_loop dev work nonce (List.intercalate [','] tokens ++ tail)).1 = dev
        ∧ (nonce_loop dev work nonce (List.intercalate [','] tokens ++ tail)).2.1 = work)
    ∧ ((∃ t ∈ tokens, ¬ in_nonce_interval dev work (token_nonce t)) →
        (nonce_loop dev work nonce (List.intercalate [','] tokens ++ tail)).1 = downgrade dev
        ∧ (nonce_loop dev work nonce (List.intercalate [','] tokens ++ tail)).2.1
            = { work with nonce := 0xffffffff }) := by
  intro tokens
  induction tokens with
  | nil => intro _ _ _ _ h; exact absurd rfl h
  | cons t ts ih =>
    intro dev work nonce tail _ hx htail hr
    obtain ⟨hl, hxt⟩ := hx t (by simp)
    obtain ⟨a, b, c, d, e, f, g, i, ht⟩ := length_eight t hl
    subst ht
    have hbr := nonce_broken_iff dev work (token_nonce [a, b, c, d, e, f, g, i]) hr
    unfold token_nonce at hbr
    cases ts with
    | nil =>
      rw [intercalate_single]
      have hn := nonce_of_token [a, b, c, d, e, f, g, i] tail nonce hl hxt
      have hone :
          (nonce_loop dev work nonce ([a, b, c, d, e, f, g, i] ++ tail)).1
            = (if (!decide (in_nonce_interval dev work (token_nonce [a, b, c, d, e, f, g, i])))
                  = true
                then downgrade dev else dev)
          ∧ (nonce_loop dev work nonce ([a, b, c, d, e, f, g, i] ++ tail)).2.1
            = (if (!decide (in_nonce_interval dev work (token_nonce [a, b, c, d, e, f, g, i])))
                  = true
                then { work with nonce := 0xffffffff } else work) := by
        unfold token_nonce
        rw [← hbr]
        cases tail with
        | nil =>
          simp only [List.append_nil] at hn ⊢
          unfold nonce_loop
          simp only [hn]
          split_ifs <;> simp [downgrade]
        | cons x tl =>
          have hx' : (x != ',') = true := by
            simpa [peek] using htail
          simp only [List.cons_append, List.nil_append] at hn ⊢
          unfold nonce_loop
          simp only [hn, hx', if_true]
          split_ifs <;> simp [downgrade]
      obtain ⟨e1, e2⟩ := hone
      rw [e1, e2]
      constructor
      · intro hall
        have := hall _ (List.mem_singleton.mpr rfl)
        simp [this]
      · rintro ⟨u, hu, hout⟩
        rw [List.mem_singleton.mp hu] at hout
        simp [hout]
    | cons t2 ts2 =>
      rw [intercalate_cons_cons, List.append_assoc, List.append_assoc]
      have hn := nonce_of_token [a, b, c, d, e, f, g, i]
        ([','] ++ (List.intercalate [','] (t2 :: ts2) ++ tail)) nonce hl hxt
      simp only [List.cons_append, List.nil_append] at hn ⊢
      have hc : ((',' : Char) != ',') = false := by decide
      have hrec := ih dev work
        (swab32 (load_le32 (hex2bin [a, b, c, d, e, f, g, i] 4).2)) tail (by simp)
        (fun u hu => hx u (by simp [hu])) htail hr
      have hoff := fun dv wk (h : dv.nonce_range = false) =>
        nonce_loop_off _ (List.intercalate [','] (t2 :: ts2) ++ tail) dv wk
          (swab32 (load_le32 (hex2bin [a, b, c, d, e, f, g, i] 4).2)) (le_refl _) h
      generalize List.intercalate [','] (t2 :: ts2) ++ tail = more at hn hrec hoff ⊢
      unfold nonce_loop
      simp only [hn, hc, Bool.false_eq_true, if_false]
      rw [hbr]
      by_cases hin : in_nonce_interval dev work (token_nonce [a, b, c, d, e, f, g, i])
      · have hd : (!decide (in_nonce_interval dev work
            (swab32 (load_le32 (hex2bin [a, b, c, d, e, f, g, i] 4).2)))) = false := by
          unfold token_nonce at hin
          simp [hin]
        simp only [hd, Bool.false_eq_true, if_false]
        constructor
        · intro hall
          exact hrec.1 (fun u hu => hall u (by simp [hu]))
        · rintro ⟨u, hu, hout⟩
          rcases List.mem_cons.mp hu with hu | hu
          · rw [hu] at hout
            exact absurd hin hout
          · exact hrec.2 ⟨u, hu, hout⟩
      · have hd : (!decide (in_nonce_interval dev work
            (swab32 (load_le32 (hex2bin [a, b, c, d, e, f, g, i] 4).2)))) = true := by
          unfold token_nonce at hin
          simp [hin]
        simp only [hd, if_true]
        constructor
        · intro hall
          exact absurd (hall _ (by simp)) hin
        · intro _
          exact hoff _ _ rfl

theorem classify_found_loop (nonce0 : Nat) (dev : Bitforce) (work : Work) (p : Poll)
    (X : List Char) (hamount : p.amount > 0) (hbuf : p.buf = "NONCE-FOUND:".toList ++ X) :
    (classify nonce0 dev work p).dev
        = (nonce_loop (if p.elapsed_sec > 7 then dev else tune_sleep dev) work nonce0 X).1
      ∧ (classify nonce0 dev work p).work
        = (nonce_loop (if p.elapsed_sec > 7 then dev else tune_sleep dev) work nonce0 X).2.1 := by
  have k0 : strncasecmp_eq p.buf "N".toList 1 = true := by rw [hbuf]; rfl
  have k1 : strncasecmp_eq (p.buf.drop 2) "-".toList 1 = false := by rw [hbuf]; rfl
  have k2 : strncasecmp_eq p.buf "I".toList 1 = false := by rw [hbuf]; rfl
  have k3 : strncasecmp_eq p.buf "NONCE-FOUND".toList 11 = true := by rw [hbuf]; rfl
  have k4 : p.buf.drop 12 = X := by rw [hbuf]; rfl
  have c0 : ¬ (p.elapsed_sec > 7 ∧ p.amount = 0) := by
    intro hc
    omega
  unfold classify
  simp only [c0, if_false, k0, k1, k2, k3, k4, Bool.false_eq_true, Bool.not_true, if_true]
  exact ⟨trivial, trivial⟩

/-- C27. With nonce-range on, for a `NONCE-FOUND` reply of `k >= 1` tokens of
8 hex digits (read before the long timeout, no restart pending, after any
number of passes that kept polling), `d` being the device as the nonce loop
finds it (after the tuning step when the reply came within the timeout):
`bitforce_get_result` leaves nonce-range off if and only if some nonce of the
reply lies outside the interval `[work.nonce - nonces - 1, work.nonce)`; then
the device is `d` with `nonce_range` off, `sleep_ms` times 5 (modulo `2^32`)
and kind "full work", and `work.nonce` is `0xFFFFFFFF`; otherwise device and
work are `d` and the work as they were.  Every nonce of the reply is submitted
in either case. -/
theorem get_result_nonce_range (nonce0 : Nat) (dev : Bitforce) (work : Work)
    (busy : List Poll) (p : Poll) (rest : List Poll)
    (tokens : List (List Char)) (tail : List Char)
    (hbusy : ∀ q ∈ busy, keeps_polling q)
    (hr : p.work_restart = false) (ht : p.elapsed_sec < 30) (ha : p.amount > 0)
    (hbuf : p.buf = "NONCE-FOUND:".toList ++ (List.intercalate [','] tokens ++ tail))
    (hne : tokens ≠ [])
    (hx : ∀ t ∈ tokens, t.length = 8 ∧ ∀ c ∈ t, isxdigit c = true)
    (htail : peek tail ≠ ',')
    (hrange : dev.nonce_range = true) :
    ((bitforce_get_result nonce0 dev work (busy ++ p :: rest)).dev.nonce_range = false
        ↔ ∃ t ∈ tokens, ¬ in_nonce_interval dev work (token_nonce t))
    ∧ ((∃ t ∈ tokens, ¬ in_nonce_interval dev work (token_nonce t)) →
        (bitforce_get_result nonce0 dev work (busy ++ p :: rest)).dev
            = downgrade (if p.elapsed_sec > 7
                then { dev with wait_ms := wait_after dev.wait_ms busy }
                else tune_sleep { dev with wait_ms := wait_after dev.wait_ms busy })
        ∧ (bitforce_get_result nonce0 dev work (busy ++ p :: rest)).work
            = { work with nonce := 0xffffffff })
    ∧ ((∀ t ∈ tokens, in_nonce_interval dev work (token_nonce t)) →
        (bitforce_get_result nonce0 dev work (busy ++ p :: rest)).dev
            = (if p.elapsed_sec > 7
                then { dev with wait_ms := wait_after dev.wait_ms busy }
                else tune_sleep { dev with wait_ms := wait_after dev.wait_ms busy })
        ∧ (bitforce_get_result nonce0 dev work (busy ++ p :: rest)).work = work)
    ∧ submitted (bitforce_get_result nonce0 dev work (busy ++ p :: rest)).trace
        = tokens.map token_nonce := by
  have hn : peek p.buf ≠ NUL := by
    rw [hbuf]
    show 'N' ≠ NUL
    decide
  have hb : strncasecmp_eq p.buf "B".toList 1 = false := by rw [hbuf]; rfl
  obtain ⟨pre, hpre, hrun⟩ :=
    get_result_polls_wait nonce0 work p rest ⟨hr, ht, ha, hn, hb⟩ busy dev hbusy
  obtain ⟨e1, e2⟩ := classify_found_loop nonce0
    { dev with wait_ms := wait_after dev.wait_ms busy } work p _ ha hbuf
  obtain ⟨s1, -⟩ := classify_nonce_found nonce0
    { dev with wait_ms := wait_after dev.wait_ms busy } work p tokens tail ha hbuf hne hx htail
  generalize hd : (if p.elapsed_sec > 7
      then ({ dev with wait_ms := wait_after dev.wait_ms busy } : Bitforce)
      else tune_sleep { dev with wait_ms := wait_after dev.wait_ms busy }) = d at e1 e2 ⊢
  have hdr : d.nonce_range = true := by
    rw [← hd]
    split_ifs
    · exact hrange
    · rw [tune_sleep_nonce_range]
      exact hrange
  have hdn : d.nonces = dev.nonces := by
    rw [← hd]
    split_ifs
    · rfl
    · rw [tune_sleep_nonces]
  have hint : ∀ n, in_nonce_interval d work n ↔ in_nonce_interval dev work n := by
    intro n
    unfold in_nonce_interval
    rw [hdn]
  obtain ⟨hin, hout⟩ := nonce_loop_range tokens d work nonce0 tail hne hx htail hdr
  have hdev : (bitforce_get_result nonce0 dev work (busy ++ p :: rest)).dev
      = (nonce_loop d work nonce0 (List.intercalate [','] tokens ++ tail)).1 := by
    rw [hrun]
    exact e1
  have hwork : (bitforce_get_result nonce0 dev work (busy ++ p :: rest)).work
      = (nonce_loop d work nonce0 (List.intercalate [','] tokens ++ tail)).2.1 := by
    rw [hrun]
    exact e2
  have hsub : submitted (bitforce_get_result nonce0 dev work (busy ++ p :: rest)).trace
      = tokens.map token_nonce := by
    rw [hrun]
    simp only [GetResult.after, submitted_append, hpre, List.nil_append]
    exact s1
  rw [hdev, hwork]
  have hout2 : (∃ t ∈ tokens, ¬ in_nonce_interval dev work (token_nonce t)) →
      (nonce_loop d work nonce0 (List.intercalate [','] tokens ++ tail)).1 = downgrade d
      ∧ (nonce_loop d work nonce0 (List.intercalate [','] tokens ++ tail)).2.1
          = { work with nonce := 0xffffffff } := by
    rintro ⟨t, ht, hto⟩
    exact hout ⟨t, ht, fun h => hto ((hint _).mp h)⟩
  have hin2 : (∀ t ∈ tokens, in_nonce_interval dev work (token_nonce t)) →
      (nonce_loop d work nonce0 (List.intercalate [','] tokens ++ tail)).1 = d
      ∧ (nonce_loop d work nonce0 (List.intercalate [','] tokens ++ tail)).2.1 = work :=
    fun h => hin (fun t ht => (hint _).mpr (h t ht))
  refine ⟨?_, hout2, hin2, hsub⟩
  constructor
  · intro hoff
    by_contra hno
    have hall : ∀ t ∈ tokens, in_nonce_interval dev work (token_nonce t) := by
      intro t ht
      by_contra hc
      exact hno ⟨t, ht, hc⟩
    rw [(hin2 hall).1, hdr] at hoff
    exact absurd hoff (by decide)
  · intro hex
    rw [(hout2 hex).1]
    rfl

set_option maxRecDepth 100000 in
/-- Witness of C27: nonce-range on, `nonces = 0x33333332`, `work.nonce =
0x33333333`, so the interval is `[0, 0x33333333)`.  The reply
`NONCE-FOUND:12345678,87654321` has its second nonce outside: nonce-range goes
off, `work.nonce` becomes `0xFFFFFFFF` and both nonces are submitted.  The
reply `NONCE-FOUND:12345678` leaves nonce-range on. -/
theorem get_result_nonce_range_witness :
    ((bitforce_get_result 0 dev_ranged ⟨[], [], 0x33333333⟩
        ([] ++ ⟨false, 30, "NONCE-FOUND:12345678,87654321\n".toList, 1⟩ :: [])).dev.nonce_range
        = false
      ∧ (bitforce_get_result 0 dev_ranged ⟨[], [], 0x33333333⟩
        ([] ++ ⟨false, 30, "NONCE-FOUND:12345678,87654321\n".toList, 1⟩ :: [])).work
        = ⟨[], [], 0xffffffff⟩
      ∧ submitted (bitforce_get_result 0 dev_ranged ⟨[], [], 0x33333333⟩
        ([] ++ ⟨false, 30, "NONCE-FOUND:12345678,87654321\n".toList, 1⟩ :: [])).trace
        = ["12345678".toList, "87654321".toList].map token_nonce)
    ∧ (bitforce_get_result 0 dev_ranged ⟨[], [], 0x33333333⟩
        ([] ++ ⟨false, 20, "NONCE-FOUND:12345678\n".toList, 1⟩ :: [])).work
        = ⟨[], [], 0x33333333⟩ := by
  have h := get_result_nonce_range 0 dev_ranged ⟨[], [], 0x33333333⟩ []
    ⟨false, 30, "NONCE-FOUND:12345678,87654321\n".toList, 1⟩ []
    ["12345678".toList, "87654321".toList] "\n".toList
    (by decide) (by decide) (by decide) (by decide) (by decide) (by decide) (by decide)
    (by decide) (by decide)
  have h2 := get_result_nonce_range 0 dev_ranged ⟨[], [], 0x33333333⟩ []
    ⟨false, 20, "NONCE-FOUND:12345678\n".toList, 1⟩ []
    ["12345678".toList] "\n".toList
    (by decide) (by decide) (by decide) (by decide) (by decide) (by decide) (by decide)
    (by decide) (by decide)
  have hex : ∃ t ∈ ["12345678".toList, "87654321".toList],
      ¬ in_nonce_interval dev_ranged ⟨[], [], 0x33333333⟩ (token_nonce t) :=
    ⟨"87654321".toList, by decide, by decide⟩
  exact ⟨⟨h.1.mpr hex, (h.2.1 hex).2, h.2.2.2⟩, (h2.2.2.1 (by decide)).2⟩

/-! ## bitforce_get_temp: an accepted reply -/

/-- C28. `bitforce_get_temp`, called with `polling` and `flash_led` off, the
mutex free, the command written in full and a non-empty reply read that is
accepted (it starts with `TEMP` and holds a `:` later), `t` being the value
parsed after the `:` (by `strtof`, and by `strtod` when that is above 100):
the function returns true and the hardware-error counter stays; if `t <= 0`
the device is unchanged; if `t > 0` the stored temperature becomes `t`, and
when `cutofftemp > 0` and `t > cutofftemp` the enable state becomes
`DEV_RECOVER` and a thermal-cutoff error is recorded, while otherwise the
enable state stays and no error is recorded. -/
theorem get_temp_accepted (strtof strtod : List Char → Rat) (dev : Bitforce)
    (w r : UsbReply) (rest : List UsbReply) (s : List Char) (t : Rat)
    (hp : dev.polling = false) (hf : dev.flash_led = false)
    (hw : 0 ≤ w.err ∧ w.amount = 3) (hr : 0 ≤ r.err ∧ 1 ≤ r.amount)
    (hacc : strncasecmp_eq r.buf "TEMP".toList 4 = true)
    (hcolon : strchr (r.buf.drop 4) ':' = some s)
    (ht : t = if strtof s.tail > 100 then strtod s.tail else strtof s.tail) :
    (bitforce_get_temp strtof strtod dev true (w :: r :: rest)).ret = some true
    ∧ (bitforce_get_temp strtof strtod dev true (w :: r :: rest)).dev.hw_errors = dev.hw_errors
    ∧ (t ≤ 0 →
        (bitforce_get_temp strtof strtod dev true (w :: r :: rest)).dev = dev
        ∧ (bitforce_get_temp strtof strtod dev true (w :: r :: rest)).trace
          = [Effect.mutex_trylock true, Effect.usb_write (ascii "ZLX"), Effect.usb_read,
              Effect.mutex_unlock])
    ∧ (t > 0 → (dev.cutofftemp > 0 ∧ t > (dev.cutofftemp : Rat)) →
        (bitforce_get_temp strtof strtod dev true (w :: r :: rest)).dev
          = { dev with temp := t, deven := Deven.recover }
        ∧ (bitforce_get_temp strtof strtod dev true (w :: r :: rest)).trace
          = [Effect.mutex_trylock true, Effect.usb_write (ascii "ZLX"), Effect.usb_read,
              Effect.mutex_unlock, Effect.dev_error Reason.thermal_cutoff])
    ∧ (t > 0 → ¬ (dev.cutofftemp > 0 ∧ t > (dev.cutofftemp : Rat)) →
        (bitforce_get_temp strtof strtod dev true (w :: r :: rest)).dev = { dev with temp := t }
        ∧ (bitforce_get_temp strtof strtod dev true (w :: r :: rest)).trace
          = [Effect.mutex_trylock true, Effect.usb_write (ascii "ZLX"), Effect.usb_read,
              Effect.mutex_unlock]) := by
  have c1 : ¬ (w.err < 0 ∨ w.amount ≠ 3) := by
    intro h
    rcases h with h | h
    · omega
    · exact h hw.2
  have c2 : ¬ (r.err < 0 ∨ r.amount < 1) := by
    intro h
    rcases h with h | h <;> omega
  have hn : (if strncasecmp_eq r.buf "TEMP".toList 4 = true then strchr (r.buf.drop 4) ':'
      else none) = some s := by
    rw [if_pos hacc, hcolon]
  unfold bitforce_get_temp
  simp only [hp, hf, c1, c2, hn, if_false, Bool.not_true, Bool.false_eq_true, ← ht]
  by_cases h0 : t > 0
  · have h0n : ¬ t ≤ 0 := not_le.mpr h0
    by_cases hc : dev.cutofftemp > 0 ∧ t > (dev.cutofftemp : Rat)
    · simp [h0, h0n, hc]
    · simp only [h0, hc, if_true, if_false]
      simp [h0n]
  · have h0n : t ≤ 0 := not_lt.mp h0
    simp [h0, h0n]

/-- Witness of C28: with the cutoff at 90 degrees, the reply `TEMP:95` stores
95, moves the device to `DEV_RECOVER` and records the thermal cutoff; the
hardware-error counter stays at 3. -/
theorem get_temp_accepted_witness :
    (bitforce_get_temp (fun _ => 95) (fun _ => 95) dev_cutoff true
        [⟨0, 3, []⟩, ⟨0, 8, "TEMP:95\n".toList⟩]).dev
      = { dev_cutoff with temp := 95, deven := Deven.recover }
    ∧ (bitforce_get_temp (fun _ => 95) (fun _ => 95) dev_cutoff true
        [⟨0, 3, []⟩, ⟨0, 8, "TEMP:95\n".toList⟩]).dev.hw_errors = dev_cutoff.hw_errors :=
  ⟨((get_temp_accepted (fun _ => 95) (fun _ => 95) dev_cutoff ⟨0, 3, []⟩
      ⟨0, 8, "TEMP:95\n".toList⟩ [] ":95\n".toList 95 rfl rfl (by decide) (by decide)
      (by decide) (by decide) (by decide)).2.2.2.1 (by decide) (by decide)).1,
   (get_temp_accepted (fun _ => 95) (fun _ => 95) dev_cutoff ⟨0, 3, []⟩
      ⟨0, 8, "TEMP:95\n".toList⟩ [] ":95\n".toList 95 rfl rfl (by decide) (by decide)
      (by decide) (by decide) (by decide)).2.1⟩

/-! ## bitforce_get_result: the long timeout -/

/-- C29. When a poll of `bitforce_get_result` (after any number of passes
that kept polling, no restart pending) finds that 30 s or more have elapsed
since the work started, the call returns 0 whatever the reply just read: no
nonce is submitted, and the device is the one passed in but for the `wait_ms`
the earlier passes added up, so `sleep_ms`, `nonce_range` and the
hardware-error counter are unchanged, and the work is unchanged. -/
theorem get_result_long_timeout (nonce0 : Nat) (work : Work) (p : Poll) (rest : List Poll)
    (hr : p.work_restart = false) (ht : 30 ≤ p.elapsed_sec) :
    ∀ (busy : List Poll) (dev : Bitforce), (∀ q ∈ busy, keeps_polling q) →
      (bitforce_get_result nonce0 dev work (busy ++ p :: rest)).ret = some 0
      ∧ submitted (bitforce_get_result nonce0 dev work (busy ++ p :: rest)).trace = []
      ∧ (bitforce_get_result nonce0 dev work (busy ++ p :: rest)).dev
          = { dev with wait_ms := wait_after dev.wait_ms busy }
      ∧ (bitforce_get_result nonce0 dev work (busy ++ p :: rest)).work = work := by
  intro busy
  induction busy with
  | nil =>
    intro dev _
    rw [List.nil_append, bitforce_get_result]
    have c1 : p.elapsed_sec ≥ 30 := ht
    simp only [hr, Bool.false_eq_true, if_false, c1, if_true]
    exact ⟨trivial, rfl, rfl, trivial⟩
  | cons q busy ih =>
    intro dev hq
    obtain ⟨q1, q2, q3⟩ := hq q (by simp)
    obtain ⟨i1, i2, i3, i4⟩ := ih
      { dev with wait_ms := (dev.wait_ms + poll_delay q) % 2 ^ 32 }
      (fun y hy => hq y (by simp [hy]))
    rw [List.cons_append, bitforce_get_result]
    have c1 : ¬ (q.elapsed_sec ≥ 30) := by omega
    simp only [q1, Bool.false_eq_true, if_false, c1, q3]
    have hd : (if peek q.buf ≠ NUL then 10 else 2 * 50) = poll_delay q := rfl
    rw [hd]
    simp only [GetResult.after]
    refine ⟨i1, ?_, ?_, i4⟩
    · rw [submitted_append, i2]
      simp [submitted]
    · rw [i3]
      rfl

set_option maxRecDepth 100000 in
/-- Witness of C29: after one busy pass, a `NONCE-FOUND` reply read 30 s after
the work started is dropped: the call returns 0 and submits nothing. -/
theorem get_result_long_timeout_witness :
    (bitforce_get_result 0 dev_ranged ⟨[], [], 0x33333333⟩
        ([⟨false, 5, "BUSY\n".toList, 29⟩]
          ++ ⟨false, 21, "NONCE-FOUND:12345678\n".toList, 30⟩ :: [])).ret = some 0
      ∧ submitted (bitforce_get_result 0 dev_ranged ⟨[], [], 0x33333333⟩
        ([⟨false, 5, "BUSY\n".toList, 29⟩]
          ++ ⟨false, 21, "NONCE-FOUND:12345678\n".toList, 30⟩ :: [])).trace = []
      ∧ (bitforce_get_result 0 dev_ranged ⟨[], [], 0x33333333⟩
        ([⟨false, 5, "BUSY\n".toList, 29⟩]
          ++ ⟨false, 21, "NONCE-FOUND:12345678\n".toList, 30⟩ :: [])).dev
        = { dev_ranged with wait_ms := 510 } := by
  have h := get_result_long_timeout 0 ⟨[], [], 0x33333333⟩
    ⟨false, 21, "NONCE-FOUND:12345678\n".toList, 30⟩ [] rfl (by decide)
    [⟨false, 5, "BUSY\n".toList, 29⟩] dev_ranged (by decide)
  exact ⟨h.1, h.2.1, h.2.2.1⟩

/-! ## json_rpc_call: the delay in delay-net mode -/

/-- C30 (amended). In delay-net mode, for a call that is not a share
submission, with `now` and `last` in milliseconds: if `now > last` the sleep
`d` inserted before the request is `250 - (now - last)` when that is positive
and 0 otherwise, so `(now - last) + d >= 250`; if `now <= last` no sleep is
inserted.  A share submission inserts no sleep.  In both cases `set_nettime`
is called. -/
theorem delaynet_sleep (now last : Timeval) :
    (tv_msecs now > tv_msecs last →
      (tv_msecs now - tv_msecs last)
          + (json_rpc_call_delaynet true false now last).sleep_msecs ≥ 250
      ∧ (json_rpc_call_delaynet true false now last).sleep_msecs
          = max 0 (250 - (tv_msecs now - tv_msecs last)))
    ∧ (tv_msecs now ≤ tv_msecs last →
      (json_rpc_call_delaynet true false now last).nanosleep = none)
    ∧ (json_rpc_call_delaynet true false now last).set_nettime = true
    ∧ json_rpc_call_delaynet true true now last = ⟨none, true⟩ := by
  unfold json_rpc_call_delaynet DelayNet.sleep_msecs
  generalize tv_msecs now = n
  generalize tv_msecs last = l
  simp only [if_true, Bool.not_false, Bool.not_true, Bool.false_eq_true, if_false]
  refine ⟨?_, ?_, ?_, trivial⟩
  · intro h
    by_cases c : n - l < 250
    · simp only [h, c, and_self, if_true]
      have e : (250 - (n - l)) * 1000000 / 1000000 = 250 - (n - l) :=
        Int.mul_ediv_cancel _ (by decide)
      rw [e]
      constructor
      · omega
      · rw [max_eq_right (by omega)]
    · simp only [h, c, and_false, if_false]
      constructor
      · omega
      · rw [max_eq_left (by omega)]
  · intro h
    have c : ¬ (n > l ∧ n - l < 250) := by
      intro hc
      omega
    simp only [c, if_false]
  · split_ifs <;> rfl

/-- Witness of C30: the last activity was at 100.000 s, the call is made at
100.100 s, and the sleep is 150 ms. -/
theorem delaynet_sleep_witness :
    (json_rpc_call_delaynet true false ⟨100, 100000⟩ ⟨100, 0⟩).sleep_msecs = 150 :=
  (((delaynet_sleep ⟨100, 100000⟩ ⟨100, 0⟩).1 (by decide)).2).trans (by decide)

/-- Counterexample to C30 as stated: a call made in the millisecond of the
last activity (`now = last`, here 100.000 s and 100.000999 s) inserts no
sleep, so the request goes out 0 ms after the last activity. -/
theorem delaynet_sleep_counterexample :
    tv_msecs ⟨100, 999⟩ ≥ tv_msecs ⟨100, 0⟩
    ∧ json_rpc_call_delaynet true false ⟨100, 999⟩ ⟨100, 0⟩ = ⟨none, true⟩
    ∧ (tv_msecs ⟨100, 999⟩ - tv_msecs ⟨100, 0⟩)
        + (json_rpc_call_delaynet true false ⟨100, 999⟩ ⟨100, 0⟩).sleep_msecs = 0 := by
  decide

/-! ## initiate_stratum: the subscribe response -/

theorem stratum_send_loop_ret (s : List Char) (ts : Nat) (bs : Int) :
    ∀ (script : List SendStep) (ssent len : Int),
      (stratum_send_loop s ts bs ssent len script).ret
        = (stratum_send_loop s 0 0 ssent len script).ret := by
  intro script
  induction script with
  | nil =>
    intro ssent len
    simp only [stratum_send_loop]
    split_ifs <;> rfl
  | cons ev rest ih =>
    intro ssent len
    simp only [stratum_send_loop]
    split_ifs
    all_goals first
      | rfl
      | exact ih _ _

theorem initiate_stratum_response (pool : Pool) (a : Initiate) (v : Json)
    (hperf : a.perform = 0)
    (hsend : (__stratum_send 0 0 (subscribe_request a.swork_id)
        (strlen (subscribe_request a.swork_id)) a.send).ret = some true)
    (hfull : a.socket_full = true) (hline : a.sret.isNone = false) (hval : a.val = some v) :
    (initiate_stratum pool a).ret
      = some (!((json_object_get (some v) "result").isNone
            || json_is_null (json_object_get (some v) "result")
            || ((json_object_get (some v) "error").isSome
                && !json_is_null (json_object_get (some v) "error")))
          && !(json_array_string (json_object_get (some v) "result") 1).isNone
          && decide (int_of_json_int (json_integer_value
                (json_array_get (json_object_get (some v) "result") 2)) ≠ 0)) := by
  have hs : ∀ ts bs, (__stratum_send ts bs (subscribe_request a.swork_id)
      (strlen (subscribe_request a.swork_id)) a.send).ret = some true := by
    intro ts bs
    unfold __stratum_send at hsend ⊢
    rw [stratum_send_loop_ret]
    exact hsend
  unfold initiate_stratum
  simp only [hperf, ne_eq, not_true_eq_false, if_false, hs, hfull, hline, hval,
    Bool.not_true, Bool.false_eq_true, Option.isNone_some]
  generalize ((json_object_get (some v) "result").isNone
      || json_is_null (json_object_get (some v) "result")
      || ((json_object_get (some v) "error").isSome
          && !json_is_null (json_object_get (some v) "error"))) = b1
  generalize json_array_string (json_object_get (some v) "result") 1 = ns
  generalize int_of_json_int (json_integer_value
      (json_array_get (json_object_get (some v) "result") 2)) = n2
  cases b1
  · cases ns
    · simp
    · by_cases h0 : n2 = 0
      · simp [h0]
      · simp [h0]
  · simp

theorem subscribe_result_shape (R E : Option Json) :
    (!(R.isNone || json_is_null R || (E.isSome && !json_is_null E))
        && !(json_array_string R 1).isNone
        && decide (int_of_json_int (json_integer_value (json_array_get R 2)) ≠ 0)) = true
      ↔ ∃ (l : List Json) (s : String) (n : Int),
          R = some (Json.array l) ∧ l.get? 1 = some (Json.string s)
          ∧ l.get? 2 = some (Json.integer n) ∧ int_of_json_int n ≠ 0
          ∧ (E = none ∨ E = some Json.null) := by
  have hE : (E.isSome && !json_is_null E) = false ↔ (E = none ∨ E = some Json.null) := by
    cases E with
    | none => simp
    | some e => cases e <;> simp [json_is_null]
  constructor
  · intro h
    simp only [Bool.and_eq_true, Bool.not_eq_true', Bool.or_eq_false_iff, decide_eq_true_eq] at h
    obtain ⟨⟨⟨⟨h1, h2⟩, h3⟩, h4⟩, h5⟩ := h
    match R, h1, h2, h4, h5 with
    | some (Json.array l), _, _, h4, h5 =>
      rw [json_array_string_array] at h4
      simp only [json_array_get] at h5
      cases h1g : l.get? 1 with
      | none => rw [h1g] at h4; simp [json_string_value] at h4
      | some x =>
        cases x with
        | string s =>
          cases h2g : l.get? 2 with
          | none => rw [h2g] at h5; simp [json_integer_value, int_of_json_int] at h5
          | some y =>
            cases y with
            | integer n =>
              rw [h2g] at h5
              exact ⟨l, s, n, rfl, h1g, h2g, h5, hE.mp h3⟩
            | _ => rw [h2g] at h5; simp [json_integer_value, int_of_json_int] at h5
        | _ => rw [h1g] at h4; simp [json_string_value] at h4
    | none, h1, _, _, _ => simp at h1
    | some Json.null, _, h2, _, _ => simp [json_is_null] at h2
    | some (Json.bool _), _, _, h4, _ => simp [json_array_string, __json_array_string, json_is_null, json_is_array] at h4
    | some (Json.integer _), _, _, h4, _ => simp [json_array_string, __json_array_string, json_is_null, json_is_array] at h4
    | some (Json.real _), _, _, h4, _ => simp [json_array_string, __json_array_string, json_is_null, json_is_array] at h4
    | some (Json.string _), _, _, h4, _ => simp [json_array_string, __json_array_string, json_is_null, json_is_array] at h4
    | some (Json.object _), _, _, h4, _ => simp [json_array_string, __json_array_string, json_is_null, json_is_array] at h4
  · rintro ⟨l, s, n, hR, h1, h2, hn, hErr⟩
    subst hR
    rw [json_array_string_array, h1]
    have hE2 := hE.mpr hErr
    simp only [json_array_get, h2, json_integer_value, json_string_value,
      Option.isNone_some, Bool.false_or, hE2, Bool.not_false, Bool.true_and,
      Bool.and_eq_true, decide_eq_true_eq]
    exact ⟨⟨rfl, trivial⟩, hn⟩

theorem initiate_stratum_true (pool : Pool) (a : Initiate)
    (h : (initiate_stratum pool a).ret = some true) :
    (initiate_stratum pool a).pool.stratum_active = true
    ∧ (initiate_stratum pool a).pool.swork.diff = 1
    ∧ (initiate_stratum pool a).pool.nonce1
        = json_array_string (json_object_get a.val "result") 1
    ∧ (initiate_stratum pool a).pool.n2size
        = int_of_json_int (json_integer_value
            (json_array_get (json_object_get a.val "result") 2)) := by
  revert h
  unfold initiate_stratum
  cases a.upload <;> simp only <;> (repeat' split) <;> simp [Pool.sent]

/-- C25 (amended). When the connect succeeded, the request was sent, and a
line arrived that parses to the JSON value `v`: `initiate_stratum` returns
true if and only if the `"result"` of `v` is an array whose element 1 is a
string (any string, hex digits or not) and whose element 2 is an integer that
is not 0 as an `int` (negative values pass), and the `"error"` of `v` is
absent or null.  When it returns true, `stratum_active` is set, `swork.diff`
is 1, `nonce1` is that string and `n2size` that integer; otherwise it returns
false and `stratum_active` is false. -/
theorem initiate_stratum_accepts (pool : Pool) (a : Initiate) (v : Json)
    (hperf : a.perform = 0)
    (hsend : (__stratum_send 0 0 (subscribe_request a.swork_id)
        (strlen (subscribe_request a.swork_id)) a.send).ret = some true)
    (hfull : a.socket_full = true) (hline : a.sret.isNone = false) (hval : a.val = some v) :
    ((initiate_stratum pool a).ret = some true
      ↔ ∃ (l : List Json) (s : String) (n : Int),
          json_object_get (some v) "result" = some (Json.array l)
          ∧ l.get? 1 = some (Json.string s) ∧ l.get? 2 = some (Json.integer n)
          ∧ int_of_json_int n ≠ 0
          ∧ (json_object_get (some v) "error" = none
              ∨ json_object_get (some v) "error" = some Json.null))
    ∧ (∀ (l : List Json) (s : String) (n : Int),
          json_object_get (some v) "result" = some (Json.array l) →
          l.get? 1 = some (Json.string s) → l.get? 2 = some (Json.integer n) →
          (initiate_stratum pool a).ret = some true →
          (initiate_stratum pool a).pool.stratum_active = true
          ∧ (initiate_stratum pool a).pool.swork.diff = 1
          ∧ (initiate_stratum pool a).pool.nonce1 = some s
          ∧ (initiate_stratum pool a).pool.n2size = int_of_json_int n)
    ∧ ((initiate_stratum pool a).ret ≠ some true →
          (initiate_stratum pool a).ret = some false
          ∧ (initiate_stratum pool a).pool.stratum_active = false) := by
  have hret := initiate_stratum_response pool a v hperf hsend hfull hline hval
  have hshape := subscribe_result_shape (json_object_get (some v) "result")
    (json_object_get (some v) "error")
  refine ⟨?_, ?_, ?_⟩
  · rw [hret, ← hshape]
    simp only [Option.some.injEq]
  · intro l s n hR h1 h2 ht
    obtain ⟨t1, t2, t3, t4⟩ := initiate_stratum_true pool a ht
    rw [hval, hR] at t3 t4
    rw [json_array_string_array, h1] at t3
    simp only [json_array_get, h2] at t4
    exact ⟨t1, t2, t3, t4⟩
  · intro hne
    refine ⟨?_, initiate_stratum_active pool a hne⟩
    rw [hret] at hne ⊢
    generalize (!((json_object_get (some v) "result").isNone
            || json_is_null (json_object_get (some v) "result")
            || ((json_object_get (some v) "error").isSome
                && !json_is_null (json_object_get (some v) "error")))
          && !(json_array_string (json_object_get (some v) "result") 1).isNone
          && decide (int_of_json_int (json_integer_value
                (json_array_get (json_object_get (some v) "result") 2)) ≠ 0)) = b at hne ⊢
    cases b
    · rfl
    · exact absurd rfl hne

set_option maxRecDepth 100000 in
/-- Witness of C25: the usual subscribe answer (extranonce1 `f8002c90`,
extranonce2 size 4) is accepted by a suspended pool. -/
theorem initiate_stratum_accepts_witness :
    (initiate_stratum (suspend_stratum pool_active) (initiate_with subscribe_answer)).ret
        = some true
    ∧ (initiate_stratum (suspend_stratum pool_active)
        (initiate_with subscribe_answer)).pool.stratum_active = true
    ∧ (initiate_stratum (suspend_stratum pool_active)
        (initiate_with subscribe_answer)).pool.nonce1 = some "f8002c90" :=
  ⟨(initiate_stratum_accepts (suspend_stratum pool_active) (initiate_with subscribe_answer)
      subscribe_answer rfl (by decide) rfl rfl rfl).1.mpr
      ⟨_, "f8002c90", 4, rfl, rfl, rfl, by decide, Or.inr rfl⟩,
   by decide, by decide⟩

set_option maxRecDepth 100000 in
/-- Counterexample to C25 as stated: a response whose `result[1]` is the
string `not hex!` and whose `result[2]` is -4 is accepted: `initiate_stratum`
returns true, sets `stratum_active` and `swork.diff = 1`, and stores
`nonce1 = "not hex!"`, `n2size = -4`. -/
theorem initiate_stratum_accepts_counterexample :
    (initiate_stratum (suspend_stratum pool_active) (initiate_with subscribe_answer_odd)).ret
        = some true
    ∧ (initiate_stratum (suspend_stratum pool_active)
        (initiate_with subscribe_answer_odd)).pool.stratum_active = true
    ∧ (initiate_stratum (suspend_stratum pool_active)
        (initiate_with subscribe_answer_odd)).pool.swork.diff = 1
    ∧ (initiate_stratum (suspend_stratum pool_active)
        (initiate_with subscribe_answer_odd)).pool.nonce1 = some "not hex!"
    ∧ (initiate_stratum (suspend_stratum pool_active)
        (initiate_with subscribe_answer_odd)).pool.n2size = -4
    ∧ ("not hex!".toList.all isxdigit) = false := by
  decide

/-! ## extract_sockaddr -/

theorem cstr_no_nul (s : List Char) (h : ∀ c ∈ s, c ≠ NUL) : cstr s = s := by
  unfold cstr
  rw [List.takeWhile_eq_self_iff]
  intro c hc
  simpa using h c hc

theorem strstr_char_none (c : Char) : ∀ (s : List Char), (∀ x ∈ s, x ≠ c) →
    strstr s [c] = none := by
  intro s
  induction s with
  | nil => intro _; rfl
  | cons x t ih =>
    intro h
    have hx : (c == x) = false := by
      have := h x (by simp)
      simpa using fun e => this e.symm
    simp only [strstr, List.isPrefixOf, hx, Bool.false_and, Bool.false_eq_true, if_false]
    rw [ih (fun y hy => h y (by simp [hy]))]
    rfl

theorem strstr_char_head (c : Char) (rest : List Char) : strstr (c :: rest) [c] = some 0 := by
  simp [strstr, List.isPrefixOf]

theorem strstr_char_skip (c : Char) (rest : List Char) : ∀ (pre : List Char),
    (∀ x ∈ pre, x ≠ c) →
    strstr (pre ++ rest) [c] = (strstr rest [c]).map (fun i => pre.length + i) := by
  intro pre
  induction pre with
  | nil =>
    intro _
    simp
  | cons x t ih =>
    intro h
    have hx : (c == x) = false := by
      have := h x (by simp)
      simpa using fun e => this e.symm
    simp only [List.cons_append, strstr, List.isPrefixOf, hx, Bool.false_and,
      Bool.false_eq_true, if_false, List.append_eq]
    rw [ih (fun y hy => h y (by simp [hy]))]
    cases strstr rest [c] with
    | none => rfl
    | some i =>
      simp only [Option.map_some', List.length_cons, Option.some.injEq]
      omega

theorem strstr_char_some (c : Char) : ∀ (s : List Char) (e : Nat), strstr s [c] = some e →
    ∃ pre post, s = pre ++ c :: post ∧ pre.length = e ∧ ∀ x ∈ pre, x ≠ c := by
  intro s
  induction s with
  | nil =>
    intro e h
    simp [strstr] at h
  | cons x t ih =>
    intro e h
    by_cases hx : c = x
    · subst hx
      rw [strstr_char_head] at h
      refine ⟨[], t, rfl, ?_, by simp⟩
      simpa using h
    · have hx2 : (c == x) = false := by simpa using hx
      simp only [strstr, List.isPrefixOf, hx2, Bool.false_and, Bool.false_eq_true,
        if_false] at h
      cases ht : strstr t [c] with
      | none => rw [ht] at h; simp at h
      | some i =>
        rw [ht] at h
        simp only [Option.map_some', Option.some.injEq] at h
        obtain ⟨pre, post, e1, e2, e3⟩ := ih i ht
        refine ⟨x :: pre, post, by rw [e1]; rfl, by simp [e2, h], ?_⟩
        intro y hy
        rcases List.mem_cons.mp hy with hy | hy
        · rw [hy]
          exact fun e => hx e.symm
        · exact e3 y hy

theorem strstr_slashes_none : ∀ (s : List Char), (∀ x ∈ s, x ≠ '/') →
    strstr s "//".toList = none := by
  intro s
  induction s with
  | nil => intro _; rfl
  | cons x t ih =>
    intro h
    have hx : (('/' : Char) == x) = false := by
      have := h x (by simp)
      simpa using fun e => this e.symm
    have e : "//".toList = ['/', '/'] := rfl
    rw [e] at ih ⊢
    simp only [strstr, List.isPrefixOf, hx, Bool.false_and, Bool.false_eq_true, if_false]
    rw [ih (fun y hy => h y (by simp [hy]))]
    rfl

theorem strstr_scheme (rest : List Char) : ∀ (sc : List Char), (∀ x ∈ sc, x ≠ '/') →
    strstr (sc ++ "://".toList ++ rest) "//".toList = some (sc.length + 1) := by
  intro sc
  have e : "//".toList = ['/', '/'] := rfl
  have e3 : "://".toList = [':', '/', '/'] := rfl
  rw [e, e3]
  induction sc with
  | nil =>
    intro _
    simp [strstr, List.isPrefixOf]
  | cons x t ih =>
    intro h
    have hx : (('/' : Char) == x) = false := by
      have := h x (by simp)
      simpa using fun e => this e.symm
    simp only [List.cons_append, strstr, List.isPrefixOf, hx, Bool.false_and,
      Bool.false_eq_true, if_false, List.append_eq]
    rw [ih (fun y hy => h y (by simp [hy]))]
    rfl

theorem url_end_plain (host tail : List Char) (hcolon : ∀ x ∈ host, x ≠ ':')
    (hbr : ∀ x ∈ tail, x ≠ ']') :
    url_end_of (host ++ tail) = (strstr tail [':']).map (fun i => host.length + i) := by
  have helse : strstr (host ++ tail) ":".toList
      = (strstr tail [':']).map (fun i => host.length + i) :=
    strstr_char_skip ':' tail host hcolon
  unfold url_end_of
  simp only
  cases hA : strstr (host ++ tail) "[".toList with
  | none => exact helse
  | some b =>
    cases hB : strstr (host ++ tail) "]".toList with
    | none => exact helse
    | some e =>
      simp only
      by_cases hgt : e > b
      · rw [if_pos hgt]
        obtain ⟨pre, post, e1, e2, -⟩ := strstr_char_some ']' (host ++ tail) e hB
        rcases List.append_eq_append_iff.mp e1 with ⟨a', ha1, ha2⟩ | ⟨c', hc1, hc2⟩
        · exact absurd rfl (hbr ']' (by rw [ha2]; simp))
        · cases c' with
          | nil =>
            simp only [List.nil_append] at hc2
            exact absurd rfl (hbr ']' (by rw [← hc2]; simp))
          | cons y c'' =>
            have hdrop : (host ++ tail).drop e = (y :: c'') ++ tail := by
              rw [hc1, ← e2, List.append_assoc, List.drop_left]
            rw [hdrop]
            have hsk := strstr_char_skip ':' tail (y :: c'')
              (fun x hx => hcolon x (by rw [hc1]; simp [hx]))
            have e3 : ":".toList = [':'] := rfl
            rw [e3, hsk]
            have hlen : host.length = e + (y :: c'').length := by
              rw [hc1, List.length_append, e2]
            cases strstr tail [':'] with
            | none => rfl
            | some i =>
              simp only [Option.map_some', Option.some.injEq]
              omega
      · rw [if_neg hgt]
        exact helse

theorem url_end_bracket (lit tail : List Char) (hlit : ∀ x ∈ lit, x ≠ ']') :
    url_end_of ('[' :: lit ++ ']' :: tail)
      = (strstr tail [':']).map (fun i => lit.length + 2 + i) := by
  have hA : strstr ('[' :: lit ++ ']' :: tail) "[".toList = some 0 :=
    strstr_char_head '[' _
  have hB : strstr ('[' :: lit ++ ']' :: tail) "]".toList = some (lit.length + 1) := by
    have := strstr_char_skip ']' (']' :: tail) ('[' :: lit) (by
      intro x hx
      rcases List.mem_cons.mp hx with hx | hx
      · rw [hx]; decide
      · exact hlit x hx)
    rw [strstr_char_head] at this
    simpa using this
  have hdrop : ('[' :: lit ++ ']' :: tail).drop (lit.length + 1) = ']' :: tail := by
    have : ('[' :: lit ++ ']' :: tail) = ('[' :: lit) ++ (']' :: tail) := rfl
    rw [this]
    have hl : lit.length + 1 = ('[' :: lit).length := rfl
    rw [hl, List.drop_left]
  have hsk := strstr_char_skip ':' tail [']'] (by
    intro x hx
    rw [List.mem_singleton.mp hx]
    decide)
  unfold url_end_of
  simp only [hA, hB]
  rw [if_pos (by omega), hdrop]
  have e3 : ":".toList = [':'] := rfl
  rw [e3]
  have : (']' :: tail) = [']'] ++ tail := rfl
  rw [this, hsk]
  cases strstr tail [':'] with
  | none => rfl
  | some i =>
    simp only [Option.map_some', List.length_singleton, Option.some.injEq]
    omega

theorem url_end_host (host tail : List Char)
    (hshape : ((∀ x ∈ host, x ≠ ':') ∧ (∀ x ∈ tail, x ≠ ']'))
      ∨ ∃ lit, host = '[' :: lit ++ [']'] ∧ ∀ x ∈ lit, x ≠ ']') :
    url_end_of (host ++ tail) = (strstr tail [':']).map (fun i => host.length + i) := by
  rcases hshape with ⟨h1, h2⟩ | ⟨lit, hl, h3⟩
  · exact url_end_plain host tail h1 h2
  · subst hl
    have := url_end_bracket lit tail h3
    simp only [List.cons_append, List.append_assoc, List.singleton_append, List.length_cons,
      List.length_append, List.length_singleton, List.nil_append, List.length_nil,
      Nat.zero_add] at this ⊢
    rw [this]

theorem extract_from_begin (pool : Pool) (url ub : List Char) (hn : ∀ c ∈ url, c ≠ NUL)
    (hub : url.drop (match strstr url "//".toList with
      | none => 0
      | some i => i + 2) = ub) :
    extract_sockaddr pool url
      = match url_end_of ub with
        | some ue =>
          if ((ub.length : Int) - (ue : Int) - 1 < 1) then
            some (false, { pool with sockaddr_url := some (String.mk url) })
          else if ((ue : Int) < 1) then
            some (false, { pool with sockaddr_url := some (String.mk url) })
          else if ((ue : Int) ≥ 256) then none
          else
            some (true, { pool with
              stratum_port := some (String.mk
                ((ub.drop (ue + 1)).take (min ((ub.length : Int) - (ue : Int) - 1).toNat 5))),
              sockaddr_url := some (String.mk (ub.take ue)) })
        | none =>
          if ((ub.length : Int) < 1) then
            some (false, { pool with sockaddr_url := some (String.mk url) })
          else if ((ub.length : Int) ≥ 256) then none
          else
            some (true, { pool with
              stratum_port := some "80",
              sockaddr_url := some (String.mk (ub.take (ub.length : Int).toNat)) }) := by
  unfold extract_sockaddr
  simp only [cstr_no_nul url hn]
  rw [hub]

theorem make_url_begin (scheme : Option (List Char)) (rest : List Char)
    (hsc : ∀ sc, scheme = some sc → ∀ x ∈ sc, x ≠ '/')
    (hrest : scheme = none → ∀ x ∈ rest, x ≠ '/') :
    (scheme_part scheme ++ rest).drop
      (match strstr (scheme_part scheme ++ rest) "//".toList with
        | none => 0
        | some i => i + 2) = rest := by
  cases scheme with
  | none =>
    simp only [scheme_part, List.nil_append]
    rw [strstr_slashes_none rest (hrest rfl)]
    rfl
  | some sc =>
    simp only [scheme_part]
    rw [strstr_scheme rest sc (hsc sc rfl)]
    simp only
    have : sc.length + 1 + 2 = (sc ++ "://".toList).length := by
      simp
    rw [this, List.drop_left]

theorem port_part_mem (port : Option (List Char)) (x : Char) (hx : x ∈ port_part port) :
    x = ':' ∨ ∃ p, port = some p ∧ x ∈ p := by
  cases port with
  | none => simp [port_part] at hx
  | some p =>
    rcases List.mem_cons.mp hx with hx | hx
    · left; exact hx
    · right; exact ⟨p, rfl, hx⟩

/-- For the URL made of an optional scheme followed by `://`, a host and
an optional `:port` (no part holding a `/` or a NUL; the host holding no `:`,
with no `]` in the port, or being a literal wrapped in `[..]`; the host
shorter than the 256 bytes of `url_address`): if the host is non-empty and the
port, when present, has 1 to 5 characters, `extract_sockaddr` returns true
with `sockaddr_url` the host and `stratum_port` the port, or `80` when there
is none; if the host is empty or the `:` is followed by nothing it returns
false, `sockaddr_url` being left at the URL it was given. -/
theorem extract_sockaddr_url (pool : Pool) (scheme : Option (List Char)) (host : List Char)
    (port : Option (List Char))
    (hsc : ∀ sc, scheme = some sc → ∀ x ∈ sc, x ≠ '/' ∧ x ≠ NUL)
    (hhost : ∀ x ∈ host, x ≠ '/' ∧ x ≠ NUL)
    (hport : ∀ p, port = some p → ∀ x ∈ p, x ≠ '/' ∧ x ≠ NUL)
    (hshape : ((∀ x ∈ host, x ≠ ':') ∧ (∀ p, port = some p → ∀ x ∈ p, x ≠ ']'))
      ∨ ∃ lit, host = '[' :: lit ++ [']'] ∧ ∀ x ∈ lit, x ≠ ']')
    (hlen : host.length < 256) :
    (host ≠ [] → (∀ p, port = some p → 1 ≤ p.length ∧ p.length ≤ 5) →
      extract_sockaddr pool (make_url scheme host port)
        = some (true, { pool with
            sockaddr_url := some (String.mk host),
            stratum_port := some (String.mk (port.getD "80".toList)) }))
    ∧ ((host = [] ∨ port = some []) →
      extract_sockaddr pool (make_url scheme host port)
        = some (false, { pool with
            sockaddr_url := some (String.mk (make_url scheme host port)) })) := by
  have hnul : ∀ c ∈ make_url scheme host port, c ≠ NUL := by
    intro c hc
    unfold make_url at hc
    rcases List.mem_append.mp hc with hc | hc
    · rcases List.mem_append.mp hc with hc | hc
      · cases scheme with
        | none => simp [scheme_part] at hc
        | some sc =>
          rcases List.mem_append.mp hc with hc | hc
          · exact (hsc sc rfl c hc).2
          · have : c = ':' ∨ c = '/' := by
              simpa using hc
            rcases this with h | h <;> (rw [h]; decide)
      · exact (hhost c hc).2
    · rcases port_part_mem port c hc with h | ⟨p, hp, h⟩
      · rw [h]; decide
      · exact (hport p hp c h).2
  have hub := make_url_begin scheme (host ++ port_part port)
    (fun sc h x hx => (hsc sc h x hx).1)
    (by
      intro _ x hx
      rcases List.mem_append.mp hx with hx | hx
      · exact (hhost x hx).1
      · rcases port_part_mem port x hx with h | ⟨p, hp, h⟩
        · rw [h]; decide
        · exact (hport p hp x h).1)
  have hmk : make_url scheme host port = scheme_part scheme ++ (host ++ port_part port) := by
    unfold make_url
    rw [List.append_assoc]
  rw [← hmk] at hub
  have hex := extract_from_begin pool (make_url scheme host port) _ hnul hub
  have hend := url_end_host host (port_part port)
    (by
      rcases hshape with ⟨h1, h2⟩ | h3
      · left
        refine ⟨h1, ?_⟩
        intro x hx
        rcases port_part_mem port x hx with h | ⟨p, hp, h⟩
        · rw [h]; decide
        · exact h2 p hp x h
      · right
        exact h3)
  rw [hex, hend]
  cases port with
  | none =>
    simp only [port_part, List.append_nil, strstr, List.isEmpty_cons, Bool.false_eq_true,
      if_false, Option.map_none', Option.getD_none]
    constructor
    · intro hne _
      have h1 : ¬ ((host.length : Int) < 1) := by
        have : 0 < host.length := List.length_pos.mpr hne
        omega
      have h2 : ¬ ((host.length : Int) ≥ 256) := by omega
      simp only [h1, h2, if_false, Int.toNat_ofNat, List.take_length]
      rfl
    · intro h
      rcases h with h | h
      · subst h
        simp
      · exact absurd h (by simp)
  | some p =>
    simp only [port_part, strstr_char_head, Option.map_some', Nat.add_zero,
      List.length_append, List.length_cons, Option.getD_some]
    have hpl : ((host.length + (p.length + 1) : Nat) : Int) - (host.length : Int) - 1
        = (p.length : Int) := by
      push_cast
      omega
    rw [hpl]
    constructor
    · intro hne hp
      obtain ⟨p1, p5⟩ := hp p rfl
      have h0 : ¬ ((p.length : Int) < 1) := by omega
      have h1 : ¬ ((host.length : Int) < 1) := by
        have : 0 < host.length := List.length_pos.mpr hne
        omega
      have h2 : ¬ ((host.length : Int) ≥ 256) := by omega
      simp only [h0, h1, h2, if_false, Int.toNat_ofNat]
      have hd : (host ++ ':' :: p).drop (host.length + 1) = p := by
        have : host ++ ':' :: p = (host ++ [':']) ++ p := by simp
        rw [this]
        have hl : host.length + 1 = (host ++ [':']).length := by simp
        rw [hl, List.drop_left]
      rw [hd, List.take_left, Nat.min_eq_left p5, List.take_length]
    · intro h
      rcases h with h | h
      · subst h
        by_cases h0 : (p.length : Int) < 1
        · simp [h0]
        · simp [h0]
      · have hp0 : p = [] := by
          simpa using h
        subst hp0
        simp

/-- Instances: `stratum+tcp://pool.example.com:3333` gives the host
`pool.example.com` and the port `3333`; `[fe80::1]` gives itself and the
port `80`. -/
theorem extract_sockaddr_url_witness :
    extract_sockaddr {} (make_url (some "stratum+tcp".toList) "pool.example.com".toList
        (some "3333".toList))
      = some (true, { sockaddr_url := some (String.mk "pool.example.com".toList),
                      stratum_port := some (String.mk "3333".toList) })
    ∧ extract_sockaddr {} (make_url none "[fe80::1]".toList none)
      = some (true, { sockaddr_url := some (String.mk "[fe80::1]".toList),
                      stratum_port := some (String.mk "80".toList) }) :=
  ⟨(extract_sockaddr_url {} (some "stratum+tcp".toList) "pool.example.com".toList
      (some "3333".toList)
      (fun sc h => by cases h; decide) (by decide) (fun p h => by cases h; decide)
      (Or.inl ⟨by decide, fun p h => by cases h; decide⟩) (by decide)).1
      (by decide) (fun p h => by cases h; decide),
   (extract_sockaddr_url {} none "[fe80::1]".toList none
      (fun sc h => by cases h) (by decide) (fun p h => by cases h)
      (Or.inr ⟨"fe80::1".toList, rfl, by decide⟩) (by decide)).1
      (by decide) (fun p h => by cases h)⟩

/-! ## auth_stratum -/

theorem auth_loop_dispatch (pkg : String) (rest : List (Option AuthLine)) :
    ∀ (pre : List AuthLine) (pool : Pool) (tg : Nat),
      methods_accepted pkg pool tg pre = true →
      auth_loop pkg pool tg (pre.map some ++ rest)
        = auth_loop pkg (run_methods pkg pool tg pre).1 (run_methods pkg pool tg pre).2 rest := by
  intro pre
  induction pre with
  | nil =>
    intro pool tg _
    rfl
  | cons l pre ih =>
    intro pool tg h
    simp only [methods_accepted, Bool.and_eq_true, decide_eq_true_eq] at h
    simp only [List.map_cons, List.cons_append, auth_loop, h.1, run_methods]
    exact ih _ _ h.2

theorem parse_method_no_method (pkg : String) (pool : Pool) (tg : Nat) (l : AuthLine)
    (h : json_object_get l.val "method" = none) :
    (parse_method pkg pool tg l).ret = some false := by
  unfold parse_method
  simp only [h, Option.isNone_none, if_true]
  split_ifs <;> rfl

theorem auth_decision_iff (val : Option Json) :
    auth_decision val = true
      ↔ (∃ r, json_object_get val "result" = some r ∧ r ≠ Json.bool false)
        ∧ (json_object_get val "error" = none ∨ json_object_get val "error" = some Json.null) := by
  unfold auth_decision
  generalize json_object_get val "result" = R
  generalize json_object_get val "error" = E
  have hE : (E.isSome && !json_is_null E) = false ↔ (E = none ∨ E = some Json.null) := by
    cases E with
    | none => simp
    | some e => cases e <;> simp [json_is_null]
  have hR : (R.isNone || json_is_false R) = false ↔ ∃ r, R = some r ∧ r ≠ Json.bool false := by
    cases R with
    | none => simp
    | some r =>
      cases r with
      | bool b => cases b <;> simp [json_is_false]
      | _ => simp [json_is_false]
  simp only [Bool.not_eq_true', Bool.or_eq_false_iff]
  rw [← hR, ← hE]
  simp only [Bool.or_eq_false_iff]

/-- C24 (amended). After `mining.authorize` was sent, `auth_stratum` hands
each received line to `parse_method` and keeps reading as long as
`parse_method` returns true; the first line for which `parse_method` returns
false is taken for the answer: `auth_stratum` returns true if and only if that
line has a `"result"` that is not false and an `"error"` that is absent or
null.  A line without a `"method"` member is such a line, whatever the state;
so is a line with a `"method"` that `parse_method` turns down.  When
`recv_line` returns NULL before such a line, `auth_stratum` returns false. -/
theorem auth_stratum_decides (pkg : String) (pool : Pool) (tg : Nat) (swork_id : Int)
    (send : List SendStep) (pre : List AuthLine) (last : AuthLine)
    (rest : List (Option AuthLine))
    (hsend : (stratum_send pool (authorize_request swork_id pool.rpc_user pool.rpc_pass)
        (strlen (authorize_request swork_id pool.rpc_user pool.rpc_pass)) send).ret = some true)
    (hpre : methods_accepted pkg
        (pool.sent (stratum_send pool (authorize_request swork_id pool.rpc_user pool.rpc_pass)
          (strlen (authorize_request swork_id pool.rpc_user pool.rpc_pass)) send)) tg pre = true) :
    ((parse_method pkg
          (run_methods pkg
            (pool.sent (stratum_send pool
              (authorize_request swork_id pool.rpc_user pool.rpc_pass)
              (strlen (authorize_request swork_id pool.rpc_user pool.rpc_pass)) send)) tg pre).1
          (run_methods pkg
            (pool.sent (stratum_send pool
              (authorize_request swork_id pool.rpc_user pool.rpc_pass)
              (strlen (authorize_request swork_id pool.rpc_user pool.rpc_pass)) send)) tg pre).2
          last).ret = some false →
        (auth_stratum pkg pool tg swork_id send (pre.map some ++ some last :: rest)).ret
            = some (auth_decision last.val))
    ∧ (auth_decision last.val = true
        ↔ (∃ r, json_object_get last.val "result" = some r ∧ r ≠ Json.bool false)
          ∧ (json_object_get last.val "error" = none
              ∨ json_object_get last.val "error" = some Json.null))
    ∧ (∀ (p : Pool) (t : Nat), json_object_get last.val "method" = none →
        (parse_method pkg p t last).ret = some false)
    ∧ (auth_stratum pkg pool tg swork_id send (pre.map some ++ none :: rest)).ret
        = some false := by
  refine ⟨?_, auth_decision_iff last.val, ?_, ?_⟩
  · intro hlast
    unfold auth_stratum
    simp only [hsend]
    rw [auth_loop_dispatch pkg _ pre _ tg hpre]
    simp only [auth_loop, hlast]
    split_ifs with hd
    · rw [hd]
    · have : auth_decision last.val = false := by simpa using hd
      rw [this]
  · intro p t h
    exact parse_method_no_method pkg p t last h
  · unfold auth_stratum
    simp only [hsend]
    rw [auth_loop_dispatch pkg _ pre _ tg hpre]
    rfl

set_option maxRecDepth 100000 in
/-- Witness of C24: a notify arrives before the answer; it is dispatched, the
job is stored, and the answer `result: true, error: null` makes `auth_stratum`
return true. -/
theorem auth_stratum_decides_witness :
    (auth_stratum "cgminer/2.9.1" pool_worker 0 1 [{ sent := 67 }]
        ([line_notify].map some ++ some line_authorized :: [])).ret = some true
    ∧ (auth_stratum "cgminer/2.9.1" pool_worker 0 1 [{ sent := 67 }]
        ([line_notify].map some ++ some line_authorized :: [])).pool.swork.job_id
        = some "job1" := by
  have h := (auth_stratum_decides "cgminer/2.9.1" pool_worker 0 1 [{ sent := 67 }]
    [line_notify] line_authorized [] (by decide) (by decide)).1 (by decide)
  exact ⟨h.trans (by decide), by decide⟩

set_option maxRecDepth 100000 in
/-- Counterexample to C24 as stated: the line `method: mining.ping` carries a
`"method"` member, and the line after it carries none and has `result: true`
and `error: null`; yet `parse_method` returns false for the first line, the
loop ends there, and `auth_stratum` returns false without reading the
answer. -/
theorem auth_stratum_decides_counterexample :
    (json_object_get line_unknown.val "method").isSome = true
    ∧ (json_object_get line_authorized.val "method").isNone = true
    ∧ auth_decision line_authorized.val = true
    ∧ (auth_stratum "cgminer/2.9.1" pool_worker 0 1 [{ sent := 67 }]
        [some line_unknown, some line_authorized]).ret = some false
    ∧ (auth_stratum "cgminer/2.9.1" pool_worker 0 1 [{ sent := 67 }]
        [some line_unknown]).ret = some false := by
  decide

/-! ## bitforce_scanhash: the polling flag -/

theorem send_work_polling (ob : List Nat) (dev : Bitforce) (work : Work)
    (script : List UsbReply) :
    (bitforce_send_work ob dev work script).dev.polling = dev.polling := by
  rcases send_work_dev ob work _ script dev (le_refl _) with h | ⟨_, h⟩
  · rw [h]
  · rw [h]; rfl

/-- C39. For a device with `polling` off on entry, whatever the device
answers and whether or not the restart wait is interrupted, `polling` is off
when `bitforce_scanhash` returns: after an interrupted wait, after a failed
send, and after every return of `bitforce_get_result`. -/
theorem scanhash_polling (dev : Bitforce) (s : Scan) (hp : dev.polling = false)
    (hret : (bitforce_scanhash dev s).ret ≠ none) :
    (bitforce_scanhash dev s).dev.polling = false := by
  have hs := send_work_polling s.ob dev s.work s.usb
  rw [hp] at hs
  revert hret
  unfold bitforce_scanhash
  simp only
  cases (bitforce_send_work s.ob dev s.work s.usb).ret with
  | none =>
    intro h
    exact absurd rfl h
  | some send_ret =>
    simp only
    cases s.restart_wait with
    | false =>
      intro _
      exact hs
    | true =>
      simp only [Bool.not_true, Bool.false_eq_true, if_false]
      cases send_ret with
      | false =>
        intro _
        exact hs
      | true =>
        simp only [if_true]
        split
        · intro h
          exact absurd rfl h
        · intro _
          split_ifs <;> rfl

set_option maxRecDepth 100000 in
/-- Witness of C39: the scan answered `NO-NONCE` at the first poll, the scan
whose frame write fails, and the scan whose restart wait is interrupted all
return with `polling` off. -/
theorem scanhash_polling_witness :
    (bitforce_scanhash (bitforce_detect_one true) (quiet_scan 68 0)).dev.polling = false
    ∧ (bitforce_scanhash (bitforce_detect_one true) failed_scan).dev.polling = false
    ∧ (bitforce_scanhash (bitforce_detect_one true)
        { quiet_scan 68 0 with restart_wait := false }).dev.polling = false :=
  ⟨scanhash_polling (bitforce_detect_one true) (quiet_scan 68 0) rfl (by decide),
   scanhash_polling (bitforce_detect_one true) failed_scan rfl (by decide),
   scanhash_polling (bitforce_detect_one true) { quiet_scan 68 0 with restart_wait := false }
     rfl (by decide)⟩

/-! ## bitforce_initialise and the device mutex -/

/-- C33 (amended). `bitforce_initialise` called with the lock flag set takes
the device mutex before the first FTDI transfer and releases it after the
last, so it is to be called with the mutex not held; called with the flag
clear it makes the seven transfers and does not touch the mutex, so the caller
is to hold it.  `bitforce_get_temp` calls it with the flag set after it
released the mutex. -/
theorem initialise_locks :
    bitforce_initialise true = [Effect.mutex_lock] ++ ftdi_sequence ++ [Effect.mutex_unlock]
    ∧ bitforce_initialise false = ftdi_sequence
    ∧ mutex_run false (bitforce_initialise true) = some false
    ∧ mutex_run true (bitforce_initialise false) = some true
    ∧ mutex_run false (bitforce_get_temp (fun _ => 0) (fun _ => 0) {} true
        [⟨0, 3, []⟩, ⟨0, 4, "XYZ\n".toList⟩]).trace = some false := by
  decide

/-- Counterexample to C33 as stated: called with the lock flag set,
`bitforce_initialise` does lock the mutex, as its first step; if the caller
held it, this would be a lock of a held mutex.  Called with the flag clear it
takes no lock, and its transfers are made without the mutex unless the caller
holds it. -/
theorem initialise_locks_counterexample :
    (bitforce_initialise true).head? = some Effect.mutex_lock
    ∧ mutex_run true (bitforce_initialise true) = none
    ∧ Effect.mutex_lock ∉ bitforce_initialise false
    ∧ mutex_run false (bitforce_initialise false) = none := by
  decide

/-! ## bitforce_send_work and the device mutex -/

theorem mutex_run_append : ∀ (a b : List Effect) (held : Bool),
    mutex_run held (a ++ b) = (mutex_run held a).bind (fun h => mutex_run h b) := by
  intro a
  induction a with
  | nil =>
    intro b held
    rfl
  | cons e t ih =>
    intro b held
    cases e <;> cases held <;> simp [mutex_run, ih] <;> split_ifs <;> rfl

theorem send_frame_mutex (ob : List Nat) (dev : Bitforce) (work : Work)
    (rest : List UsbReply) :
    ∃ held, mutex_run true (send_frame ob dev work rest).trace = some held
      ∧ ((send_frame ob dev work rest).ret ≠ none → held = false) := by
  match rest with
  | [] => exact ⟨true, rfl, fun h => absurd rfl h⟩
  | [w] =>
    simp only [send_frame]
    by_cases c1 : w.err < 0 ∨ w.amount ≠ ((build_frame ob dev work).2.1 : Int)
    · simp only [c1, if_true]
      exact ⟨false, rfl, fun _ => rfl⟩
    · simp only [c1, if_false]
      exact ⟨true, rfl, fun h => absurd rfl h⟩
  | w :: r :: more =>
    simp only [send_frame]
    split_ifs <;> exact ⟨false, rfl, fun _ => rfl⟩

theorem send_work_mutex (ob : List Nat) (work : Work) : ∀ (n : Nat)
    (script : List UsbReply) (dev : Bitforce), script.length ≤ n →
    ∃ held, mutex_run false (bitforce_send_work ob dev work script).trace = some held
      ∧ ((bitforce_send_work ob dev work script).ret ≠ none → held = false) := by
  intro n
  induction n using Nat.strong_induction_on with
  | _ n ih =>
    intro script dev hl
    match script, hl with
    | [], _ => exact ⟨true, rfl, fun h => absurd rfl h⟩
    | [w], _ =>
      simp only [bitforce_send_work]
      by_cases c1 : w.err < 0 ∨ w.amount ≠ 3
      · simp only [c1, if_true]
        exact ⟨false, rfl, fun _ => rfl⟩
      · simp only [c1, if_false]
        exact ⟨true, rfl, fun h => absurd rfl h⟩
    | w :: r :: rest, hl =>
      have hrest : rest.length ≤ n - 2 := by
        simp only [List.length_cons] at hl
        omega
      have hlt : n - 2 < n := by
        simp only [List.length_cons] at hl
        omega
      rcases round_cases w r with h | h | h | h
      · rw [bitforce_send_work]
        by_cases c1 : w.err < 0 ∨ w.amount ≠ 3
        · rw [if_pos c1]
          exact ⟨false, rfl, fun _ => rfl⟩
        · have c2 : r.err < 0 := h.resolve_left c1
          rw [if_neg c1, if_pos c2]
          exact ⟨false, rfl, fun _ => rfl⟩
      · rw [send_work_busy_round ob dev work w r rest h]
        obtain ⟨held, h1, h2⟩ := ih (n - 2) hlt rest dev hrest
        refine ⟨held, ?_, h2⟩
        simp only [SendResult.after]
        rw [mutex_run_append]
        exact h1
      · by_cases hr : dev.nonce_range = true
        · rw [send_work_refuse_round_range ob dev work w r rest h hr]
          obtain ⟨held, h1, h2⟩ := ih (n - 2) hlt rest (downgrade dev) hrest
          refine ⟨held, ?_, h2⟩
          simp only [SendResult.after]
          rw [mutex_run_append]
          exact h1
        · rw [send_work_refuse_round_plain ob dev work w r rest h (by simpa using hr)]
          exact ⟨false, rfl, fun _ => rfl⟩
      · rw [send_work_accept_round ob dev work w r rest h]
        obtain ⟨held, h1, h2⟩ := send_frame_mutex ob dev work rest
        refine ⟨held, ?_, h2⟩
        simp only [SendResult.after]
        rw [mutex_run_append]
        exact h1

/-- C34. With the device mutex as a held / not held flag, not held when
`bitforce_send_work` is entered: for every sequence of answers of the device
the trace of the call keeps the discipline of `mutex_run` (every `usb_write`
and `usb_ftdi_read_nl` is made with the mutex held, it is never locked while
held nor unlocked while not held, so each pass through `re_send` releases it
before the next one takes it), and when the call returns the mutex is not
held. -/
theorem send_work_mutex_discipline (ob : List Nat) (dev : Bitforce) (work : Work)
    (script : List UsbReply) :
    ∃ held, mutex_run false (bitforce_send_work ob dev work script).trace = some held
      ∧ ((bitforce_send_work ob dev work script).ret ≠ none → held = false) :=
  send_work_mutex ob work script.length script dev (le_refl _)

/-! ## Transient read outcomes and the hardware-error counter -/

theorem send_work_hw_errors (ob : List Nat) (dev : Bitforce) (work : Work)
    (script : List UsbReply) :
    (bitforce_send_work ob dev work script).dev.hw_errors = dev.hw_errors := by
  rcases send_work_dev ob work _ script dev (le_refl _) with h | ⟨_, h⟩
  · rw [h]
  · rw [h]; rfl

theorem get_result_transient (nonce0 : Nat) (work : Work) : ∀ (polls : List Poll)
    (dev : Bitforce), (∀ q ∈ polls, q.amount ≤ 0 ∨ peek q.buf = NUL) →
    (bitforce_get_result nonce0 dev work polls).dev.hw_errors = dev.hw_errors := by
  intro polls
  induction polls with
  | nil =>
    intro dev _
    rfl
  | cons p rest ih =>
    intro dev h
    have hp := h p (by simp)
    have c3 : ¬ (p.amount > 0 ∧ peek p.buf ≠ NUL ∧ strncasecmp_eq p.buf "B".toList 1 = false) := by
      intro hc
      rcases hp with hp | hp
      · omega
      · exact hc.2.1 hp
    rw [bitforce_get_result]
    by_cases c1 : p.work_restart = true
    · rw [if_pos c1]
    · rw [if_neg c1]
      simp only
      by_cases c2 : p.elapsed_sec ≥ 30
      · rw [if_pos c2]
      · rw [if_neg c2, if_neg c3]
        exact ih _ (fun q hq => h q (by simp [hq]))

/-- C31 (amended). A transient outcome of a read (a timeout, an error or an
empty reply) leaves the hardware-error counter unchanged in
`bitforce_send_work`, which never changes it, and in `bitforce_get_result`,
whose polls that bring nothing only add to `wait_ms`; in `bitforce_get_temp`
a read that fails or brings nothing (`err < 0` or `amount < 1`) increments the
counter by exactly 1 and the call returns false, with the stored temperature
unchanged. -/
theorem transient_read_hw_errors (ob : List Nat) (nonce0 : Nat) (dev : Bitforce)
    (work : Work) (script : List UsbReply) (polls : List Poll)
    (strtof strtod : List Char → Rat) (w r : UsbReply) (rest : List UsbReply)
    (hpolls : ∀ q ∈ polls, q.amount ≤ 0 ∨ peek q.buf = NUL)
    (hp : dev.polling = false) (hf : dev.flash_led = false)
    (hw : 0 ≤ w.err ∧ w.amount = 3) (hr : r.err < 0 ∨ r.amount < 1) :
    (bitforce_send_work ob dev work script).dev.hw_errors = dev.hw_errors
    ∧ (bitforce_get_result nonce0 dev work polls).dev.hw_errors = dev.hw_errors
    ∧ bitforce_get_temp strtof strtod dev true (w :: r :: rest)
        = ⟨some false, { dev with hw_errors := dev.hw_errors + 1 },
            [Effect.mutex_trylock true, Effect.usb_write (ascii "ZLX"), Effect.usb_read,
              Effect.mutex_unlock]⟩ := by
  refine ⟨send_work_hw_errors ob dev work script,
    get_result_transient nonce0 work polls dev hpolls, ?_⟩
  have c1 : ¬ (w.err < 0 ∨ w.amount ≠ 3) := by
    intro h
    rcases h with h | h
    · omega
    · exact h hw.2
  unfold bitforce_get_temp
  simp only [hp, hf, c1, hr, if_false, if_true, Bool.not_true, Bool.false_eq_true]
  rfl

/-- Witness of C31: three polls that bring nothing leave the counter at 3;
a temperature read that brings nothing takes it to 4. -/
theorem transient_read_hw_errors_witness :
    (bitforce_get_result 0 dev_cutoff ⟨[], [], 0⟩
        [⟨false, 0, [], 1⟩, ⟨false, 0, [], 1⟩, ⟨false, 0, [], 1⟩]).dev.hw_errors = 3
    ∧ (bitforce_get_temp (fun _ => 0) (fun _ => 0) dev_cutoff true
        [⟨0, 3, []⟩, ⟨0, 0, []⟩]).dev.hw_errors = 4 := by
  have h := transient_read_hw_errors [] 0 dev_cutoff ⟨[], [], 0⟩ []
    [⟨false, 0, [], 1⟩, ⟨false, 0, [], 1⟩, ⟨false, 0, [], 1⟩] (fun _ => 0) (fun _ => 0)
    ⟨0, 3, []⟩ ⟨0, 0, []⟩ [] (by decide) rfl rfl (by decide) (by decide)
  exact ⟨h.2.1, by rw [h.2.2]; rfl⟩

/-- Counterexample to C31 as stated: in `bitforce_get_temp` an empty reply
(`amount = 0`) and a read that times out (`err = -7`) each take the
hardware-error counter from 3 to 4. -/
theorem transient_read_hw_errors_counterexample :
    (bitforce_get_temp (fun _ => 0) (fun _ => 0) dev_cutoff true
        [⟨0, 3, []⟩, ⟨0, 0, []⟩]).dev.hw_errors = dev_cutoff.hw_errors + 1
    ∧ (bitforce_get_temp (fun _ => 0) (fun _ => 0) dev_cutoff true
        [⟨0, 3, []⟩, ⟨-7, 0, []⟩]).dev.hw_errors = dev_cutoff.hw_errors + 1 := by
  decide

/-! ## bitforce_get_result: wait_ms along the poll loop -/

theorem wait_after_mod : ∀ (busy : List Poll) (w : Nat),
    wait_after (w % 2 ^ 32) busy = wait_after w busy % 2 ^ 32
      ∧ wait_after w busy % 2 ^ 32
        = (w + 100 * busy.countP (fun q => peek q.buf == NUL)
            + 10 * busy.countP (fun q => peek q.buf != NUL)) % 2 ^ 32 := by
  intro busy
  induction busy with
  | nil =>
    intro w
    simp [wait_after]
  | cons q rest ih =>
    intro w
    have hd : poll_delay q = if (peek q.buf == NUL) = true then 100 else 10 := by
      unfold poll_delay
      by_cases h : peek q.buf = NUL
      · simp [h]
      · simp [h]
    have e1 : (w % 2 ^ 32 + poll_delay q) % 2 ^ 32 = (w + poll_delay q) % 2 ^ 32 := by
      omega
    obtain ⟨i1, i2⟩ := ih (w + poll_delay q)
    simp only [wait_after, e1, i1, Nat.mod_mod, List.countP_cons]
    refine ⟨trivial, ?_⟩
    rw [i2, hd]
    by_cases h : (peek q.buf == NUL) = true
    · have h2 : (peek q.buf != NUL) = false := by simp [bne, h]
      simp only [h, h2, if_true, Bool.false_eq_true, if_false]
      congr 1
      omega
    · have h2 : (peek q.buf != NUL) = true := by
        simp only [Bool.not_eq_true] at h
        simp [bne, h]
      simp only [h, h2, if_true, Bool.false_eq_true, if_false]
      congr 1
      omega

/-- C32. If the poll loop of `bitforce_get_result` reads `e` replies that are
empty and `b` non-empty replies that start with `B` or `b` (none with a
restart pending or past the long timeout) before a reply `p` that is non-empty
and does not start with `B` or `b`, the loop ends at `p`, no nonce was
submitted before, and the `wait_ms` with which `p` is classified is the
`wait_ms` at entry plus `100 * e + 10 * b`, modulo `2^32` as `wait_ms` is an
`unsigned int`, so exactly that sum when it is below `2^32`. -/
theorem poll_loop_wait (nonce0 : Nat) (dev : Bitforce) (work : Work)
    (busy : List Poll) (p : Poll) (rest : List Poll)
    (hbusy : ∀ q ∈ busy, q.work_restart = false ∧ q.elapsed_sec < 30
      ∧ (peek q.buf = NUL ∨ strncasecmp_eq q.buf "B".toList 1 = true))
    (hend : ends_polling p) (hw : dev.wait_ms < 2 ^ 32) :
    (∃ pre : List Effect, submitted pre = []
        ∧ bitforce_get_result nonce0 dev work (busy ++ p :: rest)
          = (classify nonce0
              { dev with wait_ms :=
                  (dev.wait_ms + 100 * busy.countP (fun q => peek q.buf == NUL)
                    + 10 * busy.countP (fun q => peek q.buf != NUL)) % 2 ^ 32 }
              work p).after pre)
    ∧ (dev.wait_ms + 100 * busy.countP (fun q => peek q.buf == NUL)
          + 10 * busy.countP (fun q => peek q.buf != NUL) < 2 ^ 32 →
        wait_after dev.wait_ms busy
          = dev.wait_ms + 100 * busy.countP (fun q => peek q.buf == NUL)
              + 10 * busy.countP (fun q => peek q.buf != NUL)) := by
  have hk : ∀ q ∈ busy, keeps_polling q := by
    intro q hq
    obtain ⟨h1, h2, h3⟩ := hbusy q hq
    refine ⟨h1, h2, ?_⟩
    intro hc
    rcases h3 with h3 | h3
    · exact hc.2.1 h3
    · rw [h3] at hc
      exact absurd hc.2.2 (by decide)
  have hlt := wait_after_lt busy dev.wait_ms hw
  have hm := (wait_after_mod busy dev.wait_ms).2
  rw [Nat.mod_eq_of_lt hlt] at hm
  obtain ⟨pre, hpre, hrun⟩ := get_result_polls_wait nonce0 work p rest hend busy dev hk
  constructor
  · refine ⟨pre, hpre, ?_⟩
    rw [hrun, hm]
  · intro hsum
    rw [hm, Nat.mod_eq_of_lt hsum]

set_option maxRecDepth 100000 in
/-- Witness of C32: from `wait_ms = 500`, two empty replies and the replies
`BUSY` and `busy` give 500 + 200 + 20; the reply `NO-NONCE` ends the loop and
the tuning step, seeing 720 against `sleep_ms = 500`, sets `sleep_ms` to
610. -/
theorem poll_loop_wait_witness :
    wait_after dev_ranged.wait_ms
        [⟨false, 0, [], 1⟩, ⟨false, 5, "BUSY\n".toList, 1⟩, ⟨false, 0, [], 2⟩,
         ⟨false, 5, "busy\n".toList, 2⟩] = 500 + 100 * 2 + 10 * 2
    ∧ (bitforce_get_result 0 dev_ranged ⟨[], [], 0⟩
        ([⟨false, 0, [], 1⟩, ⟨false, 5, "BUSY\n".toList, 1⟩, ⟨false, 0, [], 2⟩,
          ⟨false, 5, "busy\n".toList, 2⟩] ++ ⟨false, 9, "NO-NONCE\n".toList, 2⟩ :: [])).dev
      = { dev_ranged with wait_ms := 720, sleep_ms := 610 } :=
  ⟨(poll_loop_wait 0 dev_ranged ⟨[], [], 0⟩
      [⟨false, 0, [], 1⟩, ⟨false, 5, "BUSY\n".toList, 1⟩, ⟨false, 0, [], 2⟩,
       ⟨false, 5, "busy\n".toList, 2⟩] ⟨false, 9, "NO-NONCE\n".toList, 2⟩ []
      (by decide) (by decide) (by decide)).2 (by decide),
   by decide⟩

/-! ## bitforce_get_result: the reply at the break -/

theorem not_b_first_byte (buf : List Char)
    (h : strncasecmp_eq buf "B".toList 1 = false) : peek buf ≠ 'B' ∧ peek buf ≠ 'b' := by
  have e : "B".toList = ['B'] := rfl
  rw [e] at h
  unfold strncasecmp_eq at h
  constructor
  · intro hc
    rw [hc] at h
    exact absurd h (by unfold strncasecmp_eq; decide)
  · intro hc
    rw [hc] at h
    exact absurd h (by unfold strncasecmp_eq; decide)

/-- C38. When the poll loop of `bitforce_get_result` is left through its
`break` at the reply `p` (after any number of passes that kept polling), the
read returned `amount > 0` and a first byte that is not NUL, `B` or `b`; so
the test `amount == 0` made after the over-heat report is never true there,
`classify` is `classify_reply`, and the call is the classification of the
reply, also for a reply read more than 7 s and less than 30 s after the work
started, for which the over-heat error is recorded first. -/
theorem get_result_break (nonce0 : Nat) (dev : Bitforce) (work : Work)
    (busy : List Poll) (p : Poll) (rest : List Poll)
    (hbusy : ∀ q ∈ busy, keeps_polling q) (hend : ends_polling p) :
    p.amount > 0 ∧ peek p.buf ≠ NUL ∧ peek p.buf ≠ 'B' ∧ peek p.buf ≠ 'b'
    ∧ ¬ (p.elapsed_sec > 7 ∧ p.amount = 0)
    ∧ (∀ d : Bitforce, classify nonce0 d work p = classify_reply nonce0 d work p)
    ∧ (∃ pre : List Effect, submitted pre = []
        ∧ bitforce_get_result nonce0 dev work (busy ++ p :: rest)
          = (classify_reply nonce0 { dev with wait_ms := wait_after dev.wait_ms busy }
              work p).after pre)
    ∧ (p.elapsed_sec > 7 →
        ∀ d : Bitforce, (classify_reply nonce0 d work p).trace.head?
          = some (Effect.dev_error Reason.over_heat)) := by
  obtain ⟨hr, ht, ha, hn, hb⟩ := hend
  have hB := not_b_first_byte p.buf hb
  have c0 : ¬ (p.elapsed_sec > 7 ∧ p.amount = 0) := by
    intro hc
    omega
  have hcl : ∀ d : Bitforce, classify nonce0 d work p = classify_reply nonce0 d work p := by
    intro d
    unfold classify classify_reply
    rw [if_neg c0]
  obtain ⟨pre, hpre, hrun⟩ :=
    get_result_polls_wait nonce0 work p rest ⟨hr, ht, ha, hn, hb⟩ busy dev hbusy
  refine ⟨ha, hn, hB.1, hB.2, c0, hcl, ⟨pre, hpre, ?_⟩, ?_⟩
  · rw [hrun, hcl]
  · intro h7 d
    unfold classify_reply
    simp only [h7, if_true]
    split_ifs <;> rfl

set_option maxRecDepth 100000 in
/-- Witness of C38: a `NO-NONCE` read 8 s after the work started is
classified: the over-heat error is recorded and the call returns `nonces`. -/
theorem get_result_break_witness :
    (∃ pre : List Effect, submitted pre = []
      ∧ bitforce_get_result 0 dev_ranged ⟨[], [], 0⟩
          ([⟨false, 5, "BUSY\n".toList, 7⟩] ++ ⟨false, 9, "NO-NONCE\n".toList, 8⟩ :: [])
        = (classify_reply 0
            { dev_ranged with
              wait_ms := wait_after dev_ranged.wait_ms [⟨false, 5, "BUSY\n".toList, 7⟩] }
            ⟨[], [], 0⟩ ⟨false, 9, "NO-NONCE\n".toList, 8⟩).after pre)
    ∧ bitforce_get_result 0 dev_ranged ⟨[], [], 0⟩
        ([⟨false, 5, "BUSY\n".toList, 7⟩] ++ ⟨false, 9, "NO-NONCE\n".toList, 8⟩ :: [])
      = ⟨some 0x33333332, { dev_ranged with wait_ms := 510 }, ⟨[], [], 0⟩,
          [Effect.mutex_lock, Effect.usb_write (ascii "ZFX"), Effect.usb_read,
            Effect.mutex_unlock, Effect.nmsleep 10,
            Effect.mutex_lock, Effect.usb_write (ascii "ZFX"), Effect.usb_read,
            Effect.mutex_unlock, Effect.dev_error Reason.over_heat]⟩ :=
  ⟨(get_result_break 0 dev_ranged ⟨[], [], 0⟩ [⟨false, 5, "BUSY\n".toList, 7⟩]
      ⟨false, 9, "NO-NONCE\n".toList, 8⟩ [] (by decide) (by decide)).2.2.2.2.2.2.1,
   by decide⟩

/-! ## bitforce_scanhash: wait_ms against sleep_ms at the tuning step -/

theorem wait_after_bounds : ∀ (busy : List Poll) (w : Nat),
    w + 100 * busy.length < 2 ^ 32 →
    w ≤ wait_after w busy ∧ wait_after w busy ≤ w + 100 * busy.length := by
  intro busy
  induction busy with
  | nil =>
    intro w _
    simp [wait_after]
  | cons q rest ih =>
    intro w h
    have hd : poll_delay q = 10 ∨ poll_delay q = 100 := by
      unfold poll_delay
      split_ifs
      · left; rfl
      · right; rfl
    simp only [List.length_cons] at h ⊢
    have hm : (w + poll_delay q) % 2 ^ 32 = w + poll_delay q := Nat.mod_eq_of_lt (by omega)
    simp only [wait_after, hm]
    obtain ⟨i1, i2⟩ := ih (w + poll_delay q) (by omega)
    constructor <;> omega

theorem tune_sleep_bounds (d : Bitforce) (hle : d.sleep_ms ≤ d.wait_ms)
    (hw : d.wait_ms < 2 ^ 32) (hs : d.sleep_ms + 100 < 2 ^ 32) :
    (tune_sleep d).sleep_ms ≤ d.wait_ms
    ∧ (d.sleep_ms < d.wait_ms ∧ d.wait_ms ≤ d.sleep_ms + 100 →
        (tune_sleep d).sleep_ms = d.sleep_ms) := by
  have hm : (d.sleep_ms + 50 * 2) % 2 ^ 32 = d.sleep_ms + 100 := Nat.mod_eq_of_lt (by omega)
  have hsub : sub32 d.wait_ms d.sleep_ms = d.wait_ms - d.sleep_ms := by
    unfold sub32
    rw [Nat.mod_eq_of_lt hw, Nat.mod_eq_of_lt (by omega : d.sleep_ms < 2 ^ 32)]
    omega
  unfold tune_sleep
  rw [hm, hsub]
  constructor
  · split_ifs with c1 c2 c3 c4
    · have hm2 : (d.sleep_ms + (d.wait_ms - d.sleep_ms) / 2) % 2 ^ 32
          = d.sleep_ms + (d.wait_ms - d.sleep_ms) / 2 := Nat.mod_eq_of_lt (by omega)
      simp only [hm2]
      omega
    · simp only
      omega
    · simp only
      omega
    · exact hle
    · exact hle
  · intro h
    have c1 : ¬ d.wait_ms > d.sleep_ms + 100 := by omega
    have c2 : ¬ d.wait_ms = d.sleep_ms := by omega
    rw [if_neg c1, if_neg c2]

theorem classify_ret_some (nonce0 : Nat) (dev : Bitforce) (work : Work) (p : Poll) :
    ∃ v : Int, (classify nonce0 dev work p).ret = some v ∧ 0 ≤ v := by
  have h := classify_ret_nonneg nonce0 dev work p
  cases hc : (classify nonce0 dev work p).ret with
  | some v => exact ⟨v, rfl, h v hc⟩
  | none =>
    exfalso
    revert hc
    unfold classify
    simp only
    split_ifs <;> simp

/-- C37. In a scan run by `bitforce_scanhash` whose send succeeds and whose
restart wait runs its full time, with `d` the device at the tuning step of
`bitforce_get_result` (after the polls `busy` that kept polling, few enough
for `wait_ms` not to pass `2^32`): the scan leaves the device that `classify`
makes of `d` at the reply that ends the loop, with `polling` off;
`d.wait_ms >= d.sleep_ms`; the tuned `sleep_ms` is at most `d.wait_ms`; and if
`sleep_ms < wait_ms <= sleep_ms + 100` the tuning step leaves `sleep_ms` as it
is. -/
theorem scan_tuning_bounds (dev : Bitforce) (s : Scan) (busy : List Poll) (p : Poll)
    (rest : List Poll)
    (hsend : (bitforce_send_work s.ob dev s.work s.usb).ret = some true)
    (hwait : s.restart_wait = true)
    (hpolls : s.polls = busy ++ p :: rest)
    (hbusy : ∀ q ∈ busy, keeps_polling q) (hend : ends_polling p)
    (hfew : (bitforce_send_work s.ob dev s.work s.usb).dev.sleep_ms
      + 100 * (busy.length + 1) < 2 ^ 32) :
    (bitforce_scanhash dev s).dev
        = { (classify s.nonce0 (scan_tuning_dev dev s busy)
              (bitforce_send_work s.ob dev s.work s.usb).work p).dev with polling := false }
    ∧ (scan_tuning_dev dev s busy).sleep_ms ≤ (scan_tuning_dev dev s busy).wait_ms
    ∧ (tune_sleep (scan_tuning_dev dev s busy)).sleep_ms ≤ (scan_tuning_dev dev s busy).wait_ms
    ∧ ((scan_tuning_dev dev s busy).sleep_ms < (scan_tuning_dev dev s busy).wait_ms
        ∧ (scan_tuning_dev dev s busy).wait_ms ≤ (scan_tuning_dev dev s busy).sleep_ms + 100 →
        (tune_sleep (scan_tuning_dev dev s busy)).sleep_ms
          = (scan_tuning_dev dev s busy).sleep_ms) := by
  have hb := wait_after_bounds busy (bitforce_send_work s.ob dev s.work s.usb).dev.sleep_ms
    (by omega)
  have hle : (scan_tuning_dev dev s busy).sleep_ms ≤ (scan_tuning_dev dev s busy).wait_ms :=
    hb.1
  have hw : (scan_tuning_dev dev s busy).wait_ms < 2 ^ 32 := by
    have : (scan_tuning_dev dev s busy).wait_ms
        = wait_after (bitforce_send_work s.ob dev s.work s.usb).dev.sleep_ms busy := rfl
    rw [this]
    omega
  have hs : (scan_tuning_dev dev s busy).sleep_ms + 100 < 2 ^ 32 := by
    have : (scan_tuning_dev dev s busy).sleep_ms
        = (bitforce_send_work s.ob dev s.work s.usb).dev.sleep_ms := rfl
    rw [this]
    omega
  obtain ⟨t1, t2⟩ := tune_sleep_bounds (scan_tuning_dev dev s busy) hle hw hs
  refine ⟨?_, hle, t1, t2⟩
  obtain ⟨pre, -, hrun⟩ := get_result_polls_wait s.nonce0
    (bitforce_send_work s.ob dev s.work s.usb).work p rest hend busy
    { (bitforce_send_work s.ob dev s.work s.usb).dev with
      wait_ms := (bitforce_send_work s.ob dev s.work s.usb).dev.sleep_ms,
      polling := true } hbusy
  have hgr : bitforce_get_result s.nonce0
      { (bitforce_send_work s.ob dev s.work s.usb).dev with
        wait_ms := (bitforce_send_work s.ob dev s.work s.usb).dev.sleep_ms,
        polling := true }
      (bitforce_send_work s.ob dev s.work s.usb).work s.polls
      = (classify s.nonce0 (scan_tuning_dev dev s busy)
          (bitforce_send_work s.ob dev s.work s.usb).work p).after pre := by
    rw [hpolls, hrun]
    rfl
  obtain ⟨v, hv, hv0⟩ := classify_ret_some s.nonce0 (scan_tuning_dev dev s busy)
    (bitforce_send_work s.ob dev s.work s.usb).work p
  have hne : v ≠ -1 := by omega
  unfold bitforce_scanhash
  simp only [hsend, hwait, Bool.not_true, Bool.false_eq_true, if_false, if_true, hgr,
    GetResult.after, hv, hne]

set_option maxRecDepth 1000000 in
/-- Witness of C37: from detection with nonce-range, a scan with three `BUSY`
polls reaches the tuning step with `sleep_ms = 500` and `wait_ms = 530`, and
the scan leaves `sleep_ms` at 500. -/
theorem scan_tuning_bounds_witness :
    (scan_tuning_dev (bitforce_detect_one true) (quiet_scan 68 3)
        (List.replicate 3 ⟨false, 5, "BUSY\n".toList, 1⟩)).wait_ms = 530
    ∧ (tune_sleep (scan_tuning_dev (bitforce_detect_one true) (quiet_scan 68 3)
        (List.replicate 3 ⟨false, 5, "BUSY\n".toList, 1⟩))).sleep_ms
      = (scan_tuning_dev (bitforce_detect_one true) (quiet_scan 68 3)
        (List.replicate 3 ⟨false, 5, "BUSY\n".toList, 1⟩)).sleep_ms
    ∧ (bitforce_scanhash (bitforce_detect_one true) (quiet_scan 68 3)).dev.sleep_ms = 500 :=
  ⟨by decide,
   (scan_tuning_bounds (bitforce_detect_one true) (quiet_scan 68 3)
      (List.replicate 3 ⟨false, 5, "BUSY\n".toList, 1⟩) ⟨false, 9, "NO-NONCE\n".toList, 1⟩ []
      (by decide) rfl rfl (by decide) (by decide) (by decide)).2.2.2 (by decide),
   by decide⟩

/-! ## Five consecutive nonce ranges -/

theorem load_be32_store (x : Nat) (rest : List Nat) :
    load_be32 (store_be32 x ++ rest) = x % 2 ^ 32 := by
  unfold load_be32 store_be32
  simp only [List.cons_append, List.nil_append, List.getD_cons_zero, List.getD_cons_succ]
  omega

theorem send_frame_succeeds (ob : List Nat) (dev : Bitforce) (work : Work)
    (fw fr : UsbReply) (rest : List UsbReply)
    (h1 : 0 ≤ fw.err) (h2 : fw.amount = ((build_frame ob dev work).2.1 : Int))
    (h3 : 0 ≤ fr.err) (h4 : fr.amount ≠ 0) (h5 : peek fr.buf ≠ NUL)
    (h6 : strncasecmp_eq fr.buf "OK".toList 2 = true) :
    (send_frame ob dev work (fw :: fr :: rest)).ret = some true := by
  have c1 : ¬ (fw.err < 0 ∨ fw.amount ≠ ((build_frame ob dev work).2.1 : Int)) := by
    intro h
    rcases h with h | h
    · omega
    · exact h h2
  have c2 : ¬ fr.err < 0 := by omega
  have c3 : ¬ (fr.amount = 0 ∨ peek fr.buf = NUL) := by
    intro h
    rcases h with h | h
    · exact h4 h
    · exact h5 h
  simp only [send_frame, c1, c2, c3, h6, if_false, Bool.not_true, Bool.false_eq_true]

theorem send_work_range_call (ob : List Nat) (dev : Bitforce) (work : Work)
    (sc : List UsbReply)
    (hob : ob.length = 70) (hm : work.midstate.length = 32) (hd : work.data.length = 128)
    (hr : dev.nonce_range = true) (hs : send_succeeds 68 sc) :
    (bitforce_send_work ob dev work sc).ret = some true
    ∧ encoded_range (bitforce_send_work ob dev work sc)
        = (work.nonce % 2 ^ 32, (work.nonce + 0x33333332) % 2 ^ 32)
    ∧ (bitforce_send_work ob dev work sc).dev = { dev with nonces := 0x33333332 }
    ∧ (bitforce_send_work ob dev work sc).work
        = { work with nonce := (work.nonce + 0x33333333) % 2 ^ 32 } := by
  obtain ⟨busy, w, r, fw, fr, rest, hsc, hbusy, hacc, f1, f2, f3, f4, f5, f6⟩ := hs
  obtain ⟨b1, b2, b3, b4⟩ := build_frame_range ob dev work hob hm hd hr
  obtain ⟨a1, a2, a3⟩ := send_work_accepted ob dev work busy w r (fw :: fr :: rest) hbusy hacc
  subst hsc
  refine ⟨?_, ?_, by rw [a2, b3], by rw [a3, b4]⟩
  · obtain ⟨pre, -, hrun⟩ := send_work_through_busy ob dev work (w :: r :: fw :: fr :: rest)
      busy hbusy
    rw [hrun, send_work_accept_round ob dev work w r _ hacc]
    simp only [SendResult.after]
    exact send_frame_succeeds ob dev work fw fr rest f1 (by rw [b1]; exact f2) f3 f4 f5 f6
  · unfold encoded_range
    have hlast : ∀ (l : List (List Nat)) (f : List Nat), (l ++ [f]).getLast?.getD [] = f := by
      intro l f
      simp
    rw [a1, hlast, b1, b2]
    have e52 : (List.replicate 8 0x3E ++ work.midstate ++ (work.data.drop 64).take 12
        ++ store_be32 work.nonce ++ store_be32 ((work.nonce + 0x33333332) % 2 ^ 32)
        ++ List.replicate 8 0x3E).drop 52
        = store_be32 work.nonce ++ (store_be32 ((work.nonce + 0x33333332) % 2 ^ 32)
            ++ List.replicate 8 0x3E) := by
      have hl : (List.replicate 8 0x3E ++ work.midstate ++ (work.data.drop 64).take 12).length
          = 52 := by
        simp only [List.length_append, List.length_replicate, hm, List.length_take,
          List.length_drop, hd]
        rfl
      rw [List.append_assoc, List.append_assoc, ← hl, List.drop_left]
    have e56 : (List.replicate 8 0x3E ++ work.midstate ++ (work.data.drop 64).take 12
        ++ store_be32 work.nonce ++ store_be32 ((work.nonce + 0x33333332) % 2 ^ 32)
        ++ List.replicate 8 0x3E).drop 56
        = store_be32 ((work.nonce + 0x33333332) % 2 ^ 32) ++ List.replicate 8 0x3E := by
      have hl : (List.replicate 8 0x3E ++ work.midstate ++ (work.data.drop 64).take 12
          ++ store_be32 work.nonce).length = 56 := by
        simp only [List.length_append, List.length_replicate, hm, List.length_take,
          List.length_drop, hd, store_be32, List.length_cons, List.length_nil]
        rfl
      rw [List.append_assoc, ← hl, List.drop_left]
    rw [e52, e56, load_be32_store, load_be32_store, Nat.mod_mod]

theorem send_work_chain_ranges (ob : List Nat) (hob : ob.length = 70) :
    ∀ (scripts : List (List UsbReply)) (dev : Bitforce) (work : Work) (k : Nat),
      work.midstate.length = 32 → work.data.length = 128 → dev.nonce_range = true →
      (∀ sc ∈ scripts, send_succeeds 68 sc) →
      work.nonce = k * 0x33333333 % 2 ^ 32 →
      (send_work_chain ob dev work scripts).map
          (fun r => (r.ret, encoded_range r, r.work.nonce))
        = (List.range' k scripts.length).map
            (fun i => (some true,
              (i * 0x33333333 % 2 ^ 32, (i * 0x33333333 + 0x33333332) % 2 ^ 32),
              (i + 1) * 0x33333333 % 2 ^ 32)) := by
  intro scripts
  induction scripts with
  | nil =>
    intro dev work k _ _ _ _ _
    rfl
  | cons sc rest ih =>
    intro dev work k hm hd hr hs hk
    obtain ⟨c1, c2, c3, c4⟩ := send_work_range_call ob dev work sc hob hm hd hr
      (hs sc (by simp))
    have hnext : (bitforce_send_work ob dev work sc).work.nonce
        = (k + 1) * 0x33333333 % 2 ^ 32 := by
      rw [c4, hk]
      simp only
      omega
    have hrec := ih (bitforce_send_work ob dev work sc).dev
      (bitforce_send_work ob dev work sc).work (k + 1)
      (by rw [c4]; exact hm) (by rw [c4]; exact hd) (by rw [c3]; exact hr)
      (fun x hx => hs x (by simp [hx])) hnext
    rw [send_work_chain, List.map_cons, List.length_cons, List.range'_succ, List.map_cons, hrec]
    congr 1
    rw [c1, c2, hnext, hk]
    have e1 : k * 0x33333333 % 2 ^ 32 % 2 ^ 32 = k * 0x33333333 % 2 ^ 32 := by omega
    have e2 : (k * 0x33333333 % 2 ^ 32 + 0x33333332) % 2 ^ 32
        = (k * 0x33333333 + 0x33333332) % 2 ^ 32 := by omega
    rw [e1, e2]

/-- C35. Starting from `work.nonce = 0` with nonce-range on, five consecutive
calls of `bitforce_send_work` that succeed without a refusal return true and
encode, at offsets 52 and 56 of their frames, the ranges
`[k * 0x33333333, k * 0x33333333 + 0x33333332]` for `k = 0..4`, with no
wrap-around; `work.nonce` is `(k + 1) * 0x33333333` after call `k`, so
`0xFFFFFFFF` after the fifth.  The ranges are in increasing order and pairwise
disjoint, and a nonce lies in one of them if and only if it is at most
`0xFFFFFFFE`. -/
theorem five_nonce_ranges (ob : List Nat) (dev : Bitforce) (work : Work)
    (scripts : List (List UsbReply))
    (hob : ob.length = 70) (hm : work.midstate.length = 32) (hd : work.data.length = 128)
    (hr : dev.nonce_range = true) (h0 : work.nonce = 0) (hlen : scripts.length = 5)
    (hs : ∀ sc ∈ scripts, send_succeeds 68 sc) :
    (send_work_chain ob dev work scripts).map (fun r => (r.ret, encoded_range r, r.work.nonce))
      = [(some true, (0, 0x33333332), 0x33333333),
         (some true, (0x33333333, 0x66666665), 0x66666666),
         (some true, (0x66666666, 0x99999998), 0x99999999),
         (some true, (0x99999999, 0xCCCCCCCB), 0xCCCCCCCC),
         (some true, (0xCCCCCCCC, 0xFFFFFFFE), 0xFFFFFFFF)]
    ∧ List.Pairwise (fun x y => x.2 < y.1)
        ((send_work_chain ob dev work scripts).map encoded_range)
    ∧ (∀ n : Nat, (∃ x ∈ (send_work_chain ob dev work scripts).map encoded_range,
          x.1 ≤ n ∧ n ≤ x.2) ↔ n ≤ 0xFFFFFFFE) := by
  have h := send_work_chain_ranges ob hob scripts dev work 0 hm hd hr hs (by rw [h0]; omega)
  rw [hlen] at h
  have hlist : (send_work_chain ob dev work scripts).map
      (fun r => (r.ret, encoded_range r, r.work.nonce))
      = [(some true, (0, 0x33333332), 0x33333333),
         (some true, (0x33333333, 0x66666665), 0x66666666),
         (some true, (0x66666666, 0x99999998), 0x99999999),
         (some true, (0x99999999, 0xCCCCCCCB), 0xCCCCCCCC),
         (some true, (0xCCCCCCCC, 0xFFFFFFFE), 0xFFFFFFFF)] := by
    rw [h]
    decide
  have hranges : (send_work_chain ob dev work scripts).map encoded_range
      = [(0, 0x33333332), (0x33333333, 0x66666665), (0x66666666, 0x99999998),
         (0x99999999, 0xCCCCCCCB), (0xCCCCCCCC, 0xFFFFFFFE)] := by
    have := congrArg (List.map (fun t : Option Bool × (Nat × Nat) × Nat => t.2.1)) hlist
    simpa [List.map_map, Function.comp] using this
  refine ⟨hlist, ?_, ?_⟩
  · rw [hranges]
    decide
  · intro n
    rw [hranges]
    simp only [List.mem_cons, List.mem_singleton, exists_eq_or_imp, exists_eq_left,
      List.not_mem_nil, false_and, exists_false, or_false]
    omega

/-- Witness of C35: five calls answered by a device that accepts the command
and the frame at once. -/
theorem five_nonce_ranges_witness :
    (send_work_chain (List.replicate 70 0) (bitforce_detect_one true)
        ⟨List.replicate 32 0, List.replicate 128 0, 0⟩
        (List.replicate 5 ok_script)).map (fun r => (r.ret, encoded_range r, r.work.nonce))
      = [(some true, (0, 0x33333332), 0x33333333),
         (some true, (0x33333333, 0x66666665), 0x66666666),
         (some true, (0x66666666, 0x99999998), 0x99999999),
         (some true, (0x99999999, 0xCCCCCCCB), 0xCCCCCCCC),
         (some true, (0xCCCCCCCC, 0xFFFFFFFE), 0xFFFFFFFF)] :=
  (five_nonce_ranges (List.replicate 70 0) (bitforce_detect_one true)
    ⟨List.replicate 32 0, List.replicate 128 0, 0⟩ (List.replicate 5 ok_script)
    (by decide) (by decide) (by decide) (by decide) rfl (by decide)
    (fun sc h => by
      rw [List.eq_of_mem_replicate h]
      exact ⟨[], ⟨0, 3, []⟩, ⟨0, 3, "OK\n".toList⟩, ⟨0, 68, []⟩, ⟨0, 3, "OK\n".toList⟩, [],
        rfl, by simp, by decide, by decide, by decide, by decide, by decide, by decide,
        by decide⟩)).1

/-! ## The receive buffer stays two bytes longer than its string -/

theorem cstr_ne_nul (l : List Char) : ∀ c ∈ cstr l, c ≠ NUL := by
  intro c hc
  have := List.mem_takeWhile_imp hc
  simpa using this

theorem strlen_le_length (l : List Char) : strlen l ≤ l.length :=
  (List.takeWhile_sublist _).length_le

theorem take_strlen : ∀ l : List Char, l.take (strlen l) = cstr l
  | [] => rfl
  | c :: t => by
    by_cases h : (c == NUL) = true
    · have e : strlen (c :: t) = 0 := strlen_of_peek_nul _ (by simpa [peek] using h)
      have e2 : cstr (c :: t) = [] := List.length_eq_zero.mp e
      rw [e, e2]
      rfl
    · have h1 : (c == NUL) = false := by simpa using h
      have h2 : (c != NUL) = true := by simp [bne, h1]
      rw [strlen_cons c t h1, List.take_succ_cons, take_strlen t]
      simp [cstr, List.takeWhile, h2]

/-- The byte at offset `strlen` is the terminator (or the end of the modelled
memory). -/
theorem peek_drop_strlen : ∀ l : List Char, peek (l.drop (strlen l)) = NUL
  | [] => rfl
  | c :: t => by
    by_cases h : (c == NUL) = true
    · have e : strlen (c :: t) = 0 := strlen_of_peek_nul _ (by simpa [peek] using h)
      rw [e]
      simpa [peek] using h
    · have h1 : (c == NUL) = false := by simpa using h
      rw [strlen_cons c t h1, List.drop_succ_cons]
      exact peek_drop_strlen t

theorem strlen_append_nul (x y : List Char) : strlen (x ++ NUL :: y) ≤ x.length := by
  induction x with
  | nil => simp [strlen, cstr, List.takeWhile]
  | cons c t ih =>
    by_cases h : (c == NUL) = true
    · have e : strlen (c :: t ++ NUL :: y) = 0 := strlen_of_peek_nul _ (by simpa [peek] using h)
      omega
    · have h1 : (c == NUL) = false := by simpa using h
      rw [List.cons_append, strlen_cons c _ h1, List.length_cons]
      omega

theorem strlen_strcat (dst s : List Char) : strlen (strcat dst s) = strlen dst + strlen s := by
  unfold strcat write_at
  rw [take_strlen]
  have e : cstr dst ++ (cstr s ++ [NUL]) ++ List.drop (strlen dst + (cstr s ++ [NUL]).length) dst
      = (cstr dst ++ cstr s) ++ NUL :: List.drop (strlen dst + (cstr s ++ [NUL]).length) dst := by
    simp
  rw [e]
  unfold strlen
  rw [cstr_stop]
  · simp
  · intro c hc
    rcases List.mem_append.mp hc with h | h
    · exact cstr_ne_nul _ c h
    · exact cstr_ne_nul _ c h

theorem round_up_gt (r n : Nat) (hr : 0 < r) : n < n + (r - n % r) := by
  have := Nat.mod_lt n hr
  omega

theorem round_up_dvd (r n : Nat) (hr : 0 < r) : r ∣ n + (r - n % r) := by
  have h1 := Nat.mod_lt n hr
  have h2 := Nat.div_add_mod n r
  refine ⟨n / r + 1, ?_⟩
  rw [Nat.mul_add, Nat.mul_one]
  omega

theorem recalloc_sock_strlen (rbufsize : Nat) (pool : SockBuf) (len : Nat) (hr : 0 < rbufsize) :
    strlen (recalloc_sock rbufsize pool len).sockbuf = strlen pool.sockbuf := by
  unfold recalloc_sock
  simp only
  split
  · rfl
  · simp only
    have hgt := round_up_gt rbufsize (strlen pool.sockbuf + len + 1) hr
    obtain ⟨k, hk⟩ : ∃ k, strlen pool.sockbuf + len + 1
        + (rbufsize - (strlen pool.sockbuf + len + 1) % rbufsize) - strlen pool.sockbuf = k + 1 :=
      ⟨_, (Nat.succ_pred_eq_of_pos (by omega)).symm⟩
    rw [hk, List.replicate_succ, take_strlen]
    unfold strlen
    rw [cstr_stop _ _ (cstr_ne_nul _)]

/-- After `recalloc_sock(pool, len)` the buffer has room for `len` more
characters, the terminator and one byte behind it; the size has not gone down
and is a multiple of `RBUFSIZE` when it changed. -/
theorem recalloc_sock_size (rbufsize : Nat) (pool : SockBuf) (len : Nat) (hr : 0 < rbufsize) :
    strlen pool.sockbuf + len + 2 ≤ (recalloc_sock rbufsize pool len).sockbuf_size
    ∧ pool.sockbuf_size ≤ (recalloc_sock rbufsize pool len).sockbuf_size
    ∧ ((recalloc_sock rbufsize pool len).sockbuf_size = pool.sockbuf_size
        ∨ rbufsize ∣ (recalloc_sock rbufsize pool len).sockbuf_size) := by
  unfold recalloc_sock
  simp only
  split
  · exact ⟨by omega, le_refl _, Or.inl rfl⟩
  · simp only
    have hgt := round_up_gt rbufsize (strlen pool.sockbuf + len + 1) hr
    exact ⟨by omega, by omega, Or.inr (round_up_dvd _ _ hr)⟩
theorem peek_drop_eq (l : List Char) (b : Nat) : peek (l.drop b) = (l[b]?).getD NUL := by
  unfold peek
  rw [List.headD_eq_head?_getD, List.head?_drop]

/-- A terminator at offset `b` bounds the length of the string. -/
theorem strlen_le_of_peek (m : List Char) (b : Nat) (h : peek (m.drop b) = NUL) :
    strlen m ≤ b := by
  by_cases hb : b < m.length
  · have e : m.drop b = m[b] :: m.drop (b + 1) := List.drop_eq_getElem_cons hb
    rw [e] at h
    simp only [peek, List.headD_cons] at h
    have e2 : m = m.take b ++ NUL :: m.drop (b + 1) := by
      rw [← h, ← e, List.take_append_drop]
    rw [e2]
    refine le_trans (strlen_append_nul _ _) ?_
    simp
  · exact le_trans (strlen_le_length m) (by omega)

theorem write_at_one {α : Type} (buf : List α) (j : Nat) (x : α) (h : j < buf.length) :
    write_at buf j [x] = buf.set j x := by
  unfold write_at
  rw [List.set_eq_take_append_cons_drop, if_pos h]
  simp

theorem peek_drop_set_nul (buf : List Char) (j b : Nat) (h : peek (buf.drop b) = NUL) :
    peek ((buf.set j NUL).drop b) = NUL := by
  rw [peek_drop_eq] at h ⊢
  rw [List.getElem?_set]
  split
  · split <;> simp
  · exact h

theorem lt_length_of_peek (l : List Char) (j : Nat) (c : Char) (hc : c ≠ NUL)
    (h : (peek (l.drop j) == c) = true) : j < l.length := by
  by_contra hn
  rw [List.drop_of_length_le (by omega)] at h
  simp only [peek, List.headD_nil, beq_iff_eq] at h
  exact hc h.symm

/-- The memory `strtok` leaves still has a terminator where the string ended
before. -/
theorem strtok_nl_peek (buf : List Char) :
    peek ((strtok_nl buf).2.drop (strlen buf)) = NUL := by
  unfold strtok_nl
  simp only
  split
  · exact peek_drop_strlen buf
  · split
    · rename_i h
      have hj := lt_length_of_peek buf _ '\n' (by decide) h
      simp only
      rw [write_at_one _ _ _ hj]
      exact peek_drop_set_nul _ _ _ (peek_drop_strlen buf)
    · exact peek_drop_strlen buf

theorem strlen_write_nul (m : List Char) : strlen (write_at m 0 [NUL]) = 0 := by
  apply strlen_of_peek_nul
  simp [write_at, peek]

/-- The string the `memmove` of `recv_line` leaves is not longer than the one
before. -/
theorem memmove_strlen (m : List Char) (b len : Nat) (hb : len + 1 < b)
    (hp : peek (m.drop b) = NUL) :
    strlen (write_at m 0 (mem_read m (len + 1) (b - len + 1))) ≤ b := by
  unfold write_at mem_read
  simp only [List.take_zero, List.nil_append, Nat.zero_add]
  by_cases hl : b < m.length
  · have e : m.drop b = m[b] :: m.drop (b + 1) := List.drop_eq_getElem_cons hl
    have hnul : m[b] = NUL := by
      rw [e] at hp
      simp only [peek, List.headD_cons] at hp
      exact hp
    have e1 : m.drop (len + 1)
        = (m.drop (len + 1)).take (b - (len + 1)) ++ NUL :: m.drop (b + 1) := by
      rw [← hnul, ← e]
      have : m.drop b = (m.drop (len + 1)).drop (b - (len + 1)) := by
        rw [List.drop_drop]
        congr 1
        omega
      rw [this, List.take_append_drop]
    have hx : ((m.drop (len + 1)).take (b - (len + 1))).length = b - (len + 1) := by
      simp only [List.length_take, List.length_drop]
      omega
    have e2 : (m.drop (len + 1)).take (b - len + 1)
        = (m.drop (len + 1)).take (b - (len + 1)) ++ NUL :: (m.drop (b + 1)).take 1 := by
      conv_lhs => rw [e1]
      rw [List.take_append_eq_append_take, hx]
      have c1 : b - len + 1 - (b - (len + 1)) = 2 := by omega
      rw [c1, List.take_of_length_le (by rw [hx]; omega)]
      rfl
    rw [e2, List.append_assoc, List.cons_append]
    refine le_trans (strlen_append_nul _ _) ?_
    rw [hx]
    omega
  · refine le_trans (strlen_le_length _) ?_
    simp only [List.length_append, List.length_take, List.length_drop]
    omega

/-- Splitting the first line off keeps the recorded size and does not
lengthen the string. -/
theorem recv_line_split_strlen (pool : SockBuf) :
    strlen (recv_line_split pool).2.sockbuf ≤ strlen pool.sockbuf
    ∧ (recv_line_split pool).2.sockbuf_size = pool.sockbuf_size := by
  have hp := strtok_nl_peek pool.sockbuf
  unfold recv_line_split
  simp only
  split
  · exact ⟨strlen_le_of_peek _ _ hp, rfl⟩
  · simp only
    split
    · rename_i hlt
      exact ⟨memmove_strlen _ _ _ hlt hp, trivial⟩
    · rw [strlen_write_nul]
      exact ⟨Nat.zero_le _, trivial⟩

theorem clear_sock_strlen : ∀ (script : List RecvStep) (pool p : SockBuf),
    clear_sock pool script = some p → strlen p.sockbuf = 0 ∧ p.sockbuf_size = pool.sockbuf_size
  | [], _, _, h => by simp [clear_sock] at h
  | ev :: rest, pool, p, h => by
    unfold clear_sock at h
    split at h
    · have := clear_sock_strlen rest _ p h
      exact ⟨this.1, this.2⟩
    · simp only [Option.some.injEq] at h
      subst h
      exact ⟨strlen_write_nul _, rfl⟩

/-- The receive loop ends with the invariant in force and a size not below
the one it started with. -/
theorem recv_loop_fits (rbufsize : Nat) (hr : 0 < rbufsize) :
    ∀ (script : List RecvStep) (pool p : SockBuf) (rest : List RecvStep),
    strlen pool.sockbuf + 2 ≤ pool.sockbuf_size →
    recv_loop rbufsize pool script = some (p, rest) →
    strlen p.sockbuf + 2 ≤ p.sockbuf_size ∧ pool.sockbuf_size ≤ p.sockbuf_size
  | [], _, _, _, _, h => by simp [recv_loop] at h
  | ev :: t, pool, p, rest, hinv, h => by
    unfold recv_loop at h
    by_cases c : ev.n = 0 ∧ ev.eagain = false
    · rw [if_pos c] at h
      simp only [Option.some.injEq, Prod.mk.injEq] at h
      rw [← h.1]
      exact ⟨hinv, le_refl _⟩
    · rw [if_neg c] at h
      simp only at h
      generalize (if ev.n > 0 then ev.data.take ev.n.toNat else []) = s at h
      have hs := recalloc_sock_size rbufsize pool (strlen s) hr
      have hl := recalloc_sock_strlen rbufsize pool (strlen s) hr
      have hnew : strlen (strcat (recalloc_sock rbufsize pool (strlen s)).sockbuf s) + 2
          ≤ (recalloc_sock rbufsize pool (strlen s)).sockbuf_size := by
        rw [strlen_strcat, hl]
        exact hs.1
      split at h
      · have := recv_loop_fits rbufsize hr t _ p rest hnew h
        exact ⟨this.1, le_trans hs.2.1 this.2⟩
      · simp only [Option.some.injEq, Prod.mk.injEq] at h
        rw [← h.1]
        exact ⟨hnew, hs.2.1⟩
theorem memmove_reads_bound (pool : SockBuf) (i : Nat) (h : i ∈ memmove_reads pool) :
    i ≤ strlen pool.sockbuf + 1 := by
  unfold memmove_reads at h
  simp only at h
  split at h
  · simp at h
  · split at h
    · have := (List.mem_range'_1.mp h).2
      omega
    · simp at h

theorem memmove_reads_top (pool : SockBuf) (h : memmove_reads pool ≠ []) :
    strlen pool.sockbuf + 1 ∈ memmove_reads pool := by
  unfold memmove_reads at h ⊢
  simp only at h ⊢
  split
  · rename_i e
    rw [e] at h
    exact absurd rfl h
  · rename_i tok e
    rw [e] at h
    simp only at h
    split
    · rename_i c
      exact List.mem_range'_1.mpr ⟨by omega, by omega⟩
    · rename_i c
      rw [if_neg c] at h
      exact absurd rfl h

theorem strlen_replicate_nul (n : Nat) : strlen (List.replicate n NUL) = 0 := by
  cases n with
  | zero => rfl
  | succ k => exact strlen_of_peek_nul _ (by simp [List.replicate_succ, peek])

/-- A call of `recv_line` that returns leaves the invariant in force and the
size not below the one before. -/
theorem recv_line_fits (rbufsize : Nat) (pool : SockBuf) (readable : Bool)
    (script : List RecvStep) (r : Option (List Char) × SockBuf) (hr : 0 < rbufsize)
    (hinv : strlen pool.sockbuf + 2 ≤ pool.sockbuf_size)
    (h : recv_line rbufsize pool readable script = some r) :
    strlen r.2.sockbuf + 2 ≤ r.2.sockbuf_size ∧ pool.sockbuf_size ≤ r.2.sockbuf_size := by
  have after : ∀ (p1 : SockBuf) (rest : List RecvStep),
      strlen p1.sockbuf + 2 ≤ p1.sockbuf_size →
      (match recv_line_split p1 with
        | (none, pool2) => (clear_sock pool2 rest).map (fun p => ((none : Option (List Char)), p))
        | (some sret, pool2) => some (some sret, pool2)) = some r →
      strlen r.2.sockbuf + 2 ≤ r.2.sockbuf_size ∧ p1.sockbuf_size ≤ r.2.sockbuf_size := by
    intro p1 rest h1 h2
    have hsp := recv_line_split_strlen p1
    split at h2
    · rename_i pool2 e
      rw [e] at hsp
      simp only at hsp
      rcases hc : clear_sock pool2 rest with _ | p
      · rw [hc] at h2
        simp at h2
      · rw [hc] at h2
        simp only [Option.map_some', Option.some.injEq] at h2
        have := clear_sock_strlen rest pool2 p hc
        rw [← h2]
        simp only
        omega
    · rename_i sret pool2 e
      rw [e] at hsp
      simp only at hsp
      simp only [Option.some.injEq] at h2
      rw [← h2]
      simp only
      omega
  unfold recv_line at h
  split at h
  · split at h
    · rcases hc : clear_sock pool script with _ | p
      · rw [hc] at h
        simp at h
      · rw [hc] at h
        simp only [Option.map_some', Option.some.injEq] at h
        have := clear_sock_strlen script pool p hc
        rw [← h]
        simp only
        omega
    · rcases hl : recv_loop rbufsize pool script with _ | ⟨pool1, rest⟩
      · rw [hl] at h
        simp at h
      · rw [hl] at h
        simp only at h
        have h1 := recv_loop_fits rbufsize hr script pool pool1 rest hinv hl
        have h2 := after pool1 rest h1.1 h
        exact ⟨h2.1, le_trans h1.2 h2.2⟩
  · exact after pool script hinv h

/-- C36. The receive buffer keeps `strlen(sockbuf) + 2 <= sockbuf_size`.  It
holds after the first allocation of `RBUFSIZE` bytes (for `RBUFSIZE` of 2 or
more).  From a buffer where it holds, `recalloc_sock(pool, len)` followed by
`strcat` of a string of length `len` gives a buffer where it holds; the size
does not go down, and it is unchanged or a multiple of `RBUFSIZE`.  Every
offset the `memmove` of `recv_line` reads is below `sockbuf_size`, the highest
one being `buflen + 1`; and a call of `recv_line` that returns leaves the
invariant in force. -/
theorem sockbuf_invariant (rbufsize : Nat) (pool : SockBuf) (s : List Char) (len : Nat)
    (readable : Bool) (script : List RecvStep)
    (hr : 2 ≤ rbufsize) (hs : strlen s = len)
    (hinv : strlen pool.sockbuf + 2 ≤ pool.sockbuf_size) :
    strlen (calloc_sockbuf rbufsize).sockbuf + 2 ≤ (calloc_sockbuf rbufsize).sockbuf_size
    ∧ strlen (strcat (recalloc_sock rbufsize pool len).sockbuf s) + 2
        ≤ (recalloc_sock rbufsize pool len).sockbuf_size
    ∧ pool.sockbuf_size ≤ (recalloc_sock rbufsize pool len).sockbuf_size
    ∧ ((recalloc_sock rbufsize pool len).sockbuf_size = pool.sockbuf_size
        ∨ rbufsize ∣ (recalloc_sock rbufsize pool len).sockbuf_size)
    ∧ (∀ i ∈ memmove_reads pool, i < pool.sockbuf_size)
    ∧ (memmove_reads pool ≠ [] → strlen pool.sockbuf + 1 ∈ memmove_reads pool)
    ∧ (∀ r, recv_line rbufsize pool readable script = some r →
        strlen r.2.sockbuf + 2 ≤ r.2.sockbuf_size ∧ pool.sockbuf_size ≤ r.2.sockbuf_size) := by
  have h0 : 0 < rbufsize := by omega
  have hsz := recalloc_sock_size rbufsize pool len h0
  refine ⟨?_, ?_, hsz.2.1, hsz.2.2, ?_, memmove_reads_top pool, ?_⟩
  · show strlen (List.replicate rbufsize NUL) + 2 ≤ rbufsize
    rw [strlen_replicate_nul]
    omega
  · rw [strlen_strcat, recalloc_sock_strlen rbufsize pool len h0, hs]
    exact hsz.1
  · intro i hi
    have := memmove_reads_bound pool i hi
    omega
  · intro r h
    exact recv_line_fits rbufsize pool readable script r h0 hinv h

set_option maxRecDepth 100000 in
theorem sockbuf_invariant_witness :
    strlen (sockbuf_with "ab\ncdefghi" 16).sockbuf + 2 ≤ (sockbuf_with "ab\ncdefghi" 16).sockbuf_size
    ∧ (recalloc_sock 16 (sockbuf_with "ab\ncdefghi" 16) 7).sockbuf_size = 32
    ∧ strlen (strcat (recalloc_sock 16 (sockbuf_with "ab\ncdefghi" 16) 7).sockbuf
        "jklmno\n".toList) + 2 ≤ (recalloc_sock 16 (sockbuf_with "ab\ncdefghi" 16) 7).sockbuf_size
    ∧ memmove_reads (sockbuf_with "ab\ncdefghi" 16) = [3, 4, 5, 6, 7, 8, 9, 10, 11]
    ∧ (∀ i ∈ memmove_reads (sockbuf_with "ab\ncdefghi" 16),
        i < (sockbuf_with "ab\ncdefghi" 16).sockbuf_size) :=
  ⟨by decide, by decide,
   (sockbuf_invariant 16 (sockbuf_with "ab\ncdefghi" 16) "jklmno\n".toList 7 true []
      (by decide) (by decide) (by decide)).2.1,
   by decide,
   (sockbuf_invariant 16 (sockbuf_with "ab\ncdefghi" 16) "jklmno\n".toList 7 true []
      (by decide) (by decide) (by decide)).2.2.2.2.1⟩

/-! ## extract_sockaddr: a host that does not fit url_address -/

/-- For the URL made of an optional scheme followed by `://`, a host and an
optional non-empty `:port` (parts as in `extract_sockaddr_url`): when the host
has 256 characters or more, `sprintf(url_address, "%.*s", url_len, url_begin)`
stores `url_len + 1 > 256` bytes in `url_address[256]`, and the call has no
defined result. -/
theorem extract_sockaddr_long_host (pool : Pool) (scheme : Option (List Char))
    (host : List Char) (port : Option (List Char))
    (hsc : ∀ sc, scheme = some sc → ∀ x ∈ sc, x ≠ '/' ∧ x ≠ NUL)
    (hhost : ∀ x ∈ host, x ≠ '/' ∧ x ≠ NUL)
    (hport : ∀ p, port = some p → ∀ x ∈ p, x ≠ '/' ∧ x ≠ NUL)
    (hshape : ((∀ x ∈ host, x ≠ ':') ∧ (∀ p, port = some p → ∀ x ∈ p, x ≠ ']'))
      ∨ ∃ lit, host = '[' :: lit ++ [']'] ∧ ∀ x ∈ lit, x ≠ ']')
    (hlong : 256 ≤ host.length) (hp : ∀ p, port = some p → 1 ≤ p.length) :
    extract_sockaddr pool (make_url scheme host port) = none := by
  have hnul : ∀ c ∈ make_url scheme host port, c ≠ NUL := by
    intro c hc
    unfold make_url at hc
    rcases List.mem_append.mp hc with hc | hc
    · rcases List.mem_append.mp hc with hc | hc
      · cases scheme with
        | none => simp [scheme_part] at hc
        | some sc =>
          rcases List.mem_append.mp hc with hc | hc
          · exact (hsc sc rfl c hc).2
          · have : c = ':' ∨ c = '/' := by
              simpa using hc
            rcases this with h | h <;> (rw [h]; decide)
      · exact (hhost c hc).2
    · rcases port_part_mem port c hc with h | ⟨p, hp, h⟩
      · rw [h]; decide
      · exact (hport p hp c h).2
  have hub := make_url_begin scheme (host ++ port_part port)
    (fun sc h x hx => (hsc sc h x hx).1)
    (by
      intro _ x hx
      rcases List.mem_append.mp hx with hx | hx
      · exact (hhost x hx).1
      · rcases port_part_mem port x hx with h | ⟨p, hp, h⟩
        · rw [h]; decide
        · exact (hport p hp x h).1)
  have hmk : make_url scheme host port = scheme_part scheme ++ (host ++ port_part port) := by
    unfold make_url
    rw [List.append_assoc]
  rw [← hmk] at hub
  have hex := extract_from_begin pool (make_url scheme host port) _ hnul hub
  have hend := url_end_host host (port_part port)
    (by
      rcases hshape with ⟨h1, h2⟩ | h3
      · left
        refine ⟨h1, ?_⟩
        intro x hx
        rcases port_part_mem port x hx with h | ⟨p, hp, h⟩
        · rw [h]; decide
        · exact h2 p hp x h
      · right
        exact h3)
  rw [hex, hend]
  have h1 : ¬ ((host.length : Int) < 1) := by omega
  have h2 : (host.length : Int) ≥ 256 := by omega
  cases port with
  | none =>
    simp only [port_part, List.append_nil, strstr, List.isEmpty_cons, Bool.false_eq_true,
      if_false, Option.map_none']
    simp only [h1, h2, if_false, if_true]
  | some p =>
    simp only [port_part, strstr_char_head, Option.map_some', Nat.add_zero,
      List.length_append, List.length_cons]
    have hpl : ((host.length + (p.length + 1) : Nat) : Int) - (host.length : Int) - 1
        = (p.length : Int) := by
      push_cast
      omega
    rw [hpl]
    have h0 : ¬ ((p.length : Int) < 1) := by
      have := hp p rfl
      omega
    simp only [h0, h1, h2, if_false, if_true]

set_option maxRecDepth 1000000 in
/-- C26. `extract_sockaddr` copies the host into `url_address[256]` with an
unbounded `sprintf`: for the URL that is a host of 256 letters, alone or with
a scheme and a port of four digits, the copy needs 257 bytes and the call has
no defined result, where a host of 255 letters is returned with the port
`80`. -/
theorem extract_sockaddr_host_overflow :
    extract_sockaddr {} (List.replicate 256 'a') = none
    ∧ extract_sockaddr {} (make_url (some "stratum+tcp".toList) (List.replicate 256 'a')
        (some "3333".toList)) = none
    ∧ extract_sockaddr {} (List.replicate 255 'a')
      = some (true, { sockaddr_url := some (String.mk (List.replicate 255 'a')),
                      stratum_port := some "80" }) := by
  decide

/-- A `[` and a `]` anywhere in the URL make `extract_sockaddr` look for the
`:` of the port behind the `]`: `a[b:1]` is taken as the host `a[b:1]` with
the port `80`, and `h[:]:1` as the host `h[:]` with the port `1`. -/
theorem extract_sockaddr_bracket_inside :
    extract_sockaddr {} "a[b:1]".toList
      = some (true, { sockaddr_url := some "a[b:1]", stratum_port := some "80" })
    ∧ extract_sockaddr {} "h[:]:1".toList
      = some (true, { sockaddr_url := some "h[:]", stratum_port := some "1" }) := by
  decide

/-! ## sscanf: a `0x` with no digit behind it -/

/-- The pair `0x` (or `0X`) converts to 0: `hex2bin` stores the byte 0 for it
and goes on. -/
theorem hex2bin_bare_0x :
    sscanf_x "0x".toList = some 0 ∧ sscanf_x "0X".toList = some 0
    ∧ hex2bin "0x".toList 1 = (true, [0]) ∧ hex2bin "ff0X".toList 2 = (true, [0xFF, 0]) := by
  decide

end Cgminer
